import Mathlib

/-!
# Step protection of zrepl: hold tags, step markers and `PreSend`

A shallow embedding of `endpoint/endpoint_zfs_abstraction_step.go`.

* Go strings are Lean `String`s; text operations are carried out on the
  character list `String.data`.
* A Go `error` is a value of `Error`; `nil` is `none`.
* A Go function that can panic returns `Go α`; one that also talks to ZFS
  returns `Run σ α`, threading the ZFS state and a record of every ZFS call.
* Functions of the packages `zfs` and `endpoint` whose source is not part of
  the translated files are fields of `Deps` (pure helpers) and `ZFS`
  (stateful commands).
-/

namespace Zrepl

/-! ## Errors and results -/

/-- A Go `error` value. `ErrBookmarkCloningNotSupported` is the sentinel of
package `zfs`, `errorf` is `fmt.Errorf`, `wrap` is `errors.Wrap`, and
`external` stands for an error produced by code outside the translated files. -/
inductive Error where
  | ErrBookmarkCloningNotSupported : Error
  | errorf (msg : String) : Error
  | wrap (cause : Error) (msg : String) : Error
  | external (code : Nat) : Error
  deriving DecidableEq, Repr

/-- The outcome of a Go call that may panic. -/
inductive Go (α : Type) where
  | ret (a : α) : Go α
  | panic (msg : String) : Go α
  deriving DecidableEq, Repr

/-! ## Data model -/

/-- The `zfs.VersionType` enumeration. -/
inductive VersionType where
  | Bookmark : VersionType
  | Snapshot : VersionType
  deriving DecidableEq, Repr

/-- The `zfs.FilesystemVersion` record: a snapshot or a bookmark of a dataset. -/
structure FilesystemVersion where
  Type_ : VersionType
  Name : String
  Guid : Nat
  CreateTXG : Nat
  Creation : Nat
  deriving DecidableEq, Repr

/-- The method `FilesystemVersion.IsSnapshot`. -/
def FilesystemVersion.IsSnapshot (v : FilesystemVersion) : Bool :=
  v.Type_ = VersionType.Snapshot

/-- The type `zfs.DatasetPath`: the components of a dataset path. -/
structure DatasetPath where
  comps : List String
  deriving DecidableEq, Repr

/-- The method `DatasetPath.ToString`: the components joined by `/`. -/
def DatasetPath.ToString (p : DatasetPath) : String :=
  "/".intercalate p.comps

/-- The type `endpoint.JobID`: a wrapper around the job name. -/
structure JobID where
  jid : String
  deriving DecidableEq, Repr

/-- The method `JobID.String`. -/
def JobID.String (j : JobID) : String := j.jid

/-- The kinds of abstraction (`AbstractionType`). -/
inductive AbstractionType where
  | AbstractionStepHold : AbstractionType
  | AbstractionStepBookmark : AbstractionType
  | AbstractionLastReceivedHold : AbstractionType
  | AbstractionTentativeReplicationCursorBookmark : AbstractionType
  | AbstractionReplicationCursorBookmarkV2 : AbstractionType
  deriving DecidableEq, Repr

/-- The struct `holdBasedAbstraction`. -/
structure holdBasedAbstraction where
  Type_ : AbstractionType
  FS : String
  Tag : String
  JobID : JobID
  FilesystemVersion : FilesystemVersion
  deriving DecidableEq, Repr

/-- The struct `bookmarkBasedAbstraction`. -/
structure bookmarkBasedAbstraction where
  Type_ : AbstractionType
  FS : String
  FilesystemVersion : FilesystemVersion
  JobID : JobID
  deriving DecidableEq, Repr

/-- A non-nil value of the interface `Abstraction`; a nil interface value is
`none : Option Abstraction`. -/
inductive Abstraction where
  | hold (h : holdBasedAbstraction) : Abstraction
  | bookmark (b : bookmarkBasedAbstraction) : Abstraction
  deriving DecidableEq, Repr

/-- The accessor `GetType`. -/
def Abstraction.GetType : Abstraction → AbstractionType
  | .hold h => h.Type_
  | .bookmark b => b.Type_

/-- The accessor `GetFS`. -/
def Abstraction.GetFS : Abstraction → String
  | .hold h => h.FS
  | .bookmark b => b.FS

/-- The accessor `GetJobID`. -/
def Abstraction.GetJobID : Abstraction → JobID
  | .hold h => h.JobID
  | .bookmark b => b.JobID

/-- The accessor `GetFilesystemVersion`. -/
def Abstraction.GetFilesystemVersion : Abstraction → FilesystemVersion
  | .hold h => h.FilesystemVersion
  | .bookmark b => b.FilesystemVersion

/-- The hold tag of a hold-based abstraction; a bookmark has none. -/
def Abstraction.GetTag : Abstraction → Option String
  | .hold h => some h.Tag
  | .bookmark _ => none

/-! ## Helpers whose source is outside the translated files -/

/-- The pure helpers that `endpoint_zfs_abstraction_step.go` calls and whose
source is not among the translated files.

* `jobIDCheck s` is the validation `MakeJobID` applies to the string `s`
  (`none` when `s` is admitted).
* `ValidHoldTag` is `zfs.ValidHoldTag`.
* `makeJobAndGuidBookmarkName prefix fs guid jobid` and
  `parseJobAndGuidBookmarkName fullname prefix` are the bookmark name
  encoder and decoder shared by all bookmark kinds.
* `ToAbsPath v fs` is `FilesystemVersion.ToAbsPath`. -/
structure Deps where
  jobIDCheck : String → Option Error
  ValidHoldTag : String → Option Error
  makeJobAndGuidBookmarkName : String → String → Nat → String → Except Error String
  parseJobAndGuidBookmarkName : String → String → Nat × JobID × Option Error
  ToAbsPath : FilesystemVersion → DatasetPath → String

/-- The constructor `MakeJobID`: the string is validated and, when admitted,
wrapped unchanged. The validation itself is `Deps.jobIDCheck`. -/
def MakeJobID (d : Deps) (s : String) : Except Error JobID :=
  match d.jobIDCheck s with
  | some e => .error e
  | none => .ok ⟨s⟩

/-! ## Step hold tags -/

/-- The literal that starts every step hold tag. -/
def stepHoldTagLit : String := "zrepl_STEP_J_"

/-- The call `stepHoldTagRE.FindStringSubmatch tag` for the regular expression
`^zrepl_STEP_J_(.+)`. The match is anchored at the start of `tag` only; `.`
matches every character except the line feed and `+` is greedy, so group 1 is
the longest line-feed-free run after the literal, which has to be non-empty.
The result is the pair (whole match, group 1). -/
def stepHoldTagRE_FindStringSubmatch (tag : String) : Option (String × String) :=
  if stepHoldTagLit.data.isPrefixOf tag.data then
    let g := (tag.data.drop stepHoldTagLit.data.length).takeWhile (fun c => c != Char.ofNat 10)
    if g.isEmpty then none else some (⟨stepHoldTagLit.data ++ g⟩, ⟨g⟩)
  else none

/-- The function `stepHoldTagImpl`. The result pair is (tag, error). -/
def stepHoldTagImpl (d : Deps) (jobid : String) : String × Option Error :=
  let t := stepHoldTagLit ++ jobid
  match d.ValidHoldTag t with
  | some err => ("", some err)
  | none => (t, none)

/-- The function `StepHoldTag`. -/
def StepHoldTag (d : Deps) (jobid : JobID) : String × Option Error :=
  stepHoldTagImpl d jobid.String

/-- The function `ParseStepHoldTag`. The result pair is (job, error); the
zero value `JobID{}` accompanies an error. -/
def ParseStepHoldTag (d : Deps) (tag : String) : JobID × Option Error :=
  match stepHoldTagRE_FindStringSubmatch tag with
  | none => (⟨""⟩, some (.errorf "parse hold tag: match regex \"^zrepl_STEP_J_(.+)\""))
  | some m =>
    match MakeJobID d m.2 with
    | .error err => (⟨""⟩, some (.wrap err "parse hold tag: invalid job id field"))
    | .ok jobID => (jobID, none)

/-! ## A concrete choice of the helpers, for evaluating the code on examples -/

/-- Sample job name validation: a non-empty string over letters, digits and
the characters `-`, `_`, `.`, `:`. -/
def sampleJobIDCheck (s : String) : Option Error :=
  if s.data.isEmpty then some (.errorf "must not be empty string")
  else if s.data.all (fun c => c.isAlphanum || c == Char.ofNat 45 || c == Char.ofNat 95
      || c == Char.ofNat 46 || c == Char.ofNat 58) then none
  else some (.errorf "must be usable as a dataset path component")

/-- The lower-case hexadecimal digit of a number below 16. -/
def hexDigit (n : Nat) : Char :=
  if n < 10 then Char.ofNat (48 + n) else Char.ofNat (87 + n)

/-- The value of a lower-case hexadecimal digit. -/
def hexValue (c : Char) : Option Nat :=
  if 48 ≤ c.toNat ∧ c.toNat ≤ 57 then some (c.toNat - 48)
  else if 97 ≤ c.toNat ∧ c.toNat ≤ 102 then some (c.toNat - 87)
  else none

/-- The sixteen lower-case hexadecimal digits of a 64-bit number. -/
def hex16 (n : Nat) : List Char :=
  (List.range 16).reverse.map (fun i => hexDigit (n / 16 ^ i % 16))

/-- Sample bookmark name encoder: `<prefix>_G_<guid as 16 hex digits>_J_<jobid>`. -/
def sampleMakeName (pre _fs : String) (guid : Nat) (jobid : String) : Except Error String :=
  .ok (pre ++ "_G_" ++ ⟨hex16 guid⟩ ++ "_J_" ++ jobid)

/-- Sample bookmark name decoder for full names `<fs>#<prefix>_G_<guid>_J_<jobid>`. -/
def sampleParseName (fullname pre : String) : Nat × JobID × Option Error :=
  let name := (fullname.data.dropWhile (fun c => c != Char.ofNat 35)).drop 1
  let head := (pre ++ "_G_").data
  if head.isPrefixOf name then
    let rest := name.drop head.length
    match (rest.take 16).mapM hexValue with
    | some ds =>
      if ds.length = 16 ∧ "_J_".data.isPrefixOf (rest.drop 16) then
        let jobid : String := ⟨(rest.drop 16).drop 3⟩
        match sampleJobIDCheck jobid with
        | none => (ds.foldl (fun a x => a * 16 + x) 0, ⟨jobid⟩, none)
        | some e => (0, ⟨""⟩, some e)
      else (0, ⟨""⟩, some (.errorf "parse bookmark name: guid and job fields"))
    | none => (0, ⟨""⟩, some (.errorf "parse bookmark name: guid field"))
  else (0, ⟨""⟩, some (.errorf "parse bookmark name: prefix"))

/-- A concrete choice of the helpers: job names as in `sampleJobIDCheck`, hold
tags of at most 255 characters, bookmark names as in `sampleMakeName`, and
absolute paths `<fs>@<name>` for snapshots and `<fs>#<name>` for bookmarks. -/
def sampleDeps : Deps where
  jobIDCheck := sampleJobIDCheck
  ValidHoldTag := fun t =>
    if t.data.length > 255 then some (.errorf "hold tag exceeds max length") else none
  makeJobAndGuidBookmarkName := sampleMakeName
  parseJobAndGuidBookmarkName := sampleParseName
  ToAbsPath := fun v fs =>
    fs.ToString ++ (if v.Type_ = VersionType.Bookmark then "#" else "@") ++ v.Name

/-! ## Step bookmark names -/

/-- The constant `stepBookmarkNamePrefix`. -/
def stepBookmarkNamePrefix : String := "zrepl_STEP"

/-- The function `stepBookmarkNameImpl`. -/
def stepBookmarkNameImpl (d : Deps) (fs : String) (guid : Nat) (jobid : String) :
    Except Error String :=
  d.makeJobAndGuidBookmarkName stepBookmarkNamePrefix fs guid jobid

/-- The function `StepBookmarkName`. -/
def StepBookmarkName (d : Deps) (fs : String) (guid : Nat) (id : JobID) : Except Error String :=
  stepBookmarkNameImpl d fs guid id.String

/-- The function `ParseStepBookmarkName`; the three components are the named
results `guid`, `jobID` and `err`. An error of the decoder is wrapped. -/
def ParseStepBookmarkName (d : Deps) (fullname : String) : Nat × JobID × Option Error :=
  match d.parseJobAndGuidBookmarkName fullname stepBookmarkNamePrefix with
  | (guid, jobID, some err) => (guid, jobID, some (.wrap err "parse step bookmark name"))
  | (guid, jobID, none) => (guid, jobID, none)

/-! ## ZFS commands and the state they act on -/

/-- One command sent to ZFS through package `zfs`, together with its outcome. -/
inductive ZFSCall where
  | ZFSHold (fs : String) (v : FilesystemVersion) (tag : String) (err : Option Error) : ZFSCall
  | ZFSBookmark (fs : String) (v : FilesystemVersion) (bookmark : String)
      (res : Except Error FilesystemVersion) : ZFSCall

/-- The version a ZFS command was issued for. -/
def ZFSCall.version : ZFSCall → FilesystemVersion
  | .ZFSHold _ v _ _ => v
  | .ZFSBookmark _ v _ _ => v

/-- Whether the ZFS command reported success. -/
def ZFSCall.succeeded : ZFSCall → Bool
  | .ZFSHold _ _ _ none => true
  | .ZFSHold _ _ _ (some _) => false
  | .ZFSBookmark _ _ _ (.ok _) => true
  | .ZFSBookmark _ _ _ (.error _) => false

/-- Whether the command is a `ZFSHold`. -/
def ZFSCall.isHold : ZFSCall → Bool
  | .ZFSHold _ _ _ _ => true
  | .ZFSBookmark _ _ _ _ => false

/-- The two stateful functions of package `zfs` used by the step protection,
over a ZFS state `σ`: `ZFSHold ctx fs v tag` and `ZFSBookmark ctx fs v bookmark`.
Their source is not among the translated files. -/
structure ZFS (σ : Type) where
  ZFSHold : σ → String → FilesystemVersion → String → Option Error × σ
  ZFSBookmark : σ → String → FilesystemVersion → String → Except Error FilesystemVersion × σ

/-- A line written through `getLogger(ctx)`: the level and the message (the
attached fields are not recorded). -/
inductive LogEntry where
  | Info (msg : String) : LogEntry
  | Debug (msg : String) : LogEntry
  deriving DecidableEq, Repr

/-- The world a step protection call runs in: the ZFS state, the ZFS commands
issued so far (oldest first) and the log lines written so far. -/
structure Sys (σ : Type) where
  zfs : σ
  calls : List ZFSCall
  log : List LogEntry

/-- The outcome of a call that acts on the world and may panic. -/
inductive Run (σ α : Type) where
  | done (a : α) (w : Sys σ) : Run σ α
  | panic (msg : String) (w : Sys σ) : Run σ α

/-- Issue `zfs.ZFSHold` and record it. -/
def Sys.ZFSHold {σ : Type} (z : ZFS σ) (w : Sys σ) (fs : String) (v : FilesystemVersion)
    (tag : String) : Option Error × Sys σ :=
  let r := z.ZFSHold w.zfs fs v tag
  (r.1, { w with zfs := r.2, calls := w.calls ++ [.ZFSHold fs v tag r.1] })

/-- Issue `zfs.ZFSBookmark` and record it. -/
def Sys.ZFSBookmark {σ : Type} (z : ZFS σ) (w : Sys σ) (fs : String) (v : FilesystemVersion)
    (bookmark : String) : Except Error FilesystemVersion × Sys σ :=
  let r := z.ZFSBookmark w.zfs fs v bookmark
  (r.1, { w with zfs := r.2, calls := w.calls ++ [.ZFSBookmark fs v bookmark r.1] })

/-- Write a log line. -/
def Sys.logLine {σ : Type} (w : Sys σ) (e : LogEntry) : Sys σ :=
  { w with log := w.log ++ [e] }

/-! ## Creating step markers -/

/-- The function `HoldStep`. The result pair is (abstraction, error). -/
def HoldStep {σ : Type} (d : Deps) (z : ZFS σ) (w : Sys σ) (fs : String)
    (v : FilesystemVersion) (jobID : JobID) : Run σ (Option Abstraction × Option Error) :=
  if !v.IsSnapshot then
    .panic "version must be a snapshot" w
  else
    match StepHoldTag d jobID with
    | (_, some err) => .done (none, some (.wrap err "step hold tag")) w
    | (tag, none) =>
      match Sys.ZFSHold z w fs v tag with
      | (some err, w1) => .done (none, some (.wrap err "step hold: zfs")) w1
      | (none, w1) =>
        .done (some (.hold
          { Type_ := .AbstractionStepHold
            FS := fs
            Tag := tag
            JobID := jobID
            FilesystemVersion := v }), none) w1

/-- The function `BookmarkStep`. The result pair is (abstraction, error). -/
def BookmarkStep {σ : Type} (d : Deps) (z : ZFS σ) (w : Sys σ) (fs : String)
    (v : FilesystemVersion) (jobID : JobID) : (Option Abstraction × Option Error) × Sys σ :=
  match StepBookmarkName d fs v.Guid jobID with
  | .error err => ((none, some (.wrap err "create step bookmark: determine bookmark name")), w)
  | .ok bmname =>
    match Sys.ZFSBookmark z w fs v bmname with
    | (.error err, w1) =>
      if err = .ErrBookmarkCloningNotSupported then
        ((none, some err), w1)
      else
        ((none, some (.wrap err "create step bookmark: zfs")), w1)
    | (.ok stepBookmark, w1) =>
      ((some (.bookmark
        { Type_ := .AbstractionStepBookmark
          FS := fs
          FilesystemVersion := stepBookmark
          JobID := jobID }), none), w1)

/-! ## Strategies -/

/-- The type `StepProtectionStrategyKind`, a Go `int`. -/
abbrev StepProtectionStrategyKind := Int

/-- The constant `StepProtectionStrategyKindHolds`, `1 << 0`. -/
def StepProtectionStrategyKindHolds : StepProtectionStrategyKind := 1

/-- The constant `StepProtectionStrategyKindBookmarks`, `1 << 1`. -/
def StepProtectionStrategyKindBookmarks : StepProtectionStrategyKind := 2

/-- The constant `StepProtectionStrategyKindNone`, `1 << 2`. -/
def StepProtectionStrategyKindNone : StepProtectionStrategyKind := 4

/-- The implementations of the interface `StepProtectionStrategy`. -/
inductive StepProtectionStrategy where
  | StepProtectionStrategyNone : StepProtectionStrategy
  | StepProtectionStrategyBookmarks : StepProtectionStrategy
  | StepProtectionStrategyHolds : StepProtectionStrategy
  deriving DecidableEq, Repr

/-- The method `Kind` of the three strategies. -/
def StepProtectionStrategy.Kind : StepProtectionStrategy → StepProtectionStrategyKind
  | .StepProtectionStrategyNone => StepProtectionStrategyKindNone
  | .StepProtectionStrategyBookmarks => StepProtectionStrategyKindBookmarks
  | .StepProtectionStrategyHolds => StepProtectionStrategyKindHolds

/-- The function `StepProtectionStrategyFromKind`. -/
def StepProtectionStrategyFromKind (k : StepProtectionStrategyKind) : Go StepProtectionStrategy :=
  if k = StepProtectionStrategyKindNone then .ret .StepProtectionStrategyNone
  else if k = StepProtectionStrategyKindBookmarks then .ret .StepProtectionStrategyBookmarks
  else if k = StepProtectionStrategyKindHolds then .ret .StepProtectionStrategyHolds
  else .panic "unreachable"

/-- The fields of `zfs.ZFSSendArgsValidated` that decide what `PreSend` does;
`FromVersion` is `none` for a nil pointer (full send). The field `From` is
read only to label a log line and is set whenever `FromVersion` is. -/
structure ZFSSendArgsValidated where
  FS : String
  FromVersion : Option FilesystemVersion
  ToVersion : FilesystemVersion
  deriving DecidableEq, Repr

/-- The message logged when ZFS cannot bookmark a bookmark. -/
def msgCloningNotSupported : String :=
  "bookmark cloning is not supported, speculating that `from` will not be destroyed until step is done"

/-- The message logged when the holds strategy meets a bookmark. -/
def msgCannotHoldBookmark : String :=
  "cannot hold a bookmark, trying to fall back to a step bookmark"

/-- The method `StepProtectionStrategyNone.PreSend`. The result pair is
(keep, err); a nil slice is the empty list. -/
def StepProtectionStrategyNone_PreSend {σ : Type} (_d : Deps) (_z : ZFS σ) (w : Sys σ)
    (_jid : JobID) (_sendArgs : ZFSSendArgsValidated) :
    Run σ (List (Option Abstraction) × Option Error) :=
  .done ([], none) w

/-- The method `StepProtectionStrategyBookmarks.PreSend`. An element `none` of
`keep` is a nil `Abstraction` in the slice. -/
def StepProtectionStrategyBookmarks_PreSend {σ : Type} (d : Deps) (z : ZFS σ) (w : Sys σ)
    (jid : JobID) (sendArgs : ZFSSendArgsValidated) :
    Run σ (List (Option Abstraction) × Option Error) :=
  let toStep := fun (keep : List (Option Abstraction)) (w : Sys σ) =>
    match BookmarkStep d z w sendArgs.FS sendArgs.ToVersion jid with
    | ((_, some err), w2) => Run.done (([] : List (Option Abstraction)), some err) w2
    | ((to_, none), w2) => Run.done (keep ++ [to_], none) w2
  match sendArgs.FromVersion with
  | some fromVersion =>
    match BookmarkStep d z w sendArgs.FS fromVersion jid with
    | ((from_, some err), w1) =>
      if err = .ErrBookmarkCloningNotSupported then
        toStep [from_] (w1.logLine (.Info msgCloningNotSupported))
      else
        .done ([], some err) w1
    | ((from_, none), w1) => toStep [from_] w1
  | none => toStep [] w

/-- The method `StepProtectionStrategyHolds.PreSend`. -/
def StepProtectionStrategyHolds_PreSend {σ : Type} (d : Deps) (z : ZFS σ) (w : Sys σ)
    (jid : JobID) (sendArgs : ZFSSendArgsValidated) :
    Run σ (List (Option Abstraction) × Option Error) :=
  let toStep := fun (keep : List (Option Abstraction)) (w : Sys σ) =>
    match HoldStep d z w sendArgs.FS sendArgs.ToVersion jid with
    | .panic msg w2 => Run.panic msg w2
    | .done (_, some err) w2 => Run.done (([] : List (Option Abstraction)), some err) w2
    | .done (to_, none) w2 => Run.done (keep ++ [to_], none) w2
  match sendArgs.FromVersion with
  | some fromVersion =>
    if fromVersion.Type_ = VersionType.Bookmark then
      match BookmarkStep d z (w.logLine (.Debug msgCannotHoldBookmark)) sendArgs.FS fromVersion jid with
      | ((from_, some err), w1) =>
        if err = .ErrBookmarkCloningNotSupported then
          toStep [from_] (w1.logLine (.Info msgCloningNotSupported))
        else
          .done ([], some err) w1
      | ((from_, none), w1) => toStep [from_] w1
    else
      match HoldStep d z w sendArgs.FS fromVersion jid with
      | .panic msg w1 => .panic msg w1
      | .done (_, some err) w1 => .done ([], some err) w1
      | .done (from_, none) w1 => toStep [from_] w1
  | none => toStep [] w

/-- The interface method `PreSend`, dispatched on the strategy. -/
def StepProtectionStrategy.PreSend {σ : Type} (s : StepProtectionStrategy) (d : Deps)
    (z : ZFS σ) (w : Sys σ) (jid : JobID) (sendArgs : ZFSSendArgsValidated) :
    Run σ (List (Option Abstraction) × Option Error) :=
  match s with
  | .StepProtectionStrategyNone => StepProtectionStrategyNone_PreSend d z w jid sendArgs
  | .StepProtectionStrategyBookmarks => StepProtectionStrategyBookmarks_PreSend d z w jid sendArgs
  | .StepProtectionStrategyHolds => StepProtectionStrategyHolds_PreSend d z w jid sendArgs

/-! ## Extractors -/

/-- The function `StepBookmarkExtractor`; `none` is the nil abstraction. -/
def StepBookmarkExtractor (d : Deps) (fs : DatasetPath) (v : FilesystemVersion) :
    Go (Option Abstraction) :=
  if v.Type_ ≠ VersionType.Bookmark then
    .panic "impl error"
  else
    let fullname := d.ToAbsPath v fs
    match ParseStepBookmarkName d fullname with
    | (guid, jobid, err) =>
      if guid ≠ v.Guid then
        .ret none
      else if err = none then
        .ret (some (.bookmark
          { Type_ := .AbstractionStepBookmark
            FS := fs.ToString
            FilesystemVersion := v
            JobID := jobid }))
      else
        .ret none

/-- The function `StepHoldExtractor`; `none` is the nil abstraction. -/
def StepHoldExtractor (d : Deps) (fs : DatasetPath) (v : FilesystemVersion) (holdTag : String) :
    Go (Option Abstraction) :=
  if v.Type_ ≠ VersionType.Snapshot then
    .panic "impl error"
  else
    match ParseStepHoldTag d holdTag with
    | (jobID, none) =>
      .ret (some (.hold
        { Type_ := .AbstractionStepHold
          FS := fs.ToString
          Tag := holdTag
          FilesystemVersion := v
          JobID := jobID }))
    | (_, some _) => .ret none

/-! ## A model of the ZFS capability -/

/-- The state of the modelled ZFS: whether the kernel can bookmark a bookmark,
the holds in place as (filesystem, snapshot, tag) and the bookmarks in place
as (filesystem, bookmark). -/
structure ZFSModel where
  bookmarkCloning : Bool
  holds : List (String × FilesystemVersion × String)
  bookmarks : List (String × FilesystemVersion)
  deriving DecidableEq, Repr

/-- The bookmark named `name` on filesystem `fs`, if there is one. -/
def ZFSModel.findBookmark (s : ZFSModel) (fs name : String) : Option FilesystemVersion :=
  (s.bookmarks.find? (fun b => b.1 == fs && b.2.Name == name)).map (fun b => b.2)

/-- Modelled from the spec: `zfs.ZFSHold`, which is not among the translated
files. The spec lists `hold(ctx, filesystem, snapshot, tag)` as "idempotent;
'already held by this tag' is success", and its glossary says a bookmark
"cannot be held". A hold that is already in place is left as it is; a new
one is recorded. -/
def ZFSModel.ZFSHold (s : ZFSModel) (fs : String) (v : FilesystemVersion) (tag : String) :
    Option Error × ZFSModel :=
  if v.Type_ ≠ VersionType.Snapshot then
    (some (.external 1), s)
  else if (fs, v, tag) ∈ s.holds then
    (none, s)
  else
    (none, { s with holds := s.holds ++ [(fs, v, tag)] })

/-- Modelled from the spec: `zfs.ZFSBookmark`, which is not among the
translated files. The spec lists `bookmark(ctx, filesystem, version, name)`
as returning the created bookmark and "distinguished
`BookmarkCloningNotSupported` when asked to bookmark a bookmark on a kernel
lacking that feature"; "creating one that already exists (same name, same
target guid) is success and returns the existing bookmark". A bookmark has
the guid and creation data of the version it was taken of. A name that is
taken by a bookmark of another guid is an error. -/
def ZFSModel.ZFSBookmark (s : ZFSModel) (fs : String) (v : FilesystemVersion) (name : String) :
    Except Error FilesystemVersion × ZFSModel :=
  if v.Type_ = VersionType.Bookmark ∧ s.bookmarkCloning = false then
    (.error .ErrBookmarkCloningNotSupported, s)
  else
    match s.findBookmark fs name with
    | some existing =>
      if existing.Guid = v.Guid then (.ok existing, s) else (.error (.external 2), s)
    | none =>
      let bm : FilesystemVersion :=
        { Type_ := .Bookmark, Name := name, Guid := v.Guid,
          CreateTXG := v.CreateTXG, Creation := v.Creation }
      (.ok bm, { s with bookmarks := s.bookmarks ++ [(fs, bm)] })

/-- The modelled ZFS as the capability consumed by the step protection. -/
def modelZFS : ZFS ZFSModel where
  ZFSHold := ZFSModel.ZFSHold
  ZFSBookmark := ZFSModel.ZFSBookmark

/-- A world with the given ZFS state in which nothing has happened yet. -/
def Sys.start {σ : Type} (s : σ) : Sys σ :=
  { zfs := s, calls := [], log := [] }

/-- The result of a run, if it did not panic. -/
def Run.result {σ α : Type} : Run σ α → Option α
  | .done a _ => some a
  | .panic _ _ => none

/-- The world a run ends in. -/
def Run.world {σ α : Type} : Run σ α → Sys σ
  | .done _ w => w
  | .panic _ w => w

/-! ## Sample data -/

/-- A snapshot `@1`. -/
def snap1 : FilesystemVersion :=
  { Type_ := .Snapshot, Name := "1", Guid := 101, CreateTXG := 11, Creation := 1000 }

/-- A snapshot `@2`. -/
def snap2 : FilesystemVersion :=
  { Type_ := .Snapshot, Name := "2", Guid := 102, CreateTXG := 12, Creation := 2000 }

/-- A bookmark `#1` of the snapshot `@1`. -/
def book1 : FilesystemVersion :=
  { Type_ := .Bookmark, Name := "1", Guid := 101, CreateTXG := 11, Creation := 1000 }

/-- The job name used by the platform tests. -/
def senderJob : JobID := ⟨"sender-job"⟩

/-- An empty ZFS whose kernel can bookmark bookmarks. -/
def zfsEmpty : ZFSModel := { bookmarkCloning := true, holds := [], bookmarks := [] }

/-- An empty ZFS whose kernel cannot bookmark bookmarks. -/
def zfsNoCloning : ZFSModel := { bookmarkCloning := false, holds := [], bookmarks := [] }

/-- The state `s'` extends `s`: the kernel is the same, every bookmark name
that resolves in `s` resolves to the same bookmark in `s'`, and every hold of
`s` is in place in `s'`. -/
def ZFSModel.le (s s' : ZFSModel) : Prop :=
  s'.bookmarkCloning = s.bookmarkCloning
    ∧ (∀ fs n b, s.findBookmark fs n = some b → s'.findBookmark fs n = some b)
    ∧ (∀ h, h ∈ s.holds → h ∈ s'.holds)

/-- In state `s`, the request to bookmark `v` as `n` on `fs` is answered by
`r` from what is already there. -/
def ZFSModel.settledBookmark (s : ZFSModel) (fs : String) (v : FilesystemVersion) (n : String)
    (r : Except Error FilesystemVersion) : Prop :=
  (v.Type_ = VersionType.Bookmark ∧ s.bookmarkCloning = false
      ∧ r = .error .ErrBookmarkCloningNotSupported)
    ∨ (¬ (v.Type_ = VersionType.Bookmark ∧ s.bookmarkCloning = false)
      ∧ ∃ e, s.findBookmark fs n = some e
        ∧ ((e.Guid = v.Guid ∧ r = .ok e) ∨ (e.Guid ≠ v.Guid ∧ r = .error (.external 2))))

/-- In state `s`, the request to hold `v` with `tag` on `fs` is answered by
`r` from what is already there. -/
def ZFSModel.settledHold (s : ZFSModel) (fs : String) (v : FilesystemVersion) (tag : String)
    (r : Option Error) : Prop :=
  (v.Type_ ≠ VersionType.Snapshot ∧ r = some (.external 1))
    ∨ (v.Type_ = VersionType.Snapshot ∧ (fs, v, tag) ∈ s.holds ∧ r = none)

/-- The tail of `StepProtectionStrategyBookmarks.PreSend`: bookmark `ToVersion`
and append the marker to `keep`. -/
def bookmarksToStep {σ : Type} (d : Deps) (z : ZFS σ) (jid : JobID)
    (sendArgs : ZFSSendArgsValidated) (keep : List (Option Abstraction)) (w : Sys σ) :
    Run σ (List (Option Abstraction) × Option Error) :=
  match BookmarkStep d z w sendArgs.FS sendArgs.ToVersion jid with
  | ((_, some err), w2) => Run.done (([] : List (Option Abstraction)), some err) w2
  | ((to_, none), w2) => Run.done (keep ++ [to_], none) w2

/-- The tail of `StepProtectionStrategyHolds.PreSend`: hold `ToVersion` and
append the marker to `keep`. -/
def holdsToStep {σ : Type} (d : Deps) (z : ZFS σ) (jid : JobID)
    (sendArgs : ZFSSendArgsValidated) (keep : List (Option Abstraction)) (w : Sys σ) :
    Run σ (List (Option Abstraction) × Option Error) :=
  match HoldStep d z w sendArgs.FS sendArgs.ToVersion jid with
  | .panic msg w2 => Run.panic msg w2
  | .done (_, some err) w2 => Run.done (([] : List (Option Abstraction)), some err) w2
  | .done (to_, none) w2 => Run.done (keep ++ [to_], none) w2

/-! ## Names for the values the marker constructors build -/

/-- The step bookmark abstraction `BookmarkStep` builds around the bookmark `b`. -/
def stepBookmarkAbs (fs : String) (b : FilesystemVersion) (jobID : JobID) : Abstraction :=
  .bookmark { Type_ := .AbstractionStepBookmark, FS := fs, FilesystemVersion := b, JobID := jobID }

/-- The step hold abstraction `HoldStep` builds for the snapshot `v`. -/
def stepHoldAbs (fs : String) (v : FilesystemVersion) (tag : String) (jobID : JobID) :
    Abstraction :=
  .hold { Type_ := .AbstractionStepHold, FS := fs, Tag := tag, JobID := jobID,
          FilesystemVersion := v }

/-- The world after one more recorded ZFS command. -/
def Sys.after {σ : Type} (w : Sys σ) (s1 : σ) (c : ZFSCall) : Sys σ :=
  { zfs := s1, calls := w.calls ++ [c], log := w.log }

/-! ## Further sample data -/

/-- The send arguments of the incremental step `@1 → @2` on `pool/fs`. -/
def stepArgs : ZFSSendArgsValidated :=
  { FS := "pool/fs", FromVersion := some snap1, ToVersion := snap2 }

/-- The send arguments of the incremental step `#1 → @2` on `pool/fs`. -/
def stepArgsFromBookmark : ZFSSendArgsValidated :=
  { FS := "pool/fs", FromVersion := some book1, ToVersion := snap2 }

/-- The send arguments of the full send of `@2` on `pool/fs`. -/
def fullArgs : ZFSSendArgsValidated :=
  { FS := "pool/fs", FromVersion := none, ToVersion := snap2 }

/-- The world after `holds` protected the step `@1 → @2` on an empty ZFS. -/
def worldAfterHolds : Sys ZFSModel :=
  { zfs := { bookmarkCloning := true
             holds := [("pool/fs", snap1, "zrepl_STEP_J_sender-job"),
                       ("pool/fs", snap2, "zrepl_STEP_J_sender-job")]
             bookmarks := [] }
    calls := [.ZFSHold "pool/fs" snap1 "zrepl_STEP_J_sender-job" none,
              .ZFSHold "pool/fs" snap2 "zrepl_STEP_J_sender-job" none]
    log := [] }

/-- A hold tag that continues after a line feed. -/
def tagWithLineFeed : String := "zrepl_STEP_J_sender-job\nx"

/-- A choice of the helpers in which `MakeJobID` also checks the step hold
tag of the name, as the spec says of job construction. -/
def strictDeps : Deps where
  jobIDCheck := fun s =>
    match sampleJobIDCheck s with
    | some e => some e
    | none => sampleDeps.ValidHoldTag (stepHoldTagLit ++ s)
  ValidHoldTag := sampleDeps.ValidHoldTag
  makeJobAndGuidBookmarkName := sampleMakeName
  parseJobAndGuidBookmarkName := sampleParseName
  ToAbsPath := sampleDeps.ToAbsPath

/-! ## Sample data for the `to` step -/

/-- The send arguments of a full send whose `ToVersion` is the bookmark `#1`. -/
def fullArgsToBookmark : ZFSSendArgsValidated :=
  { FS := "pool/fs", FromVersion := none, ToVersion := book1 }

/-! ## The bookmark name codec, modelled -/

/-- Read a run of lower-case hexadecimal digits as a number, most significant
digit first, starting from `acc`. -/
def parseHex : List Char → Nat → Option Nat
  | [], acc => some acc
  | c :: cs, acc =>
    match hexValue c with
    | some x => parseHex cs (acc * 16 + x)
    | none => none

/-- Modelled from the spec: `makeJobAndGuidBookmarkName`, the encoder shared by
all bookmark kinds, whose source is not among the translated files. The spec
says a bookmark name combines the prefix, the guid in hexadecimal and the
JobID; the layout chosen here is `<prefix>_G_<guid as 16 hex digits>_J_<job>`,
with the filesystem left to the full name `<fs>#<name>`. -/
def makeJobAndGuidBookmarkName (pre _fs : String) (guid : Nat) (jobid : String) :
    Except Error String :=
  .ok (pre ++ "_G_" ++ ⟨hex16 guid⟩ ++ "_J_" ++ jobid)

/-- Modelled from the spec: `parseJobAndGuidBookmarkName`, the decoder shared by
all bookmark kinds, whose source is not among the translated files. The full
name is `<fs>#<name>`; the name, the part after the last `#`, has to be
`<prefix>_G_<16 hex digits>_J_<job>` with a job admitted by `MakeJobID`, whose
validation is the argument `check`. Anything else is an error ("this name is
not one of ours"). -/
def parseJobAndGuidBookmarkName (check : String → Option Error) (fullname pre : String) :
    Nat × JobID × Option Error :=
  if Char.ofNat 35 ∈ fullname.data then
    let name := (fullname.data.reverse.takeWhile (fun c => c != Char.ofNat 35)).reverse
    let head := (pre ++ "_G_").data
    if head.isPrefixOf name then
      let rest := name.drop head.length
      match parseHex (rest.take 16) 0 with
      | some guid =>
        if (rest.take 16).length = 16 ∧ "_J_".data.isPrefixOf (rest.drop 16) then
          let jobid : String := ⟨(rest.drop 16).drop 3⟩
          match check jobid with
          | none => (guid, ⟨jobid⟩, none)
          | some e => (0, ⟨""⟩, some (.wrap e "parse bookmark name: invalid job id field"))
        else (0, ⟨""⟩, some (.errorf "parse bookmark name: guid and job fields"))
      | none => (0, ⟨""⟩, some (.errorf "parse bookmark name: guid field"))
    else (0, ⟨""⟩, some (.errorf "parse bookmark name: prefix"))
  else (0, ⟨""⟩, some (.errorf "parse bookmark name: not a bookmark"))

/-- The helpers with the modelled bookmark name codec: `check` is the
validation of `MakeJobID` and `validTag` is `zfs.ValidHoldTag`.
`FilesystemVersion.ToAbsPath`, which is not among the translated files
either, is taken to give `<fs>@<name>` for a snapshot and `<fs>#<name>` for a
bookmark. -/
def codecDeps (check validTag : String → Option Error) : Deps where
  jobIDCheck := check
  ValidHoldTag := validTag
  makeJobAndGuidBookmarkName := makeJobAndGuidBookmarkName
  parseJobAndGuidBookmarkName := parseJobAndGuidBookmarkName check
  ToAbsPath := fun v fs =>
    fs.ToString ++ (if v.Type_ = VersionType.Bookmark then "#" else "@") ++ v.Name

/-! ## The generated methods of `StepProtectionStrategyKind`, modelled -/

/-- Modelled from the spec: the method `String` that `enumer` generates for
`StepProtectionStrategyKind` (directive `-transform=snake
-trimprefix=StepProtectionStrategyKind`); the generated file is not among the
translated files. The spec gives the strings `holds`, `bookmarks` and `none`;
a value outside the enumeration is printed with its number. -/
def StepProtectionStrategyKind_String (k : StepProtectionStrategyKind) : String :=
  if k = StepProtectionStrategyKindHolds then "holds"
  else if k = StepProtectionStrategyKindBookmarks then "bookmarks"
  else if k = StepProtectionStrategyKindNone then "none"
  else "StepProtectionStrategyKind(" ++ toString k ++ ")"

/-- Modelled from the spec: the generated function
`StepProtectionStrategyKindString`, which is not among the translated files.
The spec says: "Parsing is case-sensitive and unknown values are a
configuration error." The result pair is (kind, error), with the zero value
next to an error. -/
def StepProtectionStrategyKindString (s : String) : StepProtectionStrategyKind × Option Error :=
  if s = "holds" then (StepProtectionStrategyKindHolds, none)
  else if s = "bookmarks" then (StepProtectionStrategyKindBookmarks, none)
  else if s = "none" then (StepProtectionStrategyKindNone, none)
  else (0, some (.errorf (s ++ " does not belong to StepProtectionStrategyKind values")))

/-- Modelled from the spec: the generated method `MarshalJSON`, which is not
among the translated files: the kind "serializes to JSON as one of the
snake-case strings". The result is the JSON string value, without the
quoting of the JSON text. -/
def StepProtectionStrategyKind_MarshalJSON (k : StepProtectionStrategyKind) :
    String × Option Error :=
  (StepProtectionStrategyKind_String k, none)

/-- Modelled from the spec: the generated method `UnmarshalJSON`, which is not
among the translated files, applied to a JSON string value: the value is
parsed by `StepProtectionStrategyKindString`. -/
def StepProtectionStrategyKind_UnmarshalJSON (s : String) :
    StepProtectionStrategyKind × Option Error :=
  StepProtectionStrategyKindString s

/-! ## The step markers among the holds and bookmarks of the modelled ZFS -/

/-- The abstraction a hold of the modelled ZFS stands for: the result of
`StepHoldExtractor` on a hold of a snapshot; `path` is `zfs.NewDatasetPath`. -/
def extractHold (d : Deps) (path : String → DatasetPath)
    (h : String × FilesystemVersion × String) : Option Abstraction :=
  if h.2.1.Type_ = VersionType.Snapshot then
    match StepHoldExtractor d (path h.1) h.2.1 h.2.2 with
    | .ret r => r
    | .panic _ => none
  else none

/-- The abstraction a bookmark of the modelled ZFS stands for: the result of
`StepBookmarkExtractor` on a bookmark; `path` is `zfs.NewDatasetPath`. -/
def extractBookmark (d : Deps) (path : String → DatasetPath)
    (b : String × FilesystemVersion) : Option Abstraction :=
  if b.2.Type_ = VersionType.Bookmark then
    match StepBookmarkExtractor d (path b.1) b.2 with
    | .ret r => r
    | .panic _ => none
  else none

/-- The state `s'` is `s` with further step markers of job `J`: holds tagged
`StepHoldTag J` and bookmarks named `StepBookmarkName fs guid J`. -/
def ZFSModel.extendsFor (d : Deps) (J : JobID) (s s' : ZFSModel) : Prop :=
  ∃ newH newB, s'.holds = s.holds ++ newH ∧ s'.bookmarks = s.bookmarks ++ newB
    ∧ (∀ h ∈ newH, StepHoldTag d J = (h.2.2, none))
    ∧ (∀ b ∈ newB, ∃ g, StepBookmarkName d b.1 g J = .ok b.2.Name)

/-- Path construction for the examples: the whole string as one component. -/
def samplePath (s : String) : DatasetPath := ⟨[s]⟩

/-- The job `other-job` of the platform tests. -/
def otherJob : JobID := ⟨"other-job"⟩

/-! ## Package `logger`: levels and outlets -/

namespace logger

/-- The type `Level`, a Go `int`. -/
abbrev Level := Int

/-- The constant `Debug`, `iota = 0`. -/
def Debug : Level := 0

/-- The constant `Info`. -/
def Info : Level := 1

/-- The constant `Warn`. -/
def Warn : Level := 2

/-- The constant `Error`. -/
def Error : Level := 3

/-- The Go conversion `string(n)` of an integer: the one-rune string of the
code point `n`, or of U+FFFD when `n` is not a valid code point. -/
def runeString (n : Int) : String :=
  if 0 ≤ n ∧ (n.toNat < 55296 ∨ (57343 < n.toNat ∧ n.toNat < 1114112)) then
    String.singleton (Char.ofNat n.toNat)
  else
    String.singleton (Char.ofNat 65533)

/-- The method `Level.String`. -/
def Level.String (l : Level) : String :=
  if l = Debug then "debug"
  else if l = Info then "info"
  else if l = Warn then "warn"
  else if l = Error then "error"
  else runeString l

/-- The variable `AllLevels`: "Levels ordered least severe to most severe". -/
def AllLevels : List Level := [Debug, Info, Warn, Error]

/-- The loop of `ParseLevel` over the levels still to be compared. -/
def ParseLevel.loop (s : String) : List Level → Level × Option Zrepl.Error
  | [] => (-1, some (.errorf ("unknown level '" ++ s ++ "'")))
  | l :: rest => if s = Level.String l then (l, none) else ParseLevel.loop s rest

/-- The function `ParseLevel`. The result pair is (level, error). -/
def ParseLevel (s : String) : Level × Option Zrepl.Error :=
  ParseLevel.loop s AllLevels

/-- The struct `Outlets` over a type `O` of outlets: the registry `reg`, a Go
map, as a function from levels to slices (a missing key reads as the nil
slice), and the logger error outlet `e`. -/
structure Outlets (O : Type) where
  reg : Level → List O
  e : O

/-- The function `NewOutlets`. -/
def NewOutlets {O : Type} (loggerErrorOutlet : O) : Outlets O :=
  { reg := fun _ => [], e := loggerErrorOutlet }

/-- The slice expression `AllLevels[minLevel:]`: it panics unless
`0 ≤ minLevel ≤ len(AllLevels)`. -/
def AllLevelsFrom (minLevel : Level) : Go (List Level) :=
  if 0 ≤ minLevel ∧ minLevel ≤ (AllLevels.length : Int) then
    .ret (AllLevels.drop minLevel.toNat)
  else
    .panic "slice bounds out of range"

/-- The loop body of `Outlets.Add`, run over the levels `ls`. -/
def Outlets.addTo {O : Type} (os : Outlets O) (outlet : O) : List Level → Outlets O
  | [] => os
  | l :: rest =>
    Outlets.addTo
      { os with reg := fun k => if k = l then os.reg l ++ [outlet] else os.reg k } outlet rest

/-- The method `Outlets.Add`. -/
def Outlets.Add {O : Type} (os : Outlets O) (outlet : O) (minLevel : Level) : Go (Outlets O) :=
  match AllLevelsFrom minLevel with
  | .panic msg => .panic msg
  | .ret ls => .ret (os.addTo outlet ls)

/-- The method `Outlets.Get`. -/
def Outlets.Get {O : Type} (os : Outlets O) (level : Level) : List O :=
  os.reg level

/-- The method `Outlets.GetLoggerErrorOutlet`. -/
def Outlets.GetLoggerErrorOutlet {O : Type} (os : Outlets O) : O :=
  os.e

/-- A sequence of calls `Add(o_i, m_i)`, in order; a panic ends the run. -/
def Outlets.AddAll {O : Type} (os : Outlets O) : List (O × Level) → Go (Outlets O)
  | [] => .ret os
  | (o, m) :: rest =>
    match os.Add o m with
    | .panic msg => .panic msg
    | .ret os1 => Outlets.AddAll os1 rest

end logger

/-! ## Package `job`: building the sender configuration -/

namespace job

/-- The fields of `config.SendOptions` read by `buildSenderConfig`. -/
structure SendOptions where
  Encrypted : Bool
  IncrementalStepProtection : String
  deriving DecidableEq, Repr

/-- The interface `SendingJobConfig`, over a type `FC` standing for
`config.FilesystemsFilter`; `GetSendOptions` "must not be nil". -/
structure SendingJobConfig (FC : Type) where
  GetFilesystems : FC
  GetSendOptions : SendOptions

/-- The type `zfs.NilBool`. -/
structure NilBool where
  B : Bool
  deriving DecidableEq, Repr

/-- The struct `endpoint.SenderConfig`, over a type `F` of dataset filters. -/
structure SenderConfig (F : Type) where
  FSF : F
  Encrypt : NilBool
  IncrementalStepProtectionStrategyKind : StepProtectionStrategyKind
  JobID : JobID

/-- The function `buildSenderConfig`. The result pair is (config, error), a nil
config being `none`. `filterFromConfig` is `filters.DatasetMapFilterFromConfig`
and `kindString` is `endpoint.StepProtectionStrategyKindString`, neither of
which is among the translated files. -/
def buildSenderConfig {FC F : Type} (filterFromConfig : FC → F × Option Zrepl.Error)
    (kindString : String → StepProtectionStrategyKind × Option Zrepl.Error)
    (inp : SendingJobConfig FC) (jobID : JobID) : Option (SenderConfig F) × Option Zrepl.Error :=
  match filterFromConfig inp.GetFilesystems with
  | (_, some err) => (none, some (.wrap err "cannot build filesystem filter"))
  | (fsf, none) =>
    match kindString inp.GetSendOptions.IncrementalStepProtection with
    | (_, some err) =>
      (none, some (.wrap err "cannot parse incremental step protection setting"))
    | (incrementalStepProtectionStrategyKind, none) =>
      (some
        { FSF := fsf
          Encrypt := { B := inp.GetSendOptions.Encrypted }
          IncrementalStepProtectionStrategyKind := incrementalStepProtectionStrategyKind
          JobID := jobID }, none)

end job

/-! ## Package `stringbuilder`

Text written through `B.Write` is read rune by rune, so it is a list of runes (`List Char`),
and so is the content of the `strings.Builder`. `RightPad` and `wrap` index and slice by
bytes; their strings are lists of bytes. Go `int` is 64 bits wide, as `int64`: values are
integers, and a sum or product that may leave the range wraps around (`int64`). -/

namespace stringbuilder

/-- The value of an integer once it is stored in 64 bits, with wrap-around. -/
def int64 (v : Int) : Int := (v + 2 ^ 63) % 2 ^ 64 - 2 ^ 63

/-- The struct `B`; `sb` is the content of the `strings.Builder`. -/
structure B where
  indentMultiplier : Int
  sb : List Char
  indent : Int
  width : Int
  x : Int
  y : Int
  deriving DecidableEq, Repr

/-- The struct `Config`; both fields carry `validate:"gte=1"`. -/
structure Config where
  IndentMultiplier : Int
  Width : Int
  deriving DecidableEq, Repr

/-- Function `New`: panics when `validate.Struct` rejects the configuration. -/
def New (config : Config) : Go B :=
  if config.IndentMultiplier ≥ 1 ∧ config.Width ≥ 1 then
    .ret { indentMultiplier := config.IndentMultiplier, sb := [], indent := 0,
           width := config.Width, x := 0, y := 0 }
  else .panic "validation of Config failed"

/-- Method `B.String`. -/
def B.String (b : B) : List Char := b.sb

/-- The loop of `Times`: `out += str`, `n` times. -/
def Times.loop (str : List Char) : Nat → List Char → List Char
  | 0, out => out
  | n + 1, out => Times.loop str n (out ++ str)

/-- Function `Times`: the loop `for i := 0; i < n; i++` runs `n` times, and not at all for `n ≤ 0`. -/
def Times (str : List Char) (n : Int) : List Char := Times.loop str n.toNat []

/-- The line feed. -/
def lf : Char := Char.ofNat 10

/-- The space. -/
def space : Char := Char.ofNat 32

/-- The statements `Write` runs at a line break: write a line feed, `x = 0`, write
`Times(" ", indent - x)`, `x = indent`. -/
def B.breakLine (w : B) : B :=
  let w1 := { w with sb := w.sb ++ [lf] }
  let w2 := { w1 with x := 0 }
  let w3 := { w2 with sb := w2.sb ++ Times [space] (int64 (w2.indent - w2.x)) }
  { w3 with x := w3.indent }

/-- The body of the loop of `B.Write`, for one rune `c`. -/
def B.writeRune (w : B) (c : Char) : B :=
  if c = lf then
    let w1 := w.breakLine
    { w1 with y := int64 (w1.y + 1) }
  else
    let w1 := if w.x ≥ w.width then w.breakLine else w
    let w2 := { w1 with sb := w1.sb ++ [c] }
    { w2 with x := int64 (w2.x + 1) }

/-- Method `B.Write`: the loop over the runes of `s`. -/
def B.Write (w : B) (s : List Char) : B := s.foldl B.writeRune w

/-- Method `B.Newline`. -/
def B.Newline (w : B) : B := w.Write [lf]

/-- Method `B.Printf`, given the text `whole` that `fmt.Sprintf` returns. -/
def B.Printf (w : B) (whole : List Char) : B := w.Write whole

/-- Method `B.AddIndent`. -/
def B.AddIndent (t : B) (delta : Int) : B :=
  { t with indent := int64 (t.indent + int64 (delta * t.indentMultiplier)) }

/-- Method `B.AddIndentAndNewline`. -/
def B.AddIndentAndNewline (t : B) (delta : Int) : B :=
  (t.AddIndent delta).Write [lf]

/-- The constant `arrowPositions` of `DrawBar`, the four characters `>`, `\`, `|`, `/`. -/
def arrowPositions : List Char :=
  [Char.ofNat 62, Char.ofNat 92, Char.ofNat 124, Char.ofNat 47]

/-- The expression `arrowPositions[changeCount%len(arrowPositions)]` of `DrawBar`: the
remainder has the sign of `changeCount`, and an index out of range panics. -/
def arrowAt (changeCount : Int) : Go Char :=
  let i := Int.tmod changeCount (arrowPositions.length : Int)
  if 0 ≤ i ∧ i < (arrowPositions.length : Int) then
    .ret (arrowPositions.getD i.toNat (Char.ofNat 0))
  else .panic "index out of range"

/-- The variable `completedLength` of `DrawBar` when the bar is drawn: the product is
taken in `int64` and the quotient truncates toward zero. -/
def completedLength (length bytes totalBytes : Int) : Int :=
  if totalBytes > 0 then
    let c := int64 (Int.tdiv (int64 (length * bytes)) totalBytes)
    if c > length then length else c
  else if totalBytes = bytes then length
  else 0

/-- Method `B.DrawBar`: the arrow is looked up after the first two writes, and a panic
there ends the call. -/
def B.DrawBar (w : B) (length bytes totalBytes changeCount : Int) : Go B :=
  let completed := completedLength length bytes totalBytes
  let w1 := w.Write [Char.ofNat 91]
  let w2 := w1.Write (Times [Char.ofNat 61] completed)
  match arrowAt changeCount with
  | .panic msg => .panic msg
  | .ret arrow =>
    let w3 := w2.Write [arrow]
    let w4 := w3.Write (Times [Char.ofNat 45] (int64 (length - completed)))
    .ret (w4.Write [Char.ofNat 93])

/-- A byte of a Go string. -/
abbrev Byte := Fin 256

/-- Function `strings.Repeat`: panics on a negative count. -/
def Repeat (s : List Byte) (count : Int) : Go (List Byte) :=
  if count < 0 then .panic "strings: negative Repeat count"
  else .ret (List.replicate count.toNat s).flatten

/-- Function `RightPad`: the slice `str[:length]` panics for a negative `length`. -/
def RightPad (str : List Byte) (length : Int) (pad : List Byte) : Go (List Byte) :=
  if (str.length : Int) > length then
    if 0 ≤ length then .ret (str.take length.toNat)
    else .panic "slice bounds out of range"
  else
    match Repeat pad (int64 (length - (str.length : Int))) with
    | .panic msg => .panic msg
    | .ret r => .ret (str ++ r)

/-- The cutset of `wrap`: line feed and carriage return. -/
def nlcr : List Byte := [10, 13]

/-- Function `strings.IndexAny`: the index of the first byte of `s` that is in `chars`, or `-1`. -/
def IndexAny : List Byte → List Byte → Int
  | [], _ => -1
  | c :: s, chars =>
    if c ∈ chars then 0
    else if IndexAny s chars = -1 then -1 else IndexAny s chars + 1

/-- Function `strings.TrimRight`: `s` without its trailing bytes that are in `cutset`. -/
def TrimRight (s : List Byte) (cutset : List Byte) : List Byte :=
  s.rdropWhile (fun c => decide (c ∈ cutset))

/-- The loop of `wrap`, for at most `fuel` iterations: `s` is what is left of the input and
`b` the content of the `strings.Builder`. The result is `none` when the iterations are used
up before the loop ends; a slice whose bounds are out of range panics. -/
def wrap.loop (width : Int) : Nat → List Byte → List Byte → Option (Go (List Byte))
  | 0, _, _ => none
  | fuel + 1, s, b =>
    if s.length > 0 then
      let rem := if width > (s.length : Int) then (s.length : Int) else width
      let idx := IndexAny s nlcr
      let rem := if idx ≠ -1 ∧ idx < rem then idx + 1 else rem
      if 0 ≤ rem ∧ rem ≤ (s.length : Int) then
        let untilNewline := TrimRight (s.take rem.toNat) nlcr
        let s1 := s.drop rem.toNat
        if untilNewline.length = 0 then wrap.loop width fuel s1 b
        else wrap.loop width fuel s1 (b ++ untilNewline ++ [10])
      else some (.panic "slice bounds out of range")
    else some (.ret (TrimRight b nlcr))

/-- Function `wrap`, for at most `fuel` iterations of its loop. -/
def wrap (fuel : Nat) (s : List Byte) (width : Int) : Option (Go (List Byte)) :=
  wrap.loop width fuel s []

/-- A builder of width 80 with nothing written. -/
def emptyB : B :=
  { indentMultiplier := 1, sb := [], indent := 0, width := 80, x := 0, y := 0 }

/-- One of the calls `Write`, `Printf`, `Newline`, `AddIndent` on a builder. -/
inductive Call where
  | Write (s : List Char) : Call
  | Printf (whole : List Char) : Call
  | Newline : Call
  | AddIndent (delta : Int) : Call
  deriving DecidableEq, Repr

/-- The builder after a call. -/
def B.call (b : B) : Call → B
  | .Write s => b.Write s
  | .Printf whole => b.Printf whole
  | .Newline => b.Newline
  | .AddIndent delta => b.AddIndent delta

/-- The builder after a sequence of calls. -/
def B.calls (b : B) (cs : List Call) : B := cs.foldl B.call b

/-- The text a call writes. -/
def Call.text : Call → List Char
  | .Write s => s
  | .Printf whole => whole
  | .Newline => [lf]
  | .AddIndent _ => []

/-- The text a sequence of calls writes. -/
def written (cs : List Call) : List Char := (cs.map Call.text).flatten

/-- Whether a call writes to the builder. -/
def Call.writes : Call → Bool
  | .AddIndent _ => false
  | _ => true

/-- Whether `0 ≤ indent < width` holds at every call of the sequence that writes. -/
def indentOk (b : B) : List Call → Prop
  | [] => True
  | c :: cs => (c.writes = true → 0 ≤ b.indent ∧ b.indent < b.width) ∧ indentOk (b.call c) cs

/-- Whether `indentOk` holds can be computed. -/
def indentOk.dec : (b : B) → (cs : List Call) → Decidable (indentOk b cs)
  | _, [] => isTrue trivial
  | b, c :: cs => @instDecidableAnd _ _ inferInstance (indentOk.dec (b.call c) cs)

instance decIndentOk (b : B) (cs : List Call) : Decidable (indentOk b cs) := indentOk.dec b cs

/-- Reading a text line by line: the lines already ended by a line feed, and the line
being read. -/
def scanLine (p : List (List Char) × List Char) (c : Char) : List (List Char) × List Char :=
  if c = lf then (p.1 ++ [p.2], []) else (p.1, p.2 ++ [c])

/-- The lines of a text ended by a line feed, and what follows the last line feed. -/
def scan (s : List Char) : List (List Char) × List Char := s.foldl scanLine ([], [])

/-- The lines of a text: the pieces between its line feeds. -/
def lines (s : List Char) : List (List Char) := (scan s).1 ++ [(scan s).2]

/-- The last line of a text: what follows its last line feed. -/
def lastLine (s : List Char) : List Char := (scan s).2

/-- Whether a rune is neither a line feed nor a space. -/
def visible (c : Char) : Bool := c != lf && c != space

/-- What holds of a builder of width `W` after the text `txt` was written to it: the
lines ended so far and the current line are at most `W` long, `x` is the length of the
current line, the runes of `txt` other than line feeds are in the content in their order,
and the content has the visible runes of `txt` and no other. -/
def WriteInv (W : Int) (b : B) (txt : List Char) : Prop :=
  b.width = W ∧ (∀ l ∈ (scan b.sb).1, (l.length : Int) ≤ W) ∧
    b.x = ((scan b.sb).2.length : Int) ∧ b.x ≤ W ∧
    List.Sublist (txt.filter (fun c => c != lf)) b.sb ∧
    b.sb.filter visible = txt.filter visible

/-- The content of the `strings.Builder` of `wrap` after the lines `chunks` were written,
each followed by a line feed. -/
def endLines (chunks : List (List Byte)) : List Byte :=
  (chunks.map (fun c => c ++ [10])).flatten

/-- A line of the result of `wrap` for `width`: not empty, at most `width` bytes, without
line feed or carriage return. -/
def goodLine (width : Int) (c : List Byte) : Prop :=
  c ≠ [] ∧ (c.length : Int) ≤ width ∧ ∀ z ∈ c, z ∉ nlcr

/-- The lines `chunks`, each followed by a line feed but the last. -/
def joinLines : List (List Byte) → List Byte
  | [] => []
  | [c] => c
  | c :: cs => c ++ [10] ++ joinLines cs

end stringbuilder

/-! ## Replication cursors and last-received holds, modelled -/

/-- Modelled from the spec: the name prefix of replication cursor bookmarks, which is
set in a file that is not among the translated files. Spec 4.1: "Replication cursor and
tentative cursor have their own prefixes and share the encoder." -/
def replicationCursorBookmarkNamePrefix : String := "zrepl_CURSOR"

/-- Modelled from the spec: the name prefix of tentative replication cursor bookmarks,
which is set in a file that is not among the translated files (spec 4.1, as for the
replication cursor). -/
def tentativeReplicationCursorBookmarkNamePrefix : String := "zrepl_CURSORTENTATIVE"

/-- Modelled from the spec: the literal that starts every last-received hold tag, which
is set in a file that is not among the translated files. Spec 4.1 encodes
"`(prefix, jobID)` ↔ hold tag"; the literal has the form of `zrepl_STEP_J_`. -/
def lastReceivedHoldTagLit : String := "zrepl_last_received_J_"

/-- Modelled from the spec: `ReplicationCursorBookmarkName`, which is not among the
translated files. Spec 4.4: "compute the cursor bookmark name from the codec", the
encoder shared by all bookmark kinds under the prefix of the cursor. -/
def ReplicationCursorBookmarkName (d : Deps) (fs : String) (guid : Nat) (id : JobID) :
    Except Error String :=
  d.makeJobAndGuidBookmarkName replicationCursorBookmarkNamePrefix fs guid id.String

/-- Modelled from the spec: the name of a tentative replication cursor, whose code is
not among the translated files: the shared encoder under the prefix of the tentative
cursor (spec 4.1). -/
def TentativeReplicationCursorBookmarkName (d : Deps) (fs : String) (guid : Nat) (id : JobID) :
    Except Error String :=
  d.makeJobAndGuidBookmarkName tentativeReplicationCursorBookmarkNamePrefix fs guid id.String

/-- Modelled from the spec: `LastReceivedHoldTag`, which is not among the translated
files. Spec 4.1: the literal prefix followed by the JobID string; "the tag is rejected at
construction if the resulting string violates ZFS hold-tag validation". The result pair is
(tag, error), as for `StepHoldTag`. -/
def LastReceivedHoldTag (d : Deps) (jobID : JobID) : String × Option Error :=
  let t := lastReceivedHoldTagLit ++ jobID.String
  match d.ValidHoldTag t with
  | some err => ("", some err)
  | none => (t, none)

/-- Modelled from the spec: `ParseLastReceivedHoldTag`, which is not among the
translated files. Spec 4.1: "`parse(encode(x)) == x`", and a parse failure means "this
name is not one of ours": the tag has to be the literal followed by a name that
`MakeJobID` admits. The result pair is (job, error). -/
def ParseLastReceivedHoldTag (d : Deps) (tag : String) : JobID × Option Error :=
  if lastReceivedHoldTagLit.data.isPrefixOf tag.data then
    match MakeJobID d ⟨tag.data.drop lastReceivedHoldTagLit.data.length⟩ with
    | .error err => (⟨""⟩, some (.wrap err "parse hold tag: invalid job id field"))
    | .ok jobID => (jobID, none)
  else (⟨""⟩, some (.errorf "parse hold tag: not a last-received hold tag"))

/-- Modelled from the spec: the extractor of a bookmark kind `ty` whose names carry the
prefix `pre`; the extractors of the two cursor kinds are not among the translated files.
Spec 4.2: "*BookmarkExtractor*: given (filesystem, bookmark) → `Abstraction | nil`.
Extractors return `nil` for foreign objects and never fail"; spec 4.1: "the guid
recovered from the name is compared to the live ZFS object's guid. Mismatch yields
'foreign / tampered' — the object is ignored." -/
def cursorExtractor (pre : String) (ty : AbstractionType) (d : Deps) (fs : DatasetPath)
    (v : FilesystemVersion) : Option Abstraction :=
  if v.Type_ ≠ VersionType.Bookmark then none
  else
    match d.parseJobAndGuidBookmarkName (d.ToAbsPath v fs) pre with
    | (guid, jobid, err) =>
      if guid ≠ v.Guid then none
      else if err = none then
        some (.bookmark
          { Type_ := ty
            FS := fs.ToString
            FilesystemVersion := v
            JobID := jobid })
      else none

/-- The extractor of replication cursors (`cursorExtractor`). -/
def ReplicationCursorV2Extractor (d : Deps) (fs : DatasetPath) (v : FilesystemVersion) :
    Option Abstraction :=
  cursorExtractor replicationCursorBookmarkNamePrefix .AbstractionReplicationCursorBookmarkV2
    d fs v

/-- The extractor of tentative replication cursors (`cursorExtractor`). -/
def TentativeReplicationCursorExtractor (d : Deps) (fs : DatasetPath) (v : FilesystemVersion) :
    Option Abstraction :=
  cursorExtractor tentativeReplicationCursorBookmarkNamePrefix
    .AbstractionTentativeReplicationCursorBookmark d fs v

/-- Modelled from the spec: the extractor of last-received holds, which is not among
the translated files. Spec 4.2: "*HoldExtractor*: given (filesystem, snapshot, holdTag) →
`Abstraction | nil`"; a tag that does not parse is foreign. -/
def LastReceivedHoldExtractor (d : Deps) (fs : DatasetPath) (v : FilesystemVersion)
    (holdTag : String) : Option Abstraction :=
  if v.Type_ ≠ VersionType.Snapshot then none
  else
    match ParseLastReceivedHoldTag d holdTag with
    | (jobID, none) =>
      some (.hold
        { Type_ := .AbstractionLastReceivedHold
          FS := fs.ToString
          Tag := holdTag
          FilesystemVersion := v
          JobID := jobID })
    | (_, some _) => none

/-! ## Listing, destroying and the stale-abstraction collector, modelled -/

/-- The last-received hold a hold of the modelled ZFS stands for, if any. -/
def extractLastReceivedHold (d : Deps) (path : String → DatasetPath)
    (h : String × FilesystemVersion × String) : Option Abstraction :=
  LastReceivedHoldExtractor d (path h.1) h.2.1 h.2.2

/-- The replication cursor a bookmark of the modelled ZFS stands for, if any. -/
def extractCursor (d : Deps) (path : String → DatasetPath) (b : String × FilesystemVersion) :
    Option Abstraction :=
  ReplicationCursorV2Extractor d (path b.1) b.2

/-- The tentative replication cursor a bookmark of the modelled ZFS stands for, if any. -/
def extractTentativeCursor (d : Deps) (path : String → DatasetPath)
    (b : String × FilesystemVersion) : Option Abstraction :=
  TentativeReplicationCursorExtractor d (path b.1) b.2

/-- The kinds-set of all abstraction kinds (`AbstractionTypesAll`). -/
def AbstractionTypesAll : AbstractionType → Bool := fun _ => true

/-- Modelled from the spec: `ListAbstractions`, which is not among the translated
files. Spec 4.5: "`query = { filesystem-filter, jobID?, kinds-set, concurrency }`" and
"Listing enumerates all ZFS bookmarks and holds within the filter, applies the
appropriate extractor, discards `nil` results, and (if `jobID` is set) filters to
abstractions of that job." Every hold is given to the extractors of the two hold kinds and
every bookmark to those of the three bookmark kinds; `fsf` is the filesystem filter and
`what` the kinds-set. The result is ordered by kind. -/
def ListAbstractions (d : Deps) (path : String → DatasetPath) (fsf : String → Bool)
    (jobID : Option JobID) (what : AbstractionType → Bool) (s : ZFSModel) : List Abstraction :=
  (((s.holds.filter (fun h => fsf h.1)).filterMap (extractHold d path))
      ++ ((s.holds.filter (fun h => fsf h.1)).filterMap (extractLastReceivedHold d path))
      ++ ((s.bookmarks.filter (fun b => fsf b.1)).filterMap (extractBookmark d path))
      ++ ((s.bookmarks.filter (fun b => fsf b.1)).filterMap (extractCursor d path))
      ++ ((s.bookmarks.filter (fun b => fsf b.1)).filterMap (extractTentativeCursor d path))).filter
    (fun a => what a.GetType && (match jobID with
      | none => true
      | some j => decide (a.GetJobID = j)))

/-- Modelled from the spec: the ZFS operation `release`, which is not among the
translated files. Spec 6.2: "`release(ctx, filesystem, snapshot, tag)` — idempotent; 'not
held' is success." The snapshot is addressed by its name. -/
def ZFSModel.release (s : ZFSModel) (fs : String) (v : FilesystemVersion) (tag : String) :
    Option Error × ZFSModel :=
  (none, { s with
    holds := s.holds.filter (fun h => !(h.1 == fs && h.2.1.Name == v.Name && h.2.2 == tag)) })

/-- Modelled from the spec: the ZFS operation `destroyBookmark` (spec 6.2), which is
not among the translated files. The bookmark is addressed by its name, and "already gone"
is success (spec 4.2). -/
def ZFSModel.destroyBookmark (s : ZFSModel) (fs : String) (v : FilesystemVersion) :
    Option Error × ZFSModel :=
  (none, { s with bookmarks := s.bookmarks.filter (fun b => !(b.1 == fs && b.2.Name == v.Name)) })

/-- Modelled from the spec: the operation `destroy` of an abstraction, which is not
among the translated files. Spec 4.2: "idempotent removal: for holds, release the hold
tag; for bookmarks, destroy the bookmark. 'Already gone' is success." -/
def Abstraction.Destroy (a : Abstraction) (s : ZFSModel) : Option Error × ZFSModel :=
  match a with
  | .hold h => s.release h.FS h.FilesystemVersion h.Tag
  | .bookmark b => s.destroyBookmark b.FS b.FilesystemVersion

/-- Destroy the abstractions of a list one after the other; the errors of the single
destroys are collected (spec 4.5: "Errors from individual destroys are collected and
reported as non-fatal"). -/
def destroyAll : List Abstraction → ZFSModel → List Error × ZFSModel
  | [], s => ([], s)
  | a :: as, s =>
    match a.Destroy s with
    | (none, s1) => destroyAll as s1
    | (some e, s1) => ((e :: (destroyAll as s1).1), (destroyAll as s1).2)

/-- Modelled from the spec: what the `SendAbstractionsCache` holds for the filesystem
`fs` when it was filled in the ZFS state `filled`. Spec 4.5: "on miss, the cache performs
a list with `kinds-set = all`, `jobID = nil`, stores the result". The state `filled` may be
older than the state the cached list is used in. -/
def cachedAbstractions (d : Deps) (path : String → DatasetPath) (fs : String)
    (filled : ZFSModel) : List Abstraction :=
  ListAbstractions d path (fun f => f == fs) none AbstractionTypesAll filled

/-- The replication cursor abstraction around the bookmark `b`. -/
def replicationCursorAbs (fs : String) (b : FilesystemVersion) (jobID : JobID) : Abstraction :=
  .bookmark { Type_ := .AbstractionReplicationCursorBookmarkV2, FS := fs,
              FilesystemVersion := b, JobID := jobID }

/-- The last-received hold abstraction for the snapshot `v`. -/
def lastReceivedHoldAbs (fs : String) (v : FilesystemVersion) (tag : String) (jobID : JobID) :
    Abstraction :=
  .hold { Type_ := .AbstractionLastReceivedHold, FS := fs, Tag := tag, JobID := jobID,
          FilesystemVersion := v }

/-- Modelled from the spec: `CreateReplicationCursor`, which is not among the
translated files. Spec 4.4: "compute the cursor bookmark name from the codec; create the
bookmark". The result is the cursor, or the error of the name or of ZFS. -/
def CreateReplicationCursor (d : Deps) (fs : String) (v : FilesystemVersion) (jobID : JobID)
    (s : ZFSModel) : Except Error Abstraction × ZFSModel :=
  match ReplicationCursorBookmarkName d fs v.Guid jobID with
  | .error e => (.error (.wrap e "replication cursor bookmark name"), s)
  | .ok name =>
    match s.ZFSBookmark fs v name with
    | (.error e, s1) => (.error e, s1)
    | (.ok bm, s1) => (.ok (replicationCursorAbs fs bm jobID), s1)

/-- Modelled from the spec: moving the replication cursor of `(fs, jobID)` to `v`,
whose code is not among the translated files. Spec 4.4: "create the bookmark; move (delete
old) any prior cursor of the same `(filesystem, jobID)` whose guid differs from the new
one", in the order "create first, then delete". The prior cursors are those of the list
`known` of abstractions of the filesystem, which comes from the cache. -/
def MoveReplicationCursor (d : Deps) (fs : String) (v : FilesystemVersion) (jobID : JobID)
    (known : List Abstraction) (s : ZFSModel) : Except Error Abstraction × ZFSModel :=
  match CreateReplicationCursor d fs v jobID s with
  | (.error e, s1) => (.error e, s1)
  | (.ok cur, s1) =>
    (.ok cur, (destroyAll (known.filter (fun a =>
      decide (a.GetType = .AbstractionReplicationCursorBookmarkV2) && decide (a.GetJobID = jobID)
        && decide (a.GetFilesystemVersion.Guid ≠ v.Guid))) s1).2)

/-- The tentative replication cursor abstraction around the bookmark `b`. -/
def tentativeReplicationCursorAbs (fs : String) (b : FilesystemVersion) (jobID : JobID) :
    Abstraction :=
  .bookmark { Type_ := .AbstractionTentativeReplicationCursorBookmark, FS := fs,
              FilesystemVersion := b, JobID := jobID }

/-- Modelled from the spec: placing the tentative replication cursor of `(fs, jobID)`
on `v`, whose code is not among the translated files. Spec 4.4: "a short-lived cursor
placed before a step commits and rewritten to a real cursor on success"; its name comes
from the shared encoder under its own prefix (spec 4.1). -/
def CreateTentativeReplicationCursor (d : Deps) (fs : String) (v : FilesystemVersion)
    (jobID : JobID) (s : ZFSModel) : Except Error Abstraction × ZFSModel :=
  match TentativeReplicationCursorBookmarkName d fs v.Guid jobID with
  | .error e => (.error (.wrap e "tentative replication cursor bookmark name"), s)
  | .ok name =>
    match s.ZFSBookmark fs v name with
    | (.error e, s1) => (.error e, s1)
    | (.ok bm, s1) => (.ok (tentativeReplicationCursorAbs fs bm jobID), s1)

/-- Modelled from the spec: `CreateLastReceivedHold`, which is not among the
translated files. Spec 4.4: a hold on the receiver "pinning the most recent
fully-received snapshot". -/
def CreateLastReceivedHold (d : Deps) (fs : String) (v : FilesystemVersion) (jobID : JobID)
    (s : ZFSModel) : Except Error Abstraction × ZFSModel :=
  match LastReceivedHoldTag d jobID with
  | (_, some e) => (.error (.wrap e "last-received-hold: hold tag"), s)
  | (tag, none) =>
    match s.ZFSHold fs v tag with
    | (some e, s1) => (.error e, s1)
    | (none, s1) => (.ok (lastReceivedHoldAbs fs v tag jobID), s1)

/-- Modelled from the spec: moving the last-received hold of `(fs, jobID)` to `v`,
whose code is not among the translated files. Spec 4.4: "same move semantics as the
cursor, on the receiver side": the hold on `v` is placed first, then the last-received
holds of the job on that filesystem with another guid, as listed there at that moment,
are released. -/
def MoveLastReceivedHold (d : Deps) (path : String → DatasetPath) (fs : String)
    (v : FilesystemVersion) (jobID : JobID) (s : ZFSModel) : Except Error Abstraction × ZFSModel :=
  match CreateLastReceivedHold d fs v jobID s with
  | (.error e, s1) => (.error e, s1)
  | (.ok h, s1) =>
    (.ok h, (destroyAll ((ListAbstractions d path (fun f => f == fs) (some jobID)
      (fun ty => decide (ty = .AbstractionLastReceivedHold)) s1).filter
        (fun a => decide (a.GetFilesystemVersion.Guid ≠ v.Guid))) s1).2)

/-- Modelled from the spec: the stale-abstraction collector, which is not among the
translated files. Spec 4.5: "For every abstraction belonging to `J` on `filesystem`, if it
is not in the live set, call `destroy`. Abstractions belonging to any other job are never
touched. Errors from individual destroys are collected and reported as non-fatal". The
abstractions of the filesystem are the list `known`, which comes from the cache. -/
def collectStale (J : JobID) (live known : List Abstraction) (s : ZFSModel) :
    List Error × ZFSModel :=
  destroyAll (known.filter (fun a => decide (a.GetJobID = J) && !(live.contains a))) s

/-- The markers a `PreSend` result returned, when it returned without error. -/
def keptMarkers (r : Option (List (Option Abstraction) × Option Error)) : Option (List Abstraction) :=
  match r with
  | some (keep, none) => some (keep.filterMap id)
  | _ => none

/-- One replication attempt: the strategy, the job on the sending side (`sjid`) and on
the receiving side (`rjid`), the step, the receiving filesystem and the snapshot received
there, whether the send stream was transmitted completely, whether the receiver updates
the last-received hold, and the ZFS states in which the cache of the sending filesystem
was filled when the cursor is moved and when the collector runs. -/
structure Attempt where
  strategy : StepProtectionStrategy
  sjid : JobID
  rjid : JobID
  sendArgs : ZFSSendArgsValidated
  rfs : String
  received : FilesystemVersion
  completed : Bool
  updateLastReceivedHold : Bool
  cacheAtMove : ZFSModel
  cacheAtCollect : ZFSModel

/-- Modelled from the spec: the live set of the collector. Spec 4.5: "{ replication
cursor for `to` if step succeeded; step markers for the currently-in-flight step if the
attempt ended mid-step; last-received hold for `to` on receiver }". -/
def liveSet (d : Deps) (t : Attempt) (succeeded : Bool) (markers : List Abstraction)
    (cursor : Option Abstraction) : List Abstraction :=
  (if succeeded then cursor.toList else markers)
    ++ [lastReceivedHoldAbs t.rfs t.received (LastReceivedHoldTag d t.rjid).1 t.rjid]

/-- Modelled from the spec: the tentative cursor is "rewritten to a real cursor on
success" (spec 4.4): once the replication cursor is in place, the tentative cursor that
was placed is destroyed. The code is not among the translated files. -/
def commitCursor (tentative cursor : Except Error Abstraction) (s : ZFSModel) : ZFSModel :=
  match tentative, cursor with
  | .ok placed, .ok _ => (placed.Destroy s).2
  | _, _ => s

/-- Modelled from the spec: one replication attempt on the modelled ZFS, which holds
the sending and the receiving filesystem; the replication driver is not among the
translated files. Spec 2: "Step Protection Strategy.PreSend creates markers → send stream
transmits → on completion, Replication Cursor advances to `to`, Last-Received Hold moves
on receiver, old step markers belonging to this job are released. On failure, markers
remain so the next attempt can resume." Spec 4.4: the tentative cursor is "placed before a
step commits and rewritten to a real cursor on success". Spec 6.3: the engine "upon
attempt completion invokes GC with the attempt outcome". `PreSend` is the one of the
source; when it panics or returns an error nothing is sent. -/
def replicationAttempt (d : Deps) (path : String → DatasetPath) (t : Attempt)
    (w : Sys ZFSModel) : ZFSModel :=
  let pre := t.strategy.PreSend d modelZFS w t.sjid t.sendArgs
  match keptMarkers pre.result with
  | none => pre.world.zfs
  | some markers =>
    let tent :=
      CreateTentativeReplicationCursor d t.sendArgs.FS t.sendArgs.ToVersion t.sjid pre.world.zfs
    let cur :=
      if t.completed then
        MoveReplicationCursor d t.sendArgs.FS t.sendArgs.ToVersion t.sjid
          (cachedAbstractions d path t.sendArgs.FS t.cacheAtMove) tent.2
      else (.error (.errorf "send interrupted"), tent.2)
    let committed := commitCursor tent.1 cur.1 cur.2
    let rcv :=
      if t.completed && t.updateLastReceivedHold then
        (MoveLastReceivedHold d path t.rfs t.received t.rjid committed).2
      else committed
    (collectStale t.sjid
      (liveSet d t t.completed markers (match cur.1 with | .ok c => some c | .error _ => none))
      (cachedAbstractions d path t.sendArgs.FS t.cacheAtCollect) rcv).2

/-- Every extractor of hold tags that accepts `tag` reads the job `J` from it. -/
def holdTagOf (d : Deps) (J : JobID) (tag : String) : Prop :=
  (∀ j, ParseStepHoldTag d tag = (j, none) → j = J)
    ∧ (∀ j, ParseLastReceivedHoldTag d tag = (j, none) → j = J)

/-- The three prefixes of bookmark names. -/
def bookmarkNamePrefixes : List String :=
  [stepBookmarkNamePrefix, replicationCursorBookmarkNamePrefix,
    tentativeReplicationCursorBookmarkNamePrefix]

/-- Every decoder of bookmark names that accepts the name `name`, on whatever
filesystem, reads the job `J` from it. -/
def bookmarkNameOf (d : Deps) (J : JobID) (name : String) : Prop :=
  ∀ pre ∈ bookmarkNamePrefixes, ∀ fsn g j,
    d.parseJobAndGuidBookmarkName (fsn ++ "#" ++ name) pre = (g, j, none) → j = J

/-- The tag or name that `destroy` addresses the abstraction by is one of job `J`. -/
def Abstraction.namedFor (d : Deps) (J : JobID) : Abstraction → Prop
  | .hold h => holdTagOf d J h.Tag
  | .bookmark b => bookmarkNameOf d J b.FilesystemVersion.Name

/-- The job `receiver-job` of the platform tests. -/
def rjid : JobID := ⟨"receiver-job"⟩

/-- A snapshot `@3`. -/
def snap3 : FilesystemVersion :=
  { Type_ := .Snapshot, Name := "3", Guid := 103, CreateTXG := 13, Creation := 3000 }

/-- A snapshot `@5`. -/
def snap5 : FilesystemVersion :=
  { Type_ := .Snapshot, Name := "5", Guid := 105, CreateTXG := 15, Creation := 5000 }

/-- The helpers with the modelled bookmark name codec and the sample validations. -/
def modelDeps : Deps := codecDeps sampleJobIDCheck sampleDeps.ValidHoldTag

/-- The ZFS of the platform test before the second replication: on the sender
`pool/sender`, the replication cursor of `sender-job` on `@3`, artificial stale cursors
on `@2` and step holds on `@1` and `@2` for `sender-job` and for `other-job`, and the
foreign bookmark `#2`; on the receiver `pool/receiver`, the last-received holds of
`receiver-job` and of `other-job` on `@3`. -/
def zfsBeforeSecond : ZFSModel :=
  { bookmarkCloning := true
    holds := [("pool/sender", snap1, "zrepl_STEP_J_sender-job"),
              ("pool/sender", snap2, "zrepl_STEP_J_sender-job"),
              ("pool/sender", snap1, "zrepl_STEP_J_other-job"),
              ("pool/sender", snap2, "zrepl_STEP_J_other-job"),
              ("pool/receiver", snap3, "zrepl_last_received_J_receiver-job"),
              ("pool/receiver", snap3, "zrepl_last_received_J_other-job")]
    bookmarks := [
      ("pool/sender", ⟨.Bookmark, "2", 102, 12, 2000⟩),
      ("pool/sender", ⟨.Bookmark, "zrepl_CURSOR_G_0000000000000067_J_sender-job", 103, 13, 3000⟩),
      ("pool/sender", ⟨.Bookmark, "zrepl_CURSOR_G_0000000000000066_J_sender-job", 102, 12, 2000⟩),
      ("pool/sender", ⟨.Bookmark, "zrepl_CURSOR_G_0000000000000066_J_other-job", 102, 12, 2000⟩)] }

/-- The second replication of the platform test: `sender-job` sends the step `@3 → @5`
of `pool/sender` with `holds` to `pool/receiver` of `receiver-job`, completely, with the
cache filled in the state `filled`. -/
def secondReplication (filled : ZFSModel) : Attempt :=
  { strategy := .StepProtectionStrategyHolds
    sjid := senderJob
    rjid := rjid
    sendArgs := { FS := "pool/sender", FromVersion := some snap3, ToVersion := snap5 }
    rfs := "pool/receiver"
    received := snap5
    completed := true
    updateLastReceivedHold := true
    cacheAtMove := filled
    cacheAtCollect := filled }

/-- The ZFS of the platform test right after the first replication, when the cache was
filled: the replication cursor of `sender-job` on `@3` and the last-received hold of
`receiver-job` on `@3`. -/
def zfsAfterFirst : ZFSModel :=
  { bookmarkCloning := true
    holds := [("pool/receiver", snap3, "zrepl_last_received_J_receiver-job")]
    bookmarks := [
      ("pool/sender", ⟨.Bookmark, "2", 102, 12, 2000⟩),
      ("pool/sender", ⟨.Bookmark, "zrepl_CURSOR_G_0000000000000067_J_sender-job", 103, 13, 3000⟩)] }

/-- The state `s'` is `s` without some holds and bookmarks whose tag or name is one of
job `J`, and with further holds and bookmarks whose tag or name is one of job `J`. -/
def ZFSModel.changedFor (d : Deps) (J : JobID) (s s' : ZFSModel) : Prop :=
  ∃ (kh : String × FilesystemVersion × String → Bool) (kb : String × FilesystemVersion → Bool)
    (newH : List (String × FilesystemVersion × String)) (newB : List (String × FilesystemVersion)),
    s'.holds = s.holds.filter kh ++ newH ∧ s'.bookmarks = s.bookmarks.filter kb ++ newB
      ∧ (∀ h ∈ s.holds, kh h = false → holdTagOf d J h.2.2)
      ∧ (∀ h ∈ newH, holdTagOf d J h.2.2)
      ∧ (∀ b ∈ s.bookmarks, kb b = false → bookmarkNameOf d J b.2.Name)
      ∧ (∀ b ∈ newB, bookmarkNameOf d J b.2.Name)

/-! # Theorems -/

/-! ## The hold tag codec -/

theorem findStringSubmatch_lit_append (s : String) (h1 : s.data ≠ [])
    (h2 : Char.ofNat 10 ∉ s.data) :
    stepHoldTagRE_FindStringSubmatch (stepHoldTagLit ++ s) = some (stepHoldTagLit ++ s, s) := by
  have hpre : stepHoldTagLit.data.isPrefixOf (stepHoldTagLit ++ s).data = true := by
    rw [String.data_append, List.isPrefixOf_iff_prefix]
    exact List.prefix_append _ _
  have hdrop : (stepHoldTagLit ++ s).data.drop stepHoldTagLit.data.length = s.data := by
    rw [String.data_append, List.drop_left]
  have htake : s.data.takeWhile (fun c => c != Char.ofNat 10) = s.data := by
    rw [List.takeWhile_eq_self_iff]
    intro c hc
    simp only [bne_iff_ne, ne_eq]
    intro h
    exact h2 (h ▸ hc)
  unfold stepHoldTagRE_FindStringSubmatch
  rw [if_pos hpre]
  simp only [hdrop, htake]
  have hne : s.data.isEmpty = false := by
    cases hs : s.data with
    | nil => exact absurd hs h1
    | cons a l => rfl
  simp [hne]
  rfl

theorem MakeJobID_ok (d : Deps) (s : String) (j : JobID) (h : MakeJobID d s = .ok j) :
    d.jobIDCheck s = none ∧ j = ⟨s⟩ := by
  unfold MakeJobID at h
  cases hc : d.jobIDCheck s with
  | some e => rw [hc] at h; cases h
  | none => rw [hc] at h; cases h; exact ⟨rfl, rfl⟩

theorem MakeJobID_of_check (d : Deps) (s : String) (h : d.jobIDCheck s = none) :
    MakeJobID d s = .ok ⟨s⟩ := by
  unfold MakeJobID
  rw [h]

theorem StepHoldTag_cases (d : Deps) (j : JobID) :
    (StepHoldTag d j = (stepHoldTagLit ++ j.String, none)
        ∧ d.ValidHoldTag (stepHoldTagLit ++ j.String) = none)
      ∨ ∃ err, d.ValidHoldTag (stepHoldTagLit ++ j.String) = some err
          ∧ StepHoldTag d j = ("", some err) := by
  unfold StepHoldTag stepHoldTagImpl
  cases hc : d.ValidHoldTag (stepHoldTagLit ++ j.String) with
  | some e => exact Or.inr ⟨e, rfl, by simp only [hc]⟩
  | none => exact Or.inl ⟨by simp only [hc], rfl⟩

theorem StepHoldTag_ok (d : Deps) (j : JobID) (t : String) (h : StepHoldTag d j = (t, none)) :
    t = stepHoldTagLit ++ j.jid ∧ d.ValidHoldTag t = none := by
  rcases StepHoldTag_cases d j with ⟨h1, h2⟩ | ⟨e, _, h2⟩
  · rw [h1] at h
    cases h
    exact ⟨rfl, h2⟩
  · rw [h2] at h
    cases h

/-- C1. Under a `MakeJobID` that admits only non-empty names without a line
feed: when `j` was produced by `MakeJobID` and `StepHoldTag j` succeeds with
tag `t`, `ParseStepHoldTag t` succeeds and returns exactly `j`; hence a tag on
which `ParseStepHoldTag` reports an error is the step hold tag of no valid
job. -/
theorem C1_ParseStepHoldTag_StepHoldTag (d : Deps)
    (hclass : ∀ s, d.jobIDCheck s = none → s.data ≠ [] ∧ Char.ofNat 10 ∉ s.data) :
    (∀ s j t, MakeJobID d s = .ok j → StepHoldTag d j = (t, none) →
        ParseStepHoldTag d t = (j, none))
      ∧ (∀ tag x e, ParseStepHoldTag d tag = (x, some e) →
          ¬ ∃ s j, MakeJobID d s = .ok j ∧ StepHoldTag d j = (tag, none)) := by
  have key : ∀ s j t, MakeJobID d s = .ok j → StepHoldTag d j = (t, none) →
      ParseStepHoldTag d t = (j, none) := by
    intro s j t hj ht
    obtain ⟨hchk, rfl⟩ := MakeJobID_ok d s j hj
    obtain ⟨rfl, _⟩ := StepHoldTag_ok d _ t ht
    obtain ⟨hne, hnl⟩ := hclass s hchk
    unfold ParseStepHoldTag
    rw [findStringSubmatch_lit_append s hne hnl]
    simp only [MakeJobID_of_check d s hchk]
  refine ⟨key, ?_⟩
  rintro tag x e hp ⟨s, j, hj, ht⟩
  rw [key s j tag hj ht] at hp
  cases hp

theorem sampleDeps_class (s : String) (h : sampleDeps.jobIDCheck s = none) :
    s.data ≠ [] ∧ Char.ofNat 10 ∉ s.data := by
  simp only [sampleDeps, sampleJobIDCheck] at h
  split at h
  · cases h
  · rename_i hne
    split at h
    · rename_i hall
      refine ⟨fun h0 => hne (by simp [h0]), fun hmem => ?_⟩
      have := List.all_eq_true.mp hall _ hmem
      revert this
      decide
    · cases h

/-- The round trip of C1 at the job `sender-job` of the platform tests. -/
theorem C1_ParseStepHoldTag_StepHoldTag_witness :
    MakeJobID sampleDeps "sender-job" = .ok senderJob
      ∧ StepHoldTag sampleDeps senderJob = ("zrepl_STEP_J_sender-job", none)
      ∧ ParseStepHoldTag sampleDeps "zrepl_STEP_J_sender-job" = (senderJob, none) :=
  ⟨rfl, rfl,
    (C1_ParseStepHoldTag_StepHoldTag sampleDeps sampleDeps_class).1
      "sender-job" senderJob "zrepl_STEP_J_sender-job" rfl rfl⟩

/-- C2. For every job `j`, `StepHoldTag j` either returns the literal
`zrepl_STEP_J_` followed by `j.String()`, a string that passes `ValidHoldTag`,
or it returns the error of `ValidHoldTag` together with the empty string; a
tag returned without error always passes `ValidHoldTag`. -/
theorem C2_StepHoldTag_valid (d : Deps) (j : JobID) :
    ((StepHoldTag d j = ("zrepl_STEP_J_" ++ j.String, none)
          ∧ d.ValidHoldTag ("zrepl_STEP_J_" ++ j.String) = none)
        ∨ ∃ err, d.ValidHoldTag ("zrepl_STEP_J_" ++ j.String) = some err
            ∧ StepHoldTag d j = ("", some err))
      ∧ ∀ t, StepHoldTag d j = (t, none) → d.ValidHoldTag t = none :=
  ⟨StepHoldTag_cases d j, fun t h => (StepHoldTag_ok d j t h).2⟩

/-! ## The marker constructors, case by case -/

theorem BookmarkStep_name_error {σ : Type} (d : Deps) (z : ZFS σ) (w : Sys σ) (fs : String)
    (v : FilesystemVersion) (jid : JobID) (err : Error)
    (hn : StepBookmarkName d fs v.Guid jid = .error err) :
    BookmarkStep d z w fs v jid
      = ((none, some (.wrap err "create step bookmark: determine bookmark name")), w) := by
  unfold BookmarkStep
  rw [hn]

theorem BookmarkStep_zfs_error {σ : Type} (d : Deps) (z : ZFS σ) (w : Sys σ) (fs : String)
    (v : FilesystemVersion) (jid : JobID) (n : String) (err : Error) (s1 : σ)
    (hn : StepBookmarkName d fs v.Guid jid = .ok n)
    (hz : z.ZFSBookmark w.zfs fs v n = (.error err, s1)) :
    BookmarkStep d z w fs v jid
      = ((none, some (if err = .ErrBookmarkCloningNotSupported then err
            else .wrap err "create step bookmark: zfs")),
          w.after s1 (.ZFSBookmark fs v n (.error err))) := by
  unfold BookmarkStep
  rw [hn]
  simp only [Sys.ZFSBookmark, hz, Sys.after]
  split <;> rfl

theorem BookmarkStep_ok {σ : Type} (d : Deps) (z : ZFS σ) (w : Sys σ) (fs : String)
    (v : FilesystemVersion) (jid : JobID) (n : String) (b : FilesystemVersion) (s1 : σ)
    (hn : StepBookmarkName d fs v.Guid jid = .ok n)
    (hz : z.ZFSBookmark w.zfs fs v n = (.ok b, s1)) :
    BookmarkStep d z w fs v jid
      = ((some (stepBookmarkAbs fs b jid), none), w.after s1 (.ZFSBookmark fs v n (.ok b))) := by
  unfold BookmarkStep
  rw [hn]
  simp only [Sys.ZFSBookmark, hz, Sys.after, stepBookmarkAbs]

theorem BookmarkStep_inv {σ : Type} (d : Deps) (z : ZFS σ) (w : Sys σ) (fs : String)
    (v : FilesystemVersion) (jid : JobID) :
    (∃ err, StepBookmarkName d fs v.Guid jid = .error err
        ∧ BookmarkStep d z w fs v jid
          = ((none, some (.wrap err "create step bookmark: determine bookmark name")), w))
    ∨ (∃ n err s1, StepBookmarkName d fs v.Guid jid = .ok n
        ∧ z.ZFSBookmark w.zfs fs v n = (.error err, s1)
        ∧ BookmarkStep d z w fs v jid
          = ((none, some (if err = .ErrBookmarkCloningNotSupported then err
                else .wrap err "create step bookmark: zfs")),
              w.after s1 (.ZFSBookmark fs v n (.error err))))
    ∨ (∃ n b s1, StepBookmarkName d fs v.Guid jid = .ok n
        ∧ z.ZFSBookmark w.zfs fs v n = (.ok b, s1)
        ∧ BookmarkStep d z w fs v jid
          = ((some (stepBookmarkAbs fs b jid), none),
              w.after s1 (.ZFSBookmark fs v n (.ok b)))) := by
  cases hn : StepBookmarkName d fs v.Guid jid with
  | error err => exact Or.inl ⟨err, rfl, BookmarkStep_name_error d z w fs v jid err hn⟩
  | ok n =>
    rcases hz : z.ZFSBookmark w.zfs fs v n with ⟨r, s1⟩
    cases r with
    | error err =>
      exact Or.inr (Or.inl ⟨n, err, s1, rfl, hz, BookmarkStep_zfs_error d z w fs v jid n err s1 hn hz⟩)
    | ok b =>
      exact Or.inr (Or.inr ⟨n, b, s1, rfl, hz, BookmarkStep_ok d z w fs v jid n b s1 hn hz⟩)

theorem HoldStep_not_snapshot {σ : Type} (d : Deps) (z : ZFS σ) (w : Sys σ) (fs : String)
    (v : FilesystemVersion) (jid : JobID) (hv : v.Type_ ≠ VersionType.Snapshot) :
    HoldStep d z w fs v jid = .panic "version must be a snapshot" w := by
  unfold HoldStep
  simp [FilesystemVersion.IsSnapshot, hv]

theorem HoldStep_tag_error {σ : Type} (d : Deps) (z : ZFS σ) (w : Sys σ) (fs : String)
    (v : FilesystemVersion) (jid : JobID) (hv : v.Type_ = VersionType.Snapshot)
    (t : String) (err : Error) (ht : StepHoldTag d jid = (t, some err)) :
    HoldStep d z w fs v jid = .done (none, some (.wrap err "step hold tag")) w := by
  unfold HoldStep
  simp [FilesystemVersion.IsSnapshot, hv, ht]

theorem HoldStep_zfs_error {σ : Type} (d : Deps) (z : ZFS σ) (w : Sys σ) (fs : String)
    (v : FilesystemVersion) (jid : JobID) (hv : v.Type_ = VersionType.Snapshot)
    (tag : String) (ht : StepHoldTag d jid = (tag, none)) (err : Error) (s1 : σ)
    (hz : z.ZFSHold w.zfs fs v tag = (some err, s1)) :
    HoldStep d z w fs v jid
      = .done (none, some (.wrap err "step hold: zfs"))
          (w.after s1 (.ZFSHold fs v tag (some err))) := by
  unfold HoldStep
  simp [FilesystemVersion.IsSnapshot, hv, ht, Sys.ZFSHold, hz, Sys.after]

theorem HoldStep_ok {σ : Type} (d : Deps) (z : ZFS σ) (w : Sys σ) (fs : String)
    (v : FilesystemVersion) (jid : JobID) (hv : v.Type_ = VersionType.Snapshot)
    (tag : String) (ht : StepHoldTag d jid = (tag, none)) (s1 : σ)
    (hz : z.ZFSHold w.zfs fs v tag = (none, s1)) :
    HoldStep d z w fs v jid
      = .done (some (stepHoldAbs fs v tag jid), none) (w.after s1 (.ZFSHold fs v tag none)) := by
  unfold HoldStep
  simp [FilesystemVersion.IsSnapshot, hv, ht, Sys.ZFSHold, hz, Sys.after, stepHoldAbs]

theorem HoldStep_inv {σ : Type} (d : Deps) (z : ZFS σ) (w : Sys σ) (fs : String)
    (v : FilesystemVersion) (jid : JobID) :
    (v.Type_ ≠ VersionType.Snapshot
        ∧ HoldStep d z w fs v jid = .panic "version must be a snapshot" w)
    ∨ (v.Type_ = VersionType.Snapshot ∧ ∃ t err, StepHoldTag d jid = (t, some err)
        ∧ HoldStep d z w fs v jid = .done (none, some (.wrap err "step hold tag")) w)
    ∨ (v.Type_ = VersionType.Snapshot ∧ ∃ tag err s1, StepHoldTag d jid = (tag, none)
        ∧ z.ZFSHold w.zfs fs v tag = (some err, s1)
        ∧ HoldStep d z w fs v jid
          = .done (none, some (.wrap err "step hold: zfs"))
              (w.after s1 (.ZFSHold fs v tag (some err))))
    ∨ (v.Type_ = VersionType.Snapshot ∧ ∃ tag s1, StepHoldTag d jid = (tag, none)
        ∧ z.ZFSHold w.zfs fs v tag = (none, s1)
        ∧ HoldStep d z w fs v jid
          = .done (some (stepHoldAbs fs v tag jid), none)
              (w.after s1 (.ZFSHold fs v tag none))) := by
  by_cases hv : v.Type_ = VersionType.Snapshot
  · rcases ht : StepHoldTag d jid with ⟨tag, oe⟩
    cases oe with
    | some err =>
      exact Or.inr (Or.inl ⟨hv, tag, err, rfl, HoldStep_tag_error d z w fs v jid hv tag err ht⟩)
    | none =>
      rcases hz : z.ZFSHold w.zfs fs v tag with ⟨r, s1⟩
      cases r with
      | some err =>
        exact Or.inr (Or.inr (Or.inl ⟨hv, tag, err, s1, rfl, hz,
          HoldStep_zfs_error d z w fs v jid hv tag ht err s1 hz⟩))
      | none =>
        exact Or.inr (Or.inr (Or.inr ⟨hv, tag, s1, rfl, hz,
          HoldStep_ok d z w fs v jid hv tag ht s1 hz⟩))
  · exact Or.inl ⟨hv, HoldStep_not_snapshot d z w fs v jid hv⟩

/-! ## `PreSend` -/

/-- C8. For every job and every send arguments, `PreSend` of the strategy
`none` returns an empty keep list and a nil error, issues no ZFS command and
leaves the world, and so the set of holds and bookmarks, as it was. -/
theorem C8_None_PreSend {σ : Type} (d : Deps) (z : ZFS σ) (w : Sys σ) (jid : JobID)
    (sendArgs : ZFSSendArgsValidated) :
    StepProtectionStrategy.PreSend .StepProtectionStrategyNone d z w jid sendArgs
        = .done ([], none) w
      ∧ (StepProtectionStrategy.PreSend .StepProtectionStrategyNone d z w jid sendArgs).world.zfs
          = w.zfs
      ∧ (StepProtectionStrategy.PreSend .StepProtectionStrategyNone d z w jid sendArgs).world.calls
          = w.calls :=
  ⟨rfl, rfl, rfl⟩

/-- C5. Under the strategy `holds`, when `FromVersion` is a bookmark and both
marker creations succeed, `PreSend` bookmarks `FromVersion` with `BookmarkStep`
and holds `ToVersion` with `HoldStep`: it returns the step bookmark
abstraction for `from` followed by the step hold abstraction for `to`, and the
ZFS commands it issues are one `ZFSBookmark` on `FromVersion` and one `ZFSHold`
on `ToVersion`, so no hold is requested for `FromVersion`. -/
theorem C5_Holds_PreSend_from_bookmark {σ : Type} (d : Deps) (z : ZFS σ) (w : Sys σ)
    (jid : JobID) (sendArgs : ZFSSendArgsValidated) (fromVersion : FilesystemVersion)
    (n tag : String) (b : FilesystemVersion) (s1 s2 : σ)
    (hfrom : sendArgs.FromVersion = some fromVersion)
    (hbm : fromVersion.Type_ = VersionType.Bookmark)
    (hto : sendArgs.ToVersion.Type_ = VersionType.Snapshot)
    (hn : StepBookmarkName d sendArgs.FS fromVersion.Guid jid = .ok n)
    (hz1 : z.ZFSBookmark w.zfs sendArgs.FS fromVersion n = (.ok b, s1))
    (ht : StepHoldTag d jid = (tag, none))
    (hz2 : z.ZFSHold s1 sendArgs.FS sendArgs.ToVersion tag = (none, s2)) :
    BookmarkStep d z (w.logLine (.Debug msgCannotHoldBookmark)) sendArgs.FS fromVersion jid
        = ((some (stepBookmarkAbs sendArgs.FS b jid), none),
            (w.logLine (.Debug msgCannotHoldBookmark)).after s1
              (.ZFSBookmark sendArgs.FS fromVersion n (.ok b)))
      ∧ HoldStep d z ((w.logLine (.Debug msgCannotHoldBookmark)).after s1
            (.ZFSBookmark sendArgs.FS fromVersion n (.ok b))) sendArgs.FS sendArgs.ToVersion jid
        = .done (some (stepHoldAbs sendArgs.FS sendArgs.ToVersion tag jid), none)
            { zfs := s2
              calls := w.calls ++ [.ZFSBookmark sendArgs.FS fromVersion n (.ok b),
                                   .ZFSHold sendArgs.FS sendArgs.ToVersion tag none]
              log := w.log ++ [.Debug msgCannotHoldBookmark] }
      ∧ StepProtectionStrategy.PreSend .StepProtectionStrategyHolds d z w jid sendArgs
        = .done ([some (stepBookmarkAbs sendArgs.FS b jid),
                  some (stepHoldAbs sendArgs.FS sendArgs.ToVersion tag jid)], none)
            { zfs := s2
              calls := w.calls ++ [.ZFSBookmark sendArgs.FS fromVersion n (.ok b),
                                   .ZFSHold sendArgs.FS sendArgs.ToVersion tag none]
              log := w.log ++ [.Debug msgCannotHoldBookmark] } := by
  have h1 := BookmarkStep_ok d z (w.logLine (.Debug msgCannotHoldBookmark)) sendArgs.FS
    fromVersion jid n b s1 hn hz1
  have h2 := HoldStep_ok d z ((w.logLine (.Debug msgCannotHoldBookmark)).after s1
    (.ZFSBookmark sendArgs.FS fromVersion n (.ok b))) sendArgs.FS sendArgs.ToVersion jid hto
    tag ht s2 hz2
  have h2' : HoldStep d z ((w.logLine (.Debug msgCannotHoldBookmark)).after s1
      (.ZFSBookmark sendArgs.FS fromVersion n (.ok b))) sendArgs.FS sendArgs.ToVersion jid
      = .done (some (stepHoldAbs sendArgs.FS sendArgs.ToVersion tag jid), none)
          { zfs := s2
            calls := w.calls ++ [.ZFSBookmark sendArgs.FS fromVersion n (.ok b),
                                 .ZFSHold sendArgs.FS sendArgs.ToVersion tag none]
            log := w.log ++ [.Debug msgCannotHoldBookmark] } := by
    rw [h2]
    simp [Sys.after, Sys.logLine]
  refine ⟨h1, h2', ?_⟩
  simp only [StepProtectionStrategy.PreSend, StepProtectionStrategyHolds_PreSend, hfrom, hbm,
    if_true, h1, h2']
  rfl

/-- C4. On a full send (`FromVersion` nil), when the marker on `ToVersion` can
be created, `PreSend` returns a nil error and a keep list of exactly one
abstraction: under `bookmarks` the step bookmark of `ToVersion`, under `holds`
the step hold on `ToVersion`. The only ZFS command it issues is the one for
`ToVersion`. -/
theorem C4_PreSend_full_send {σ : Type} (d : Deps) (z : ZFS σ) (w : Sys σ) (jid : JobID)
    (sendArgs : ZFSSendArgsValidated) (hfrom : sendArgs.FromVersion = none) :
    (∀ n b s1, StepBookmarkName d sendArgs.FS sendArgs.ToVersion.Guid jid = .ok n →
        z.ZFSBookmark w.zfs sendArgs.FS sendArgs.ToVersion n = (.ok b, s1) →
        StepProtectionStrategy.PreSend .StepProtectionStrategyBookmarks d z w jid sendArgs
          = .done ([some (stepBookmarkAbs sendArgs.FS b jid)], none)
              { zfs := s1
                calls := w.calls ++ [.ZFSBookmark sendArgs.FS sendArgs.ToVersion n (.ok b)]
                log := w.log })
      ∧ (∀ tag s1, sendArgs.ToVersion.Type_ = VersionType.Snapshot →
        StepHoldTag d jid = (tag, none) →
        z.ZFSHold w.zfs sendArgs.FS sendArgs.ToVersion tag = (none, s1) →
        StepProtectionStrategy.PreSend .StepProtectionStrategyHolds d z w jid sendArgs
          = .done ([some (stepHoldAbs sendArgs.FS sendArgs.ToVersion tag jid)], none)
              { zfs := s1
                calls := w.calls ++ [.ZFSHold sendArgs.FS sendArgs.ToVersion tag none]
                log := w.log }) := by
  constructor
  · intro n b s1 hn hz
    have h := BookmarkStep_ok d z w sendArgs.FS sendArgs.ToVersion jid n b s1 hn hz
    simp only [StepProtectionStrategy.PreSend, StepProtectionStrategyBookmarks_PreSend, hfrom, h]
    rfl
  · intro tag s1 hto ht hz
    have h := HoldStep_ok d z w sendArgs.FS sendArgs.ToVersion jid hto tag ht s1 hz
    simp only [StepProtectionStrategy.PreSend, StepProtectionStrategyHolds_PreSend, hfrom, h]
    rfl

/-- With `bookmarks`, when ZFS answers the bookmark of `FromVersion` with
`ErrBookmarkCloningNotSupported` and the bookmark of `ToVersion` succeeds,
`PreSend` returns a nil error and a keep list of two entries: a nil
abstraction for `from`, then the step bookmark of `to`. -/
theorem Bookmarks_PreSend_cloning_not_supported {σ : Type} (d : Deps) (z : ZFS σ) (w : Sys σ)
    (jid : JobID) (sendArgs : ZFSSendArgsValidated) (fromVersion : FilesystemVersion)
    (n1 n2 : String) (b : FilesystemVersion) (s1 s2 : σ)
    (hfrom : sendArgs.FromVersion = some fromVersion)
    (hn1 : StepBookmarkName d sendArgs.FS fromVersion.Guid jid = .ok n1)
    (hz1 : z.ZFSBookmark w.zfs sendArgs.FS fromVersion n1
      = (.error .ErrBookmarkCloningNotSupported, s1))
    (hn2 : StepBookmarkName d sendArgs.FS sendArgs.ToVersion.Guid jid = .ok n2)
    (hz2 : z.ZFSBookmark s1 sendArgs.FS sendArgs.ToVersion n2 = (.ok b, s2)) :
    StepProtectionStrategy.PreSend .StepProtectionStrategyBookmarks d z w jid sendArgs
      = .done ([none, some (stepBookmarkAbs sendArgs.FS b jid)], none)
          { zfs := s2
            calls := w.calls ++ [.ZFSBookmark sendArgs.FS fromVersion n1
                                    (.error .ErrBookmarkCloningNotSupported),
                                 .ZFSBookmark sendArgs.FS sendArgs.ToVersion n2 (.ok b)]
            log := w.log ++ [.Info msgCloningNotSupported] } := by
  have h1 := BookmarkStep_zfs_error d z w sendArgs.FS fromVersion jid n1 _ s1 hn1 hz1
  have h2 := BookmarkStep_ok d z
    ((w.after s1 (.ZFSBookmark sendArgs.FS fromVersion n1
      (.error .ErrBookmarkCloningNotSupported))).logLine (.Info msgCloningNotSupported))
    sendArgs.FS sendArgs.ToVersion jid n2 b s2 hn2 hz2
  simp only [StepProtectionStrategy.PreSend, StepProtectionStrategyBookmarks_PreSend, hfrom, h1,
    if_true, h2]
  simp [Sys.after, Sys.logLine]

theorem Bookmarks_PreSend_from_inv {σ : Type} (d : Deps) (z : ZFS σ) (w w' : Sys σ)
    (jid : JobID) (sendArgs : ZFSSendArgsValidated) (fromVersion : FilesystemVersion)
    (keep : List (Option Abstraction))
    (hfrom : sendArgs.FromVersion = some fromVersion)
    (hrun : StepProtectionStrategyBookmarks_PreSend d z w jid sendArgs = .done (keep, none) w')
    (hcalls : ∀ c ∈ w'.calls.drop w.calls.length, c.succeeded = true) :
    ∃ n1 b1 s1 n2 b2 s2,
      z.ZFSBookmark w.zfs sendArgs.FS fromVersion n1 = (.ok b1, s1)
      ∧ z.ZFSBookmark s1 sendArgs.FS sendArgs.ToVersion n2 = (.ok b2, s2)
      ∧ keep = [some (stepBookmarkAbs sendArgs.FS b1 jid),
                some (stepBookmarkAbs sendArgs.FS b2 jid)] := by
  rcases BookmarkStep_inv d z w sendArgs.FS fromVersion jid with
    ⟨err, _, h1⟩ | ⟨n1, err, s1, _, _, h1⟩ | ⟨n1, b1, s1, _, hz1, h1⟩
  · simp [StepProtectionStrategyBookmarks_PreSend, hfrom, h1] at hrun
  · by_cases he : err = .ErrBookmarkCloningNotSupported
    · exfalso
      simp only [StepProtectionStrategyBookmarks_PreSend, hfrom, h1, he, if_true] at hrun
      rcases BookmarkStep_inv d z
          ((w.after s1 (.ZFSBookmark sendArgs.FS fromVersion n1
            (.error .ErrBookmarkCloningNotSupported))).logLine (.Info msgCloningNotSupported))
          sendArgs.FS sendArgs.ToVersion jid with
        ⟨e2, _, h2⟩ | ⟨n2, e2, s2, _, _, h2⟩ | ⟨n2, b2, s2, _, _, h2⟩
      · simp [h2] at hrun
      · simp [h2] at hrun
      · simp only [h2, Run.done.injEq, Prod.mk.injEq] at hrun
        obtain ⟨_, rfl⟩ := hrun
        have := hcalls (.ZFSBookmark sendArgs.FS fromVersion n1
          (.error .ErrBookmarkCloningNotSupported)) (by simp [Sys.after, Sys.logLine])
        simp [ZFSCall.succeeded] at this
    · simp [StepProtectionStrategyBookmarks_PreSend, hfrom, h1, he] at hrun
  · simp only [StepProtectionStrategyBookmarks_PreSend, hfrom, h1] at hrun
    rcases BookmarkStep_inv d z (w.after s1 (.ZFSBookmark sendArgs.FS fromVersion n1 (.ok b1)))
        sendArgs.FS sendArgs.ToVersion jid with
      ⟨e2, _, h2⟩ | ⟨n2, e2, s2, _, _, h2⟩ | ⟨n2, b2, s2, _, hz2, h2⟩
    · simp [h2] at hrun
    · simp [h2] at hrun
    · simp only [h2, Run.done.injEq, Prod.mk.injEq] at hrun
      obtain ⟨⟨hk, _⟩, _⟩ := hrun
      exact ⟨n1, b1, s1, n2, b2, s2, hz1, hz2, by rw [← hk]; rfl⟩

theorem Holds_PreSend_from_inv {σ : Type} (d : Deps) (z : ZFS σ) (w w' : Sys σ)
    (jid : JobID) (sendArgs : ZFSSendArgsValidated) (fromVersion : FilesystemVersion)
    (keep : List (Option Abstraction))
    (hfrom : sendArgs.FromVersion = some fromVersion)
    (hrun : StepProtectionStrategyHolds_PreSend d z w jid sendArgs = .done (keep, none) w')
    (hcalls : ∀ c ∈ w'.calls.drop w.calls.length, c.succeeded = true) :
    ∃ tag, StepHoldTag d jid = (tag, none) ∧ sendArgs.ToVersion.Type_ = VersionType.Snapshot ∧
      ((fromVersion.Type_ = VersionType.Bookmark ∧ ∃ n1 b1 s1,
          z.ZFSBookmark w.zfs sendArgs.FS fromVersion n1 = (.ok b1, s1)
          ∧ keep = [some (stepBookmarkAbs sendArgs.FS b1 jid),
                    some (stepHoldAbs sendArgs.FS sendArgs.ToVersion tag jid)])
        ∨ (fromVersion.Type_ = VersionType.Snapshot
          ∧ keep = [some (stepHoldAbs sendArgs.FS fromVersion tag jid),
                    some (stepHoldAbs sendArgs.FS sendArgs.ToVersion tag jid)])) := by
  by_cases hbm : fromVersion.Type_ = VersionType.Bookmark
  · simp only [StepProtectionStrategyHolds_PreSend, hfrom, hbm, if_true] at hrun
    rcases BookmarkStep_inv d z (w.logLine (.Debug msgCannotHoldBookmark)) sendArgs.FS
        fromVersion jid with
      ⟨err, _, h1⟩ | ⟨n1, err, s1, _, _, h1⟩ | ⟨n1, b1, s1, _, hz1, h1⟩
    · simp [h1] at hrun
    · by_cases he : err = .ErrBookmarkCloningNotSupported
      · exfalso
        simp only [h1, he, if_true] at hrun
        rcases HoldStep_inv d z
            (((w.logLine (.Debug msgCannotHoldBookmark)).after s1
              (.ZFSBookmark sendArgs.FS fromVersion n1
                (.error .ErrBookmarkCloningNotSupported))).logLine
              (.Info msgCloningNotSupported))
            sendArgs.FS sendArgs.ToVersion jid with
          ⟨_, h2⟩ | ⟨_, t, e2, _, h2⟩ | ⟨_, t, e2, s2, _, _, h2⟩ | ⟨_, t, s2, _, _, h2⟩
        · simp [h2] at hrun
        · simp [h2] at hrun
        · simp [h2] at hrun
        · simp only [h2, Run.done.injEq, Prod.mk.injEq] at hrun
          obtain ⟨_, rfl⟩ := hrun
          have := hcalls (.ZFSBookmark sendArgs.FS fromVersion n1
            (.error .ErrBookmarkCloningNotSupported)) (by simp [Sys.after, Sys.logLine])
          simp [ZFSCall.succeeded] at this
      · simp [h1, he] at hrun
    · simp only [h1] at hrun
      rcases HoldStep_inv d z
          ((w.logLine (.Debug msgCannotHoldBookmark)).after s1
            (.ZFSBookmark sendArgs.FS fromVersion n1 (.ok b1)))
          sendArgs.FS sendArgs.ToVersion jid with
        ⟨_, h2⟩ | ⟨_, t, e2, _, h2⟩ | ⟨_, t, e2, s2, _, _, h2⟩ | ⟨hto, t, s2, ht, _, h2⟩
      · simp [h2] at hrun
      · simp [h2] at hrun
      · simp [h2] at hrun
      · simp only [h2, Run.done.injEq, Prod.mk.injEq] at hrun
        obtain ⟨⟨hk, _⟩, _⟩ := hrun
        exact ⟨t, ht, hto, Or.inl ⟨hbm, n1, b1, s1, hz1, by rw [← hk]; rfl⟩⟩
  · simp only [StepProtectionStrategyHolds_PreSend, hfrom, hbm, if_false] at hrun
    rcases HoldStep_inv d z w sendArgs.FS fromVersion jid with
      ⟨_, h1⟩ | ⟨_, t, e1, _, h1⟩ | ⟨_, t, e1, s1, _, _, h1⟩ | ⟨hsn, t, s1, ht, _, h1⟩
    · simp [h1] at hrun
    · simp [h1] at hrun
    · simp [h1] at hrun
    · simp only [h1] at hrun
      rcases HoldStep_inv d z (w.after s1 (.ZFSHold sendArgs.FS fromVersion t none))
          sendArgs.FS sendArgs.ToVersion jid with
        ⟨_, h2⟩ | ⟨_, t2, e2, _, h2⟩ | ⟨_, t2, e2, s2, _, _, h2⟩ | ⟨hto, t2, s2, ht2, _, h2⟩
      · simp [h2] at hrun
      · simp [h2] at hrun
      · simp [h2] at hrun
      · simp only [h2, Run.done.injEq, Prod.mk.injEq] at hrun
        obtain ⟨⟨hk, _⟩, _⟩ := hrun
        have htt : t2 = t := by
          rw [ht] at ht2
          cases ht2
          rfl
        subst htt
        exact ⟨t2, ht, hto, Or.inr ⟨hsn, by rw [← hk]; rfl⟩⟩

/-! ## The modelled ZFS is idempotent -/

theorem ZFSModel.le_refl (s : ZFSModel) : s.le s :=
  ⟨rfl, fun _ _ _ h => h, fun _ h => h⟩

theorem ZFSModel.le_trans {s1 s2 s3 : ZFSModel} (h12 : s1.le s2) (h23 : s2.le s3) : s1.le s3 :=
  ⟨h23.1.trans h12.1, fun fs n b h => h23.2.1 fs n b (h12.2.1 fs n b h),
    fun x h => h23.2.2 x (h12.2.2 x h)⟩

theorem ZFSModel.ZFSBookmark_guid (s s' : ZFSModel) (fs : String) (v : FilesystemVersion)
    (n : String) (b : FilesystemVersion) (h : s.ZFSBookmark fs v n = (.ok b, s')) :
    b.Guid = v.Guid := by
  unfold ZFSModel.ZFSBookmark at h
  split at h
  · cases h
  · split at h
    · split at h
      · cases h
        assumption
      · cases h
    · cases h
      rfl

theorem ZFSModel.ZFSBookmark_settles (s s' : ZFSModel) (fs : String) (v : FilesystemVersion)
    (n : String) (r : Except Error FilesystemVersion) (h : s.ZFSBookmark fs v n = (r, s')) :
    s.le s' ∧ s'.settledBookmark fs v n r := by
  unfold ZFSModel.ZFSBookmark at h
  split at h
  · rename_i hc
    cases h
    exact ⟨ZFSModel.le_refl s, Or.inl ⟨hc.1, hc.2, rfl⟩⟩
  · rename_i hc
    split at h
    · rename_i e hf
      split at h
      · rename_i hg
        cases h
        exact ⟨ZFSModel.le_refl s, Or.inr ⟨hc, e, hf, Or.inl ⟨hg, rfl⟩⟩⟩
      · rename_i hg
        cases h
        exact ⟨ZFSModel.le_refl s, Or.inr ⟨hc, e, hf, Or.inr ⟨hg, rfl⟩⟩⟩
    · rename_i hf
      cases h
      refine ⟨⟨rfl, ?_, fun _ hh => hh⟩, Or.inr ⟨hc,
        { Type_ := .Bookmark, Name := n, Guid := v.Guid, CreateTXG := v.CreateTXG,
          Creation := v.Creation }, ?_, Or.inl ⟨rfl, rfl⟩⟩⟩
      · intro fs' n' b hb
        simp only [ZFSModel.findBookmark, List.find?_append, Option.map_eq_some'] at hb ⊢
        obtain ⟨a, ha, hab⟩ := hb
        exact ⟨a, by simp [ha], hab⟩
      · simp only [ZFSModel.findBookmark, Option.map_eq_none'] at hf
        simp [ZFSModel.findBookmark, List.find?_append, hf]

theorem ZFSModel.settledBookmark_mono {s s' : ZFSModel} (hle : s.le s') (fs : String)
    (v : FilesystemVersion) (n : String) (r : Except Error FilesystemVersion)
    (h : s.settledBookmark fs v n r) : s'.settledBookmark fs v n r := by
  rcases h with ⟨h1, h2, h3⟩ | ⟨h1, e, h2, h3⟩
  · exact Or.inl ⟨h1, by rw [hle.1, h2], h3⟩
  · exact Or.inr ⟨by rw [hle.1]; exact h1, e, hle.2.1 fs n e h2, h3⟩

theorem ZFSModel.settledBookmark_run {s : ZFSModel} (fs : String) (v : FilesystemVersion)
    (n : String) (r : Except Error FilesystemVersion) (h : s.settledBookmark fs v n r) :
    s.ZFSBookmark fs v n = (r, s) := by
  unfold ZFSModel.ZFSBookmark
  rcases h with ⟨h1, h2, h3⟩ | ⟨h1, e, h2, h3⟩
  · rw [if_pos ⟨h1, h2⟩, h3]
  · rw [if_neg h1]
    simp only [h2]
    rcases h3 with ⟨hg, rfl⟩ | ⟨hg, rfl⟩
    · rw [if_pos hg]
    · rw [if_neg hg]

theorem ZFSModel.ZFSHold_settles (s s' : ZFSModel) (fs : String) (v : FilesystemVersion)
    (tag : String) (r : Option Error) (h : s.ZFSHold fs v tag = (r, s')) :
    s.le s' ∧ s'.settledHold fs v tag r := by
  unfold ZFSModel.ZFSHold at h
  split at h
  · rename_i hv
    cases h
    exact ⟨ZFSModel.le_refl s, Or.inl ⟨hv, rfl⟩⟩
  · rename_i hv
    have hv' : v.Type_ = VersionType.Snapshot := by
      by_contra hc
      exact hv hc
    split at h
    · rename_i hm
      cases h
      exact ⟨ZFSModel.le_refl s, Or.inr ⟨hv', hm, rfl⟩⟩
    · cases h
      refine ⟨⟨rfl, fun _ _ _ hh => hh, fun x hx => ?_⟩, Or.inr ⟨hv', ?_, rfl⟩⟩
      · exact List.mem_append_left _ hx
      · simp

theorem ZFSModel.settledHold_mono {s s' : ZFSModel} (hle : s.le s') (fs : String)
    (v : FilesystemVersion) (tag : String) (r : Option Error)
    (h : s.settledHold fs v tag r) : s'.settledHold fs v tag r := by
  rcases h with ⟨h1, h2⟩ | ⟨h1, h2, h3⟩
  · exact Or.inl ⟨h1, h2⟩
  · exact Or.inr ⟨h1, hle.2.2 _ h2, h3⟩

theorem ZFSModel.settledHold_run {s : ZFSModel} (fs : String) (v : FilesystemVersion)
    (tag : String) (r : Option Error) (h : s.settledHold fs v tag r) :
    s.ZFSHold fs v tag = (r, s) := by
  unfold ZFSModel.ZFSHold
  rcases h with ⟨h1, h2⟩ | ⟨h1, h2, h3⟩
  · rw [if_pos h1, h2]
  · rw [if_neg (by simp [h1]), if_pos h2, h3]

/-! ## Replaying `PreSend` on the modelled ZFS -/

theorem Bookmarks_PreSend_eq {σ : Type} (d : Deps) (z : ZFS σ) (w : Sys σ) (jid : JobID)
    (sendArgs : ZFSSendArgsValidated) :
    StepProtectionStrategyBookmarks_PreSend d z w jid sendArgs =
      match sendArgs.FromVersion with
      | some fromVersion =>
        match BookmarkStep d z w sendArgs.FS fromVersion jid with
        | ((from_, some err), w1) =>
          if err = .ErrBookmarkCloningNotSupported then
            bookmarksToStep d z jid sendArgs [from_] (w1.logLine (.Info msgCloningNotSupported))
          else
            .done ([], some err) w1
        | ((from_, none), w1) => bookmarksToStep d z jid sendArgs [from_] w1
      | none => bookmarksToStep d z jid sendArgs [] w :=
  rfl

theorem Holds_PreSend_eq {σ : Type} (d : Deps) (z : ZFS σ) (w : Sys σ) (jid : JobID)
    (sendArgs : ZFSSendArgsValidated) :
    StepProtectionStrategyHolds_PreSend d z w jid sendArgs =
      match sendArgs.FromVersion with
      | some fromVersion =>
        if fromVersion.Type_ = VersionType.Bookmark then
          match BookmarkStep d z (w.logLine (.Debug msgCannotHoldBookmark)) sendArgs.FS
              fromVersion jid with
          | ((from_, some err), w1) =>
            if err = .ErrBookmarkCloningNotSupported then
              holdsToStep d z jid sendArgs [from_] (w1.logLine (.Info msgCloningNotSupported))
            else
              .done ([], some err) w1
          | ((from_, none), w1) => holdsToStep d z jid sendArgs [from_] w1
        else
          match HoldStep d z w sendArgs.FS fromVersion jid with
          | .panic msg w1 => .panic msg w1
          | .done (_, some err) w1 => .done ([], some err) w1
          | .done (from_, none) w1 => holdsToStep d z jid sendArgs [from_] w1
      | none => holdsToStep d z jid sendArgs [] w :=
  rfl

theorem BookmarkStep_stable (d : Deps) (w w1 : Sys ZFSModel) (fs : String)
    (v : FilesystemVersion) (jid : JobID) (r : Option Abstraction × Option Error)
    (h : BookmarkStep d modelZFS w fs v jid = (r, w1)) :
    w.zfs.le w1.zfs ∧ ∀ w2 : Sys ZFSModel, w1.zfs.le w2.zfs →
      ∃ w3, BookmarkStep d modelZFS w2 fs v jid = (r, w3) ∧ w3.zfs = w2.zfs := by
  rcases BookmarkStep_inv d modelZFS w fs v jid with
    ⟨err, hn, h1⟩ | ⟨n, err, s1, hn, hz, h1⟩ | ⟨n, b, s1, hn, hz, h1⟩
  · rw [h1] at h
    cases h
    exact ⟨ZFSModel.le_refl _, fun w2 _ =>
      ⟨w2, BookmarkStep_name_error d modelZFS w2 fs v jid err hn, rfl⟩⟩
  · rw [h1] at h
    cases h
    obtain ⟨hle, hs⟩ := ZFSModel.ZFSBookmark_settles _ _ _ _ _ _ hz
    refine ⟨hle, fun w2 h2 => ⟨_, BookmarkStep_zfs_error d modelZFS w2 fs v jid n err w2.zfs hn
      (ZFSModel.settledBookmark_run _ _ _ _ (ZFSModel.settledBookmark_mono h2 _ _ _ _ hs)), rfl⟩⟩
  · rw [h1] at h
    cases h
    obtain ⟨hle, hs⟩ := ZFSModel.ZFSBookmark_settles _ _ _ _ _ _ hz
    refine ⟨hle, fun w2 h2 => ⟨_, BookmarkStep_ok d modelZFS w2 fs v jid n b w2.zfs hn
      (ZFSModel.settledBookmark_run _ _ _ _ (ZFSModel.settledBookmark_mono h2 _ _ _ _ hs)), rfl⟩⟩

theorem HoldStep_stable (d : Deps) (w w1 : Sys ZFSModel) (fs : String)
    (v : FilesystemVersion) (jid : JobID) (r : Option Abstraction × Option Error)
    (h : HoldStep d modelZFS w fs v jid = .done r w1) :
    w.zfs.le w1.zfs ∧ ∀ w2 : Sys ZFSModel, w1.zfs.le w2.zfs →
      ∃ w3, HoldStep d modelZFS w2 fs v jid = .done r w3 ∧ w3.zfs = w2.zfs := by
  rcases HoldStep_inv d modelZFS w fs v jid with
    ⟨_, h1⟩ | ⟨hv, t, err, ht, h1⟩ | ⟨hv, t, err, s1, ht, hz, h1⟩ | ⟨hv, t, s1, ht, hz, h1⟩
  · rw [h1] at h
    cases h
  · rw [h1] at h
    cases h
    exact ⟨ZFSModel.le_refl _, fun w2 _ =>
      ⟨w2, HoldStep_tag_error d modelZFS w2 fs v jid hv t err ht, rfl⟩⟩
  · rw [h1] at h
    cases h
    obtain ⟨hle, hs⟩ := ZFSModel.ZFSHold_settles _ _ _ _ _ _ hz
    refine ⟨hle, fun w2 h2 => ⟨_, HoldStep_zfs_error d modelZFS w2 fs v jid hv t ht err w2.zfs
      (ZFSModel.settledHold_run _ _ _ _ (ZFSModel.settledHold_mono h2 _ _ _ _ hs)), rfl⟩⟩
  · rw [h1] at h
    cases h
    obtain ⟨hle, hs⟩ := ZFSModel.ZFSHold_settles _ _ _ _ _ _ hz
    refine ⟨hle, fun w2 h2 => ⟨_, HoldStep_ok d modelZFS w2 fs v jid hv t ht w2.zfs
      (ZFSModel.settledHold_run _ _ _ _ (ZFSModel.settledHold_mono h2 _ _ _ _ hs)), rfl⟩⟩

theorem bookmarksToStep_stable (d : Deps) (jid : JobID) (sendArgs : ZFSSendArgsValidated)
    (keep : List (Option Abstraction)) (w w1 : Sys ZFSModel)
    (r : List (Option Abstraction) × Option Error)
    (h : bookmarksToStep d modelZFS jid sendArgs keep w = .done r w1) :
    w.zfs.le w1.zfs ∧ ∀ w2 : Sys ZFSModel, w1.zfs.le w2.zfs →
      ∃ w3, bookmarksToStep d modelZFS jid sendArgs keep w2 = .done r w3 ∧ w3.zfs = w2.zfs := by
  unfold bookmarksToStep at h
  rcases hb : BookmarkStep d modelZFS w sendArgs.FS sendArgs.ToVersion jid with ⟨⟨a, e⟩, wx⟩
  obtain ⟨hle, hst⟩ := BookmarkStep_stable d w wx _ _ jid _ hb
  rw [hb] at h
  cases e with
  | some err =>
    simp only [Run.done.injEq] at h
    obtain ⟨rfl, rfl⟩ := h
    refine ⟨hle, fun w2 h2 => ?_⟩
    obtain ⟨w3, h3, hz⟩ := hst w2 h2
    exact ⟨w3, by unfold bookmarksToStep; rw [h3], hz⟩
  | none =>
    simp only [Run.done.injEq] at h
    obtain ⟨rfl, rfl⟩ := h
    refine ⟨hle, fun w2 h2 => ?_⟩
    obtain ⟨w3, h3, hz⟩ := hst w2 h2
    exact ⟨w3, by unfold bookmarksToStep; rw [h3], hz⟩

theorem holdsToStep_stable (d : Deps) (jid : JobID) (sendArgs : ZFSSendArgsValidated)
    (keep : List (Option Abstraction)) (w w1 : Sys ZFSModel)
    (r : List (Option Abstraction) × Option Error)
    (h : holdsToStep d modelZFS jid sendArgs keep w = .done r w1) :
    w.zfs.le w1.zfs ∧ ∀ w2 : Sys ZFSModel, w1.zfs.le w2.zfs →
      ∃ w3, holdsToStep d modelZFS jid sendArgs keep w2 = .done r w3 ∧ w3.zfs = w2.zfs := by
  unfold holdsToStep at h
  cases hb : HoldStep d modelZFS w sendArgs.FS sendArgs.ToVersion jid with
  | panic msg wx =>
    rw [hb] at h
    cases h
  | done ae wx =>
    obtain ⟨a, e⟩ := ae
    obtain ⟨hle, hst⟩ := HoldStep_stable d w wx _ _ jid _ hb
    rw [hb] at h
    cases e with
    | some err =>
      simp only [Run.done.injEq] at h
      obtain ⟨rfl, rfl⟩ := h
      refine ⟨hle, fun w2 h2 => ?_⟩
      obtain ⟨w3, h3, hz⟩ := hst w2 h2
      exact ⟨w3, by unfold holdsToStep; rw [h3], hz⟩
    | none =>
      simp only [Run.done.injEq] at h
      obtain ⟨rfl, rfl⟩ := h
      refine ⟨hle, fun w2 h2 => ?_⟩
      obtain ⟨w3, h3, hz⟩ := hst w2 h2
      exact ⟨w3, by unfold holdsToStep; rw [h3], hz⟩

theorem ZFSModel.le_of_eq {s s' : ZFSModel} (h : s' = s) : s.le s' := by
  subst h
  exact ZFSModel.le_refl _

theorem Bookmarks_PreSend_idem (d : Deps) (w w1 : Sys ZFSModel) (jid : JobID)
    (sendArgs : ZFSSendArgsValidated) (r : List (Option Abstraction) × Option Error)
    (h1 : StepProtectionStrategyBookmarks_PreSend d modelZFS w jid sendArgs = .done r w1) :
    ∃ w2, StepProtectionStrategyBookmarks_PreSend d modelZFS w1 jid sendArgs = .done r w2
      ∧ w2.zfs = w1.zfs := by
  rw [Bookmarks_PreSend_eq] at h1 ⊢
  cases hf : sendArgs.FromVersion with
  | none =>
    simp only [hf] at h1 ⊢
    exact (bookmarksToStep_stable d jid sendArgs [] w w1 r h1).2 w1 (ZFSModel.le_refl _)
  | some f =>
    simp only [hf] at h1 ⊢
    rcases hb : BookmarkStep d modelZFS w sendArgs.FS f jid with ⟨⟨a, e⟩, wx⟩
    obtain ⟨_, hst⟩ := BookmarkStep_stable d w wx _ _ jid _ hb
    rw [hb] at h1
    cases e with
    | none =>
      simp only at h1
      obtain ⟨hle2, hst2⟩ := bookmarksToStep_stable d jid sendArgs [a] wx w1 r h1
      obtain ⟨w3, h3, hz3⟩ := hst w1 hle2
      obtain ⟨w4, h4, hz4⟩ := hst2 w3 (ZFSModel.le_of_eq hz3)
      exact ⟨w4, by rw [h3]; exact h4, hz4.trans hz3⟩
    | some err =>
      by_cases he : err = .ErrBookmarkCloningNotSupported
      · simp only [he, if_true] at h1
        obtain ⟨hle2, hst2⟩ := bookmarksToStep_stable d jid sendArgs [a] _ w1 r h1
        obtain ⟨w3, h3, hz3⟩ := hst w1 hle2
        obtain ⟨w4, h4, hz4⟩ := hst2 (w3.logLine (.Info msgCloningNotSupported))
          (ZFSModel.le_of_eq hz3)
        refine ⟨w4, ?_, hz4.trans hz3⟩
        rw [h3]
        simp only [he, if_true]
        exact h4
      · simp only [he, if_false, Run.done.injEq] at h1
        obtain ⟨rfl, rfl⟩ := h1
        obtain ⟨w3, h3, hz3⟩ := hst wx (ZFSModel.le_refl _)
        refine ⟨w3, ?_, hz3⟩
        rw [h3]
        simp only [he, if_false]

theorem Holds_PreSend_idem (d : Deps) (w w1 : Sys ZFSModel) (jid : JobID)
    (sendArgs : ZFSSendArgsValidated) (r : List (Option Abstraction) × Option Error)
    (h1 : StepProtectionStrategyHolds_PreSend d modelZFS w jid sendArgs = .done r w1) :
    ∃ w2, StepProtectionStrategyHolds_PreSend d modelZFS w1 jid sendArgs = .done r w2
      ∧ w2.zfs = w1.zfs := by
  rw [Holds_PreSend_eq] at h1 ⊢
  cases hf : sendArgs.FromVersion with
  | none =>
    simp only [hf] at h1 ⊢
    exact (holdsToStep_stable d jid sendArgs [] w w1 r h1).2 w1 (ZFSModel.le_refl _)
  | some f =>
    simp only [hf] at h1 ⊢
    by_cases hbm : f.Type_ = VersionType.Bookmark
    · simp only [hbm, if_true] at h1 ⊢
      rcases hb : BookmarkStep d modelZFS (w.logLine (.Debug msgCannotHoldBookmark))
        sendArgs.FS f jid with ⟨⟨a, e⟩, wx⟩
      obtain ⟨_, hst⟩ := BookmarkStep_stable d _ wx _ _ jid _ hb
      rw [hb] at h1
      cases e with
      | none =>
        simp only at h1
        obtain ⟨hle2, hst2⟩ := holdsToStep_stable d jid sendArgs [a] wx w1 r h1
        obtain ⟨w3, h3, hz3⟩ := hst (w1.logLine (.Debug msgCannotHoldBookmark)) hle2
        obtain ⟨w4, h4, hz4⟩ := hst2 w3 (ZFSModel.le_of_eq hz3)
        exact ⟨w4, by rw [h3]; exact h4, hz4.trans hz3⟩
      | some err =>
        by_cases he : err = .ErrBookmarkCloningNotSupported
        · simp only [he, if_true] at h1
          obtain ⟨hle2, hst2⟩ := holdsToStep_stable d jid sendArgs [a] _ w1 r h1
          obtain ⟨w3, h3, hz3⟩ := hst (w1.logLine (.Debug msgCannotHoldBookmark)) hle2
          obtain ⟨w4, h4, hz4⟩ := hst2 (w3.logLine (.Info msgCloningNotSupported))
            (ZFSModel.le_of_eq hz3)
          refine ⟨w4, ?_, hz4.trans hz3⟩
          rw [h3]
          simp only [he, if_true]
          exact h4
        · simp only [he, if_false, Run.done.injEq] at h1
          obtain ⟨rfl, rfl⟩ := h1
          obtain ⟨w3, h3, hz3⟩ := hst (wx.logLine (.Debug msgCannotHoldBookmark))
            (ZFSModel.le_refl _)
          refine ⟨w3, ?_, hz3⟩
          rw [h3]
          simp only [he, if_false]
    · simp only [hbm, if_false] at h1 ⊢
      cases hb : HoldStep d modelZFS w sendArgs.FS f jid with
      | panic msg wx =>
        rw [hb] at h1
        cases h1
      | done ae wx =>
        obtain ⟨a, e⟩ := ae
        obtain ⟨_, hst⟩ := HoldStep_stable d w wx _ _ jid _ hb
        rw [hb] at h1
        cases e with
        | none =>
          simp only at h1
          obtain ⟨hle2, hst2⟩ := holdsToStep_stable d jid sendArgs [a] wx w1 r h1
          obtain ⟨w3, h3, hz3⟩ := hst w1 hle2
          obtain ⟨w4, h4, hz4⟩ := hst2 w3 (ZFSModel.le_of_eq hz3)
          exact ⟨w4, by rw [h3]; exact h4, hz4.trans hz3⟩
        | some err =>
          simp only [Run.done.injEq] at h1
          obtain ⟨rfl, rfl⟩ := h1
          obtain ⟨w3, h3, hz3⟩ := hst wx (ZFSModel.le_refl _)
          exact ⟨w3, by rw [h3], hz3⟩

/-! ## The claims on `PreSend` with a `from` version, and on replay -/

/-- C3. For `bookmarks` and `holds` and send arguments with a `FromVersion`,
over a ZFS whose bookmarks carry the guid of the version they were taken of:
when `PreSend` returns without error and every ZFS command it issued
succeeded, the keep list is two abstractions, the first for `FromVersion` and
the second for `ToVersion` (each with the guid of its version), both on
filesystem `sendArgs.FS` and owned by `jid`; under `bookmarks` both are step
bookmarks, and under `holds` with a snapshot `FromVersion` both are step holds
on exactly these versions carrying the tag `StepHoldTag jid`. -/
theorem C3_PreSend_pins_from_and_to {σ : Type} (d : Deps) (z : ZFS σ)
    (hguid : ∀ s fs v n b s', z.ZFSBookmark s fs v n = (.ok b, s') → b.Guid = v.Guid)
    (s : StepProtectionStrategy)
    (hs : s = .StepProtectionStrategyBookmarks ∨ s = .StepProtectionStrategyHolds)
    (w w' : Sys σ) (jid : JobID) (sendArgs : ZFSSendArgsValidated)
    (fromVersion : FilesystemVersion) (keep : List (Option Abstraction))
    (hfrom : sendArgs.FromVersion = some fromVersion)
    (hrun : s.PreSend d z w jid sendArgs = .done (keep, none) w')
    (hcalls : ∀ c ∈ w'.calls.drop w.calls.length, c.succeeded = true) :
    ∃ a1 a2, keep = [some a1, some a2]
      ∧ a1.GetFilesystemVersion.Guid = fromVersion.Guid
      ∧ a2.GetFilesystemVersion.Guid = sendArgs.ToVersion.Guid
      ∧ a1.GetFS = sendArgs.FS ∧ a2.GetFS = sendArgs.FS
      ∧ a1.GetJobID = jid ∧ a2.GetJobID = jid
      ∧ (s = .StepProtectionStrategyBookmarks →
          a1.GetType = .AbstractionStepBookmark ∧ a2.GetType = .AbstractionStepBookmark)
      ∧ (s = .StepProtectionStrategyHolds → fromVersion.Type_ = VersionType.Snapshot →
          ∃ tag, StepHoldTag d jid = (tag, none)
            ∧ a1 = stepHoldAbs sendArgs.FS fromVersion tag jid
            ∧ a2 = stepHoldAbs sendArgs.FS sendArgs.ToVersion tag jid) := by
  rcases hs with rfl | rfl
  · obtain ⟨n1, b1, s1, n2, b2, s2, hz1, hz2, rfl⟩ :=
      Bookmarks_PreSend_from_inv d z w w' jid sendArgs fromVersion keep hfrom hrun hcalls
    refine ⟨_, _, rfl, hguid _ _ _ _ _ _ hz1, hguid _ _ _ _ _ _ hz2, rfl, rfl, rfl, rfl,
      fun _ => ⟨rfl, rfl⟩, fun h => ?_⟩
    cases h
  · obtain ⟨tag, ht, _, ⟨hbm, n1, b1, s1, hz1, rfl⟩ | ⟨hsn, rfl⟩⟩ :=
      Holds_PreSend_from_inv d z w w' jid sendArgs fromVersion keep hfrom hrun hcalls
    · refine ⟨_, _, rfl, hguid _ _ _ _ _ _ hz1, rfl, rfl, rfl, rfl, rfl, fun h => ?_,
        fun _ hsn => ?_⟩
      · cases h
      · rw [hbm] at hsn
        cases hsn
    · refine ⟨_, _, rfl, rfl, rfl, rfl, rfl, rfl, rfl, fun h => ?_, fun _ _ => ⟨tag, ht, rfl, rfl⟩⟩
      cases h

/-- An instance of C3: `holds` on the step `@1 → @2` over the modelled ZFS. -/
theorem C3_PreSend_pins_from_and_to_witness :
    ∃ a1 a2,
      [some (stepHoldAbs "pool/fs" snap1 "zrepl_STEP_J_sender-job" senderJob),
        some (stepHoldAbs "pool/fs" snap2 "zrepl_STEP_J_sender-job" senderJob)]
          = [some a1, some a2]
      ∧ a1.GetFilesystemVersion.Guid = snap1.Guid
      ∧ a2.GetFilesystemVersion.Guid = stepArgs.ToVersion.Guid
      ∧ a1.GetFS = stepArgs.FS ∧ a2.GetFS = stepArgs.FS
      ∧ a1.GetJobID = senderJob ∧ a2.GetJobID = senderJob
      ∧ (StepProtectionStrategy.StepProtectionStrategyHolds = .StepProtectionStrategyBookmarks →
          a1.GetType = .AbstractionStepBookmark ∧ a2.GetType = .AbstractionStepBookmark)
      ∧ (StepProtectionStrategy.StepProtectionStrategyHolds = .StepProtectionStrategyHolds →
          snap1.Type_ = VersionType.Snapshot →
          ∃ tag, StepHoldTag sampleDeps senderJob = (tag, none)
            ∧ a1 = stepHoldAbs stepArgs.FS snap1 tag senderJob
            ∧ a2 = stepHoldAbs stepArgs.FS stepArgs.ToVersion tag senderJob) :=
  C3_PreSend_pins_from_and_to sampleDeps modelZFS
    (fun s fs v n b s' h => ZFSModel.ZFSBookmark_guid s s' fs v n b h)
    .StepProtectionStrategyHolds (Or.inr rfl) (Sys.start zfsEmpty) worldAfterHolds senderJob
    stepArgs snap1 _ rfl rfl
    (by
      intro c hc
      simp only [worldAfterHolds, Sys.start, List.length_nil, List.drop_zero, List.mem_cons,
        List.mem_singleton, List.not_mem_nil, or_false] at hc
      rcases hc with rfl | rfl <;> rfl)

/-- C7. Over the modelled ZFS, whose hold and bookmark commands are
idempotent, for each of the three strategies and all arguments: when a call
of `PreSend` returns, a second call with the same arguments returns the same
keep list and the same error and leaves the holds and bookmarks exactly as the
first call left them. -/
theorem C7_PreSend_idempotent (d : Deps) (s : StepProtectionStrategy) (w w1 : Sys ZFSModel)
    (jid : JobID) (sendArgs : ZFSSendArgsValidated)
    (r : List (Option Abstraction) × Option Error)
    (h1 : s.PreSend d modelZFS w jid sendArgs = .done r w1) :
    ∃ w2, s.PreSend d modelZFS w1 jid sendArgs = .done r w2
      ∧ w2.zfs.holds = w1.zfs.holds ∧ w2.zfs.bookmarks = w1.zfs.bookmarks
      ∧ w2.zfs = w1.zfs := by
  cases s with
  | StepProtectionStrategyNone =>
    cases h1
    exact ⟨w, rfl, rfl, rfl, rfl⟩
  | StepProtectionStrategyBookmarks =>
    obtain ⟨w2, h2, hz⟩ := Bookmarks_PreSend_idem d w w1 jid sendArgs r h1
    exact ⟨w2, h2, by rw [hz], by rw [hz], hz⟩
  | StepProtectionStrategyHolds =>
    obtain ⟨w2, h2, hz⟩ := Holds_PreSend_idem d w w1 jid sendArgs r h1
    exact ⟨w2, h2, by rw [hz], by rw [hz], hz⟩

/-- An instance of C7: replaying `holds` on the step `@1 → @2`. -/
theorem C7_PreSend_idempotent_witness :
    StepProtectionStrategy.PreSend .StepProtectionStrategyHolds sampleDeps modelZFS
        (Sys.start zfsEmpty) senderJob stepArgs
      = .done ([some (stepHoldAbs "pool/fs" snap1 "zrepl_STEP_J_sender-job" senderJob),
          some (stepHoldAbs "pool/fs" snap2 "zrepl_STEP_J_sender-job" senderJob)], none)
          worldAfterHolds
      ∧ ∃ w2, StepProtectionStrategy.PreSend .StepProtectionStrategyHolds sampleDeps modelZFS
          worldAfterHolds senderJob stepArgs
        = .done ([some (stepHoldAbs "pool/fs" snap1 "zrepl_STEP_J_sender-job" senderJob),
            some (stepHoldAbs "pool/fs" snap2 "zrepl_STEP_J_sender-job" senderJob)], none) w2
        ∧ w2.zfs.holds = worldAfterHolds.zfs.holds
        ∧ w2.zfs.bookmarks = worldAfterHolds.zfs.bookmarks
        ∧ w2.zfs = worldAfterHolds.zfs :=
  ⟨rfl, C7_PreSend_idempotent sampleDeps .StepProtectionStrategyHolds (Sys.start zfsEmpty)
    worldAfterHolds senderJob stepArgs _ rfl⟩

/-- An instance of C4 on the modelled ZFS: the full send of `@2`. -/
theorem C4_PreSend_full_send_witness :
    StepProtectionStrategy.PreSend .StepProtectionStrategyBookmarks sampleDeps modelZFS
        (Sys.start zfsEmpty) senderJob fullArgs
      = .done ([some (stepBookmarkAbs "pool/fs"
            { Type_ := .Bookmark, Name := "zrepl_STEP_G_0000000000000066_J_sender-job",
              Guid := 102, CreateTXG := 12, Creation := 2000 } senderJob)], none)
          { zfs := { bookmarkCloning := true, holds := [],
                     bookmarks := [("pool/fs",
                       { Type_ := .Bookmark, Name := "zrepl_STEP_G_0000000000000066_J_sender-job",
                         Guid := 102, CreateTXG := 12, Creation := 2000 })] }
            calls := [] ++ [.ZFSBookmark "pool/fs" snap2
              "zrepl_STEP_G_0000000000000066_J_sender-job"
              (.ok { Type_ := .Bookmark, Name := "zrepl_STEP_G_0000000000000066_J_sender-job",
                     Guid := 102, CreateTXG := 12, Creation := 2000 })]
            log := [] }
      ∧ StepProtectionStrategy.PreSend .StepProtectionStrategyHolds sampleDeps modelZFS
          (Sys.start zfsEmpty) senderJob fullArgs
        = .done ([some (stepHoldAbs "pool/fs" snap2 "zrepl_STEP_J_sender-job" senderJob)], none)
            { zfs := { bookmarkCloning := true
                       holds := [("pool/fs", snap2, "zrepl_STEP_J_sender-job")]
                       bookmarks := [] }
              calls := [] ++ [.ZFSHold "pool/fs" snap2 "zrepl_STEP_J_sender-job" none]
              log := [] } :=
  ⟨(C4_PreSend_full_send sampleDeps modelZFS (Sys.start zfsEmpty) senderJob fullArgs rfl).1
      "zrepl_STEP_G_0000000000000066_J_sender-job" _ _ rfl rfl,
    (C4_PreSend_full_send sampleDeps modelZFS (Sys.start zfsEmpty) senderJob fullArgs rfl).2
      "zrepl_STEP_J_sender-job" _ rfl rfl rfl⟩

/-- An instance of C5 on the modelled ZFS: `holds` on the step `#1 → @2`. -/
theorem C5_Holds_PreSend_from_bookmark_witness :
    StepProtectionStrategy.PreSend .StepProtectionStrategyHolds sampleDeps modelZFS
        (Sys.start zfsEmpty) senderJob stepArgsFromBookmark
      = .done ([some (stepBookmarkAbs "pool/fs"
            { Type_ := .Bookmark, Name := "zrepl_STEP_G_0000000000000065_J_sender-job",
              Guid := 101, CreateTXG := 11, Creation := 1000 } senderJob),
          some (stepHoldAbs "pool/fs" snap2 "zrepl_STEP_J_sender-job" senderJob)], none)
          { zfs := { bookmarkCloning := true
                     holds := [("pool/fs", snap2, "zrepl_STEP_J_sender-job")]
                     bookmarks := [("pool/fs",
                       { Type_ := .Bookmark, Name := "zrepl_STEP_G_0000000000000065_J_sender-job",
                         Guid := 101, CreateTXG := 11, Creation := 1000 })] }
            calls := [] ++ [.ZFSBookmark "pool/fs" book1
                "zrepl_STEP_G_0000000000000065_J_sender-job"
                (.ok { Type_ := .Bookmark, Name := "zrepl_STEP_G_0000000000000065_J_sender-job",
                       Guid := 101, CreateTXG := 11, Creation := 1000 }),
              .ZFSHold "pool/fs" snap2 "zrepl_STEP_J_sender-job" none]
            log := [] ++ [.Debug msgCannotHoldBookmark] } :=
  (C5_Holds_PreSend_from_bookmark sampleDeps modelZFS (Sys.start zfsEmpty) senderJob
    stepArgsFromBookmark book1 "zrepl_STEP_G_0000000000000065_J_sender-job"
    "zrepl_STEP_J_sender-job" _ _ _ rfl rfl rfl rfl rfl rfl rfl).2.2

/-- C6, the code at the failing input: with `bookmarks`, a bookmark `#1` as
`FromVersion` and a kernel without bookmark cloning, `PreSend` returns a nil
error and a keep list of two entries, a nil abstraction for `from` followed by
the step bookmark of `to`, not the one-element list of the claim. -/
theorem C6_Bookmarks_PreSend_keeps_nil_entry :
    (StepProtectionStrategy.PreSend .StepProtectionStrategyBookmarks sampleDeps modelZFS
        (Sys.start zfsNoCloning) senderJob stepArgsFromBookmark).result
      = some ([none, some (stepBookmarkAbs "pool/fs"
          { Type_ := .Bookmark, Name := "zrepl_STEP_G_0000000000000066_J_sender-job",
            Guid := 102, CreateTXG := 12, Creation := 2000 } senderJob)], none)
      ∧ (StepProtectionStrategy.PreSend .StepProtectionStrategyBookmarks sampleDeps modelZFS
          (Sys.start zfsNoCloning) senderJob stepArgsFromBookmark).world.calls
        = [.ZFSBookmark "pool/fs" book1 "zrepl_STEP_G_0000000000000065_J_sender-job"
              (.error .ErrBookmarkCloningNotSupported),
           .ZFSBookmark "pool/fs" snap2 "zrepl_STEP_G_0000000000000066_J_sender-job"
              (.ok { Type_ := .Bookmark, Name := "zrepl_STEP_G_0000000000000066_J_sender-job",
                     Guid := 102, CreateTXG := 12, Creation := 2000 })] :=
  ⟨rfl, rfl⟩

/-! ## Extractors -/

theorem ParseStepHoldTag_cases (d : Deps) (t : String) :
    (∃ j, ParseStepHoldTag d t = (j, none)) ∨ (∃ e, ParseStepHoldTag d t = (⟨""⟩, some e)) := by
  unfold ParseStepHoldTag
  cases stepHoldTagRE_FindStringSubmatch t with
  | none => exact Or.inr ⟨_, rfl⟩
  | some m =>
    cases hm : MakeJobID d m.2 with
    | error e =>
      exact Or.inr ⟨.wrap e "parse hold tag: invalid job id field", by simp only [hm]⟩
    | ok j => exact Or.inl ⟨j, by simp only [hm]⟩

/-- C9. The extractors never report an error and return nil exactly for
foreign objects. For a bookmark `v`, `StepBookmarkExtractor fs v` returns an
abstraction exactly when `ParseStepBookmarkName` of the absolute path of `v`
succeeds with a guid equal to `v.Guid`; the abstraction is then the step
bookmark with `FS = fs.ToString()`, version `v` and the parsed job. For a
snapshot `v` and a tag `t`, `StepHoldExtractor fs v t` returns an abstraction
exactly when `ParseStepHoldTag t` succeeds. -/
theorem C9_extractors (d : Deps) (fs : DatasetPath) (v : FilesystemVersion) (t : String) :
    (v.Type_ = VersionType.Bookmark →
      (∃ r, StepBookmarkExtractor d fs v = .ret r)
      ∧ ((∃ a, StepBookmarkExtractor d fs v = .ret (some a)) ↔
          ((ParseStepBookmarkName d (d.ToAbsPath v fs)).2.2 = none
            ∧ (ParseStepBookmarkName d (d.ToAbsPath v fs)).1 = v.Guid))
      ∧ ∀ a, StepBookmarkExtractor d fs v = .ret (some a) →
          a = .bookmark { Type_ := .AbstractionStepBookmark, FS := fs.ToString,
                          FilesystemVersion := v,
                          JobID := (ParseStepBookmarkName d (d.ToAbsPath v fs)).2.1 })
    ∧ (v.Type_ = VersionType.Snapshot →
      (∃ r, StepHoldExtractor d fs v t = .ret r)
      ∧ ((∃ a, StepHoldExtractor d fs v t = .ret (some a)) ↔ (ParseStepHoldTag d t).2 = none)
      ∧ ∀ a, StepHoldExtractor d fs v t = .ret (some a) →
          a = .hold { Type_ := .AbstractionStepHold, FS := fs.ToString, Tag := t,
                      FilesystemVersion := v, JobID := (ParseStepHoldTag d t).1 }) := by
  constructor
  · intro hv
    rcases hp : ParseStepBookmarkName d (d.ToAbsPath v fs) with ⟨guid, jobid, err⟩
    simp only [StepBookmarkExtractor, hp, hv, ne_eq, not_true_eq_false, if_false]
    by_cases hg : guid = v.Guid
    · cases err with
      | none => simp [hg]
      | some e => simp [hg]
    · simp [hg]
  · intro hv
    unfold StepHoldExtractor
    simp only [hv, ne_eq, not_true_eq_false, if_false]
    rcases ParseStepHoldTag_cases d t with ⟨j, hj⟩ | ⟨e, he⟩
    · simp [hj]
    · simp [he]

/-- An instance of C9: a step bookmark and a step hold of `sender-job`. -/
theorem C9_extractors_witness :
    ((∃ r, StepBookmarkExtractor sampleDeps ⟨["pool", "fs"]⟩
          { Type_ := .Bookmark, Name := "zrepl_STEP_G_0000000000000065_J_sender-job",
            Guid := 101, CreateTXG := 11, Creation := 1000 } = .ret r)
      ∧ ((∃ a, StepBookmarkExtractor sampleDeps ⟨["pool", "fs"]⟩
            { Type_ := .Bookmark, Name := "zrepl_STEP_G_0000000000000065_J_sender-job",
              Guid := 101, CreateTXG := 11, Creation := 1000 } = .ret (some a)) ↔
          ((ParseStepBookmarkName sampleDeps (sampleDeps.ToAbsPath
              { Type_ := .Bookmark, Name := "zrepl_STEP_G_0000000000000065_J_sender-job",
                Guid := 101, CreateTXG := 11, Creation := 1000 } ⟨["pool", "fs"]⟩)).2.2 = none
            ∧ (ParseStepBookmarkName sampleDeps (sampleDeps.ToAbsPath
              { Type_ := .Bookmark, Name := "zrepl_STEP_G_0000000000000065_J_sender-job",
                Guid := 101, CreateTXG := 11, Creation := 1000 } ⟨["pool", "fs"]⟩)).1 = 101))
      ∧ ∀ a, StepBookmarkExtractor sampleDeps ⟨["pool", "fs"]⟩
            { Type_ := .Bookmark, Name := "zrepl_STEP_G_0000000000000065_J_sender-job",
              Guid := 101, CreateTXG := 11, Creation := 1000 } = .ret (some a) →
          a = .bookmark { Type_ := .AbstractionStepBookmark, FS := "pool/fs",
                          FilesystemVersion :=
                            { Type_ := .Bookmark,
                              Name := "zrepl_STEP_G_0000000000000065_J_sender-job",
                              Guid := 101, CreateTXG := 11, Creation := 1000 },
                          JobID := senderJob })
    ∧ ((∃ r, StepHoldExtractor sampleDeps ⟨["pool", "fs"]⟩ snap1 "zrepl_STEP_J_sender-job"
          = .ret r)
      ∧ ((∃ a, StepHoldExtractor sampleDeps ⟨["pool", "fs"]⟩ snap1 "zrepl_STEP_J_sender-job"
            = .ret (some a)) ↔ (ParseStepHoldTag sampleDeps "zrepl_STEP_J_sender-job").2 = none)
      ∧ ∀ a, StepHoldExtractor sampleDeps ⟨["pool", "fs"]⟩ snap1 "zrepl_STEP_J_sender-job"
            = .ret (some a) →
          a = .hold { Type_ := .AbstractionStepHold, FS := "pool/fs",
                      Tag := "zrepl_STEP_J_sender-job", FilesystemVersion := snap1,
                      JobID := senderJob }) :=
  ⟨(C9_extractors sampleDeps ⟨["pool", "fs"]⟩
      { Type_ := .Bookmark, Name := "zrepl_STEP_G_0000000000000065_J_sender-job",
        Guid := 101, CreateTXG := 11, Creation := 1000 } "").1 rfl,
    (C9_extractors sampleDeps ⟨["pool", "fs"]⟩ snap1 "zrepl_STEP_J_sender-job").2 rfl⟩

/-! ## Tags accepted by `StepHoldExtractor` -/

theorem findStringSubmatch_inv (t : String) (m : String × String)
    (h : stepHoldTagRE_FindStringSubmatch t = some m) :
    ∃ rest, t.data = stepHoldTagLit.data ++ rest
      ∧ m.2 = ⟨rest.takeWhile (fun c => c != Char.ofNat 10)⟩ := by
  unfold stepHoldTagRE_FindStringSubmatch at h
  split at h
  · rename_i hpre
    rw [List.isPrefixOf_iff_prefix] at hpre
    obtain ⟨rest, hrest⟩ := hpre
    refine ⟨rest, hrest.symm, ?_⟩
    rw [← hrest, List.drop_left] at h
    simp only at h
    split at h
    · cases h
    · cases h
      rfl
  · cases h

theorem StepHoldExtractor_some (d : Deps) (fs : DatasetPath) (v : FilesystemVersion)
    (t : String) (a : Abstraction) (h : StepHoldExtractor d fs v t = .ret (some a)) :
    ∃ j, ParseStepHoldTag d t = (j, none)
      ∧ a = .hold { Type_ := .AbstractionStepHold, FS := fs.ToString, Tag := t,
                    FilesystemVersion := v, JobID := j } := by
  unfold StepHoldExtractor at h
  split at h
  · cases h
  · rcases ParseStepHoldTag_cases d t with ⟨j, hj⟩ | ⟨e, he⟩
    · rw [hj] at h
      simp only [Go.ret.injEq, Option.some.injEq] at h
      exact ⟨j, hj, h.symm⟩
    · rw [he] at h
      cases h

theorem ParseStepHoldTag_ok_inv (d : Deps) (t : String) (j : JobID)
    (h : ParseStepHoldTag d t = (j, none)) :
    ∃ rest, t.data = stepHoldTagLit.data ++ rest
      ∧ j = ⟨⟨rest.takeWhile (fun c => c != Char.ofNat 10)⟩⟩
      ∧ d.jobIDCheck j.jid = none := by
  unfold ParseStepHoldTag at h
  cases hm : stepHoldTagRE_FindStringSubmatch t with
  | none =>
    rw [hm] at h
    cases h
  | some m =>
    rw [hm] at h
    simp only at h
    obtain ⟨rest, hrest, hm2⟩ := findStringSubmatch_inv t m hm
    cases hj : MakeJobID d m.2 with
    | error e =>
      rw [hj] at h
      cases h
    | ok j' =>
      rw [hj] at h
      cases h
      obtain ⟨hchk, rfl⟩ := MakeJobID_ok d m.2 _ hj
      exact ⟨rest, hrest, by rw [hm2], hchk⟩

/-- C10, as the claim states it, fails: on the snapshot `@1` the extractor
accepts the tag `zrepl_STEP_J_sender-job`, line feed, `x` for the job
`sender-job`, whose step hold tag is `zrepl_STEP_J_sender-job`, a different
string. -/
theorem C10_counterexample :
    ¬ ∀ (d : Deps) (fs : DatasetPath) (v : FilesystemVersion) (t : String) (a : Abstraction),
      v.Type_ = VersionType.Snapshot → StepHoldExtractor d fs v t = .ret (some a) →
      a.GetTag = some t ∧ StepHoldTag d a.GetJobID = (t, none) := by
  intro h
  have h1 := (h sampleDeps ⟨["pool", "fs"]⟩ snap1 tagWithLineFeed
    (.hold { Type_ := .AbstractionStepHold, FS := "pool/fs", Tag := tagWithLineFeed,
             FilesystemVersion := snap1, JobID := senderJob }) rfl rfl).2
  have h2 : StepHoldTag sampleDeps senderJob = ("zrepl_STEP_J_sender-job", none) := rfl
  have h3 : (tagWithLineFeed, (none : Option Error)) = ("zrepl_STEP_J_sender-job", none) :=
    h1.symm.trans h2
  have h4 : tagWithLineFeed.data.length = "zrepl_STEP_J_sender-job".data.length :=
    congrArg (fun p => p.1.data.length) h3
  revert h4
  decide

/-- C10, amended. Under a `MakeJobID` that admits only names whose step hold
tag passes `ValidHoldTag`: for every hold tag `t` without a line feed for
which `StepHoldExtractor fs v t` returns an abstraction `a`, `a.Tag = t`, the
tag is `zrepl_STEP_J_` followed by `a.JobID`, and `StepHoldTag a.JobID`
returns `t`. -/
theorem C10_StepHoldExtractor_tag_embeds_job (d : Deps)
    (hvalid : ∀ s, d.jobIDCheck s = none → d.ValidHoldTag (stepHoldTagLit ++ s) = none)
    (fs : DatasetPath) (v : FilesystemVersion) (t : String) (a : Abstraction)
    (hnl : Char.ofNat 10 ∉ t.data)
    (h : StepHoldExtractor d fs v t = .ret (some a)) :
    a.GetTag = some t ∧ t = "zrepl_STEP_J_" ++ a.GetJobID.String
      ∧ StepHoldTag d a.GetJobID = (t, none) := by
  obtain ⟨j, hp, rfl⟩ := StepHoldExtractor_some d fs v t a h
  obtain ⟨rest, hrest, hj, hchk⟩ := ParseStepHoldTag_ok_inv d t j hp
  have htake : rest.takeWhile (fun c => c != Char.ofNat 10) = rest := by
    rw [List.takeWhile_eq_self_iff]
    intro c hc
    simp only [bne_iff_ne, ne_eq]
    intro hcn
    apply hnl
    rw [hrest, ← hcn]
    exact List.mem_append_right _ hc
  rw [htake] at hj
  have ht : t = stepHoldTagLit ++ j.jid := by
    rw [hj]
    apply String.ext
    rw [String.data_append, hrest]
  refine ⟨rfl, ht, ?_⟩
  have hv := hvalid j.jid hchk
  rw [← ht] at hv
  simp only [Abstraction.GetJobID, StepHoldTag, stepHoldTagImpl, JobID.String, ← ht, hv]

theorem strictDeps_valid (s : String) (h : strictDeps.jobIDCheck s = none) :
    strictDeps.ValidHoldTag (stepHoldTagLit ++ s) = none := by
  simp only [strictDeps] at h ⊢
  cases hc : sampleJobIDCheck s with
  | some e => simp [hc] at h
  | none =>
    simp only [hc] at h
    exact h

/-- An instance of the amended C10: the tag `zrepl_STEP_J_sender-job` on `@1`. -/
theorem C10_StepHoldExtractor_tag_embeds_job_witness :
    (stepHoldAbs "pool/fs" snap1 "zrepl_STEP_J_sender-job" senderJob).GetTag
        = some "zrepl_STEP_J_sender-job"
      ∧ "zrepl_STEP_J_sender-job" = "zrepl_STEP_J_"
          ++ (stepHoldAbs "pool/fs" snap1 "zrepl_STEP_J_sender-job" senderJob).GetJobID.String
      ∧ StepHoldTag strictDeps
          (stepHoldAbs "pool/fs" snap1 "zrepl_STEP_J_sender-job" senderJob).GetJobID
        = ("zrepl_STEP_J_sender-job", none) :=
  C10_StepHoldExtractor_tag_embeds_job strictDeps strictDeps_valid ⟨["pool", "fs"]⟩ snap1
    "zrepl_STEP_J_sender-job" (stepHoldAbs "pool/fs" snap1 "zrepl_STEP_J_sender-job" senderJob)
    (by decide) rfl

/-! ## Markers found again, strategy kinds, and the marker constructors in full -/

theorem ParseStepHoldTag_of_StepHoldTag (d : Deps)
    (hclass : ∀ s, d.jobIDCheck s = none → s.data ≠ [] ∧ Char.ofNat 10 ∉ s.data)
    (s : String) (j : JobID) (t : String) (hj : MakeJobID d s = .ok j)
    (ht : StepHoldTag d j = (t, none)) : ParseStepHoldTag d t = (j, none) := by
  obtain ⟨hchk, rfl⟩ := MakeJobID_ok d s j hj
  obtain ⟨rfl, _⟩ := StepHoldTag_ok d _ t ht
  obtain ⟨hne, hnl⟩ := hclass s hchk
  unfold ParseStepHoldTag
  rw [findStringSubmatch_lit_append s hne hnl]
  simp only [MakeJobID_of_check d s hchk]

/-- C11. Under a `MakeJobID` that admits only non-empty names without a line
feed: for every dataset path `fs`, version `v` and job `j` made by `MakeJobID`
for which `HoldStep fs.ToString() v j` succeeds with the abstraction `a`, the
abstraction carries a tag, and `StepHoldExtractor fs v` on that tag returns
exactly `a`: a step hold with the same filesystem, tag, job and version. -/
theorem C11_StepHoldExtractor_finds_HoldStep {σ : Type} (d : Deps)
    (hclass : ∀ s, d.jobIDCheck s = none → s.data ≠ [] ∧ Char.ofNat 10 ∉ s.data)
    (z : ZFS σ) (w w' : Sys σ) (fs : DatasetPath) (v : FilesystemVersion) (s : String)
    (j : JobID) (a : Abstraction) (hj : MakeJobID d s = .ok j)
    (h : HoldStep d z w fs.ToString v j = .done (some a, none) w') :
    ∃ tag, a.GetTag = some tag
      ∧ StepHoldExtractor d fs v tag = .ret (some a)
      ∧ a.GetType = .AbstractionStepHold ∧ a.GetFS = fs.ToString
      ∧ a.GetJobID = j ∧ a.GetFilesystemVersion = v := by
  rcases HoldStep_inv d z w fs.ToString v j with
    ⟨_, h1⟩ | ⟨_, t, err, _, h1⟩ | ⟨_, t, err, s1, _, _, h1⟩ | ⟨hv, tag, s1, ht, _, h1⟩
  · rw [h1] at h
    cases h
  · rw [h1] at h
    cases h
  · rw [h1] at h
    cases h
  · rw [h1] at h
    simp only [Run.done.injEq, Prod.mk.injEq, Option.some.injEq, and_true] at h
    obtain ⟨rfl, _⟩ := h
    refine ⟨tag, rfl, ?_, rfl, rfl, rfl, rfl⟩
    have hp : ParseStepHoldTag d tag = (j, none) :=
      ParseStepHoldTag_of_StepHoldTag d hclass s j tag hj ht
    unfold StepHoldExtractor
    simp only [hv, ne_eq, not_true_eq_false, if_false, hp]
    rfl

/-- An instance of C11: the step hold of `sender-job` on `@1` is found again. -/
theorem C11_StepHoldExtractor_finds_HoldStep_witness :
    ∃ tag, (stepHoldAbs "pool/fs" snap1 "zrepl_STEP_J_sender-job" senderJob).GetTag = some tag
      ∧ StepHoldExtractor sampleDeps ⟨["pool", "fs"]⟩ snap1 tag
          = .ret (some (stepHoldAbs "pool/fs" snap1 "zrepl_STEP_J_sender-job" senderJob))
      ∧ (stepHoldAbs "pool/fs" snap1 "zrepl_STEP_J_sender-job" senderJob).GetType
          = .AbstractionStepHold
      ∧ (stepHoldAbs "pool/fs" snap1 "zrepl_STEP_J_sender-job" senderJob).GetFS
          = DatasetPath.ToString ⟨["pool", "fs"]⟩
      ∧ (stepHoldAbs "pool/fs" snap1 "zrepl_STEP_J_sender-job" senderJob).GetJobID = senderJob
      ∧ (stepHoldAbs "pool/fs" snap1 "zrepl_STEP_J_sender-job" senderJob).GetFilesystemVersion
          = snap1 :=
  C11_StepHoldExtractor_finds_HoldStep sampleDeps sampleDeps_class modelZFS (Sys.start zfsEmpty)
    { zfs := { bookmarkCloning := true
               holds := [("pool/fs", snap1, "zrepl_STEP_J_sender-job")], bookmarks := [] }
      calls := [.ZFSHold "pool/fs" snap1 "zrepl_STEP_J_sender-job" none]
      log := [] }
    ⟨["pool", "fs"]⟩ snap1 "sender-job" senderJob
    (stepHoldAbs "pool/fs" snap1 "zrepl_STEP_J_sender-job" senderJob) rfl rfl

/-- C12. For each of the three kinds `k`, `StepProtectionStrategyFromKind k`
returns a strategy whose `Kind()` is `k`; the three kinds are pairwise distinct
values; and for every other value the constructor panics. -/
theorem C12_StepProtectionStrategyFromKind_Kind :
    (∀ k, (k = StepProtectionStrategyKindHolds ∨ k = StepProtectionStrategyKindBookmarks
          ∨ k = StepProtectionStrategyKindNone) →
        ∃ s, StepProtectionStrategyFromKind k = .ret s ∧ s.Kind = k)
      ∧ StepProtectionStrategyFromKind StepProtectionStrategyKindHolds
          = .ret .StepProtectionStrategyHolds
      ∧ StepProtectionStrategyFromKind StepProtectionStrategyKindBookmarks
          = .ret .StepProtectionStrategyBookmarks
      ∧ StepProtectionStrategyFromKind StepProtectionStrategyKindNone
          = .ret .StepProtectionStrategyNone
      ∧ StepProtectionStrategyKindHolds ≠ StepProtectionStrategyKindBookmarks
      ∧ StepProtectionStrategyKindHolds ≠ StepProtectionStrategyKindNone
      ∧ StepProtectionStrategyKindBookmarks ≠ StepProtectionStrategyKindNone
      ∧ (∀ k, k ≠ StepProtectionStrategyKindHolds → k ≠ StepProtectionStrategyKindBookmarks →
          k ≠ StepProtectionStrategyKindNone →
          ∃ msg, StepProtectionStrategyFromKind k = .panic msg) := by
  refine ⟨?_, rfl, rfl, rfl, by decide, by decide, by decide, ?_⟩
  · rintro k (rfl | rfl | rfl)
    · exact ⟨.StepProtectionStrategyHolds, rfl, rfl⟩
    · exact ⟨.StepProtectionStrategyBookmarks, rfl, rfl⟩
    · exact ⟨.StepProtectionStrategyNone, rfl, rfl⟩
  · intro k h1 h2 h3
    exact ⟨"unreachable", by simp [StepProtectionStrategyFromKind, h1, h2, h3]⟩

/-- C17. `BookmarkStep` returns `zfs.ErrBookmarkCloningNotSupported` itself,
with a nil abstraction, whenever `zfs.ZFSBookmark` returns that error; a
failure to compute the bookmark name and every other ZFS error are returned
wrapped, with a nil abstraction. Hence the returned error equals
`ErrBookmarkCloningNotSupported` exactly when the bookmark name was computed
and ZFS answered the bookmark request with that error. -/
theorem C17_BookmarkStep_errors {σ : Type} (d : Deps) (z : ZFS σ) (w : Sys σ) (fs : String)
    (v : FilesystemVersion) (jid : JobID) :
    (∀ n, StepBookmarkName d fs v.Guid jid = .ok n →
        (z.ZFSBookmark w.zfs fs v n).1 = .error .ErrBookmarkCloningNotSupported →
        (BookmarkStep d z w fs v jid).1 = (none, some .ErrBookmarkCloningNotSupported))
      ∧ (∀ err, StepBookmarkName d fs v.Guid jid = .error err →
        (BookmarkStep d z w fs v jid).1
          = (none, some (.wrap err "create step bookmark: determine bookmark name")))
      ∧ (∀ n err, StepBookmarkName d fs v.Guid jid = .ok n →
        (z.ZFSBookmark w.zfs fs v n).1 = .error err → err ≠ .ErrBookmarkCloningNotSupported →
        (BookmarkStep d z w fs v jid).1 = (none, some (.wrap err "create step bookmark: zfs")))
      ∧ ((BookmarkStep d z w fs v jid).1.2 = some .ErrBookmarkCloningNotSupported ↔
          ∃ n, StepBookmarkName d fs v.Guid jid = .ok n
            ∧ (z.ZFSBookmark w.zfs fs v n).1 = .error .ErrBookmarkCloningNotSupported) := by
  rcases BookmarkStep_inv d z w fs v jid with
    ⟨err, hn, h1⟩ | ⟨n, err, s1, hn, hz, h1⟩ | ⟨n, b, s1, hn, hz, h1⟩
  · rw [h1]
    refine ⟨?_, ?_, ?_, ?_⟩
    · intro n hn'
      rw [hn] at hn'
      cases hn'
    · intro err' hn'
      rw [hn] at hn'
      cases hn'
      rfl
    · intro n err' hn'
      rw [hn] at hn'
      cases hn'
    · constructor
      · intro h
        simp at h
      · rintro ⟨n, hn', _⟩
        rw [hn] at hn'
        cases hn'
  · rw [h1]
    refine ⟨?_, ?_, ?_, ?_⟩
    · intro n' hn' hz'
      rw [hn] at hn'
      cases hn'
      rw [hz] at hz'
      cases hz'
      rfl
    · intro err' hn'
      rw [hn] at hn'
      cases hn'
    · intro n' err' hn' hz' hne
      rw [hn] at hn'
      cases hn'
      rw [hz] at hz'
      cases hz'
      simp [hne]
    · constructor
      · intro h
        by_cases he : err = .ErrBookmarkCloningNotSupported
        · exact ⟨n, hn, by rw [hz, he]⟩
        · simp [he] at h
      · rintro ⟨n', hn', hz'⟩
        rw [hn] at hn'
        cases hn'
        rw [hz] at hz'
        cases hz'
        rfl
  · rw [h1]
    refine ⟨?_, ?_, ?_, ?_⟩
    · intro n' hn' hz'
      rw [hn] at hn'
      cases hn'
      rw [hz] at hz'
      cases hz'
    · intro err' hn'
      rw [hn] at hn'
      cases hn'
    · intro n' err' hn' hz'
      rw [hn] at hn'
      cases hn'
      rw [hz] at hz'
      cases hz'
    · constructor
      · intro h
        cases h
      · rintro ⟨n', hn', hz'⟩
        rw [hn] at hn'
        cases hn'
        rw [hz] at hz'
        cases hz'

/-- C18. For a snapshot `v`: when `StepHoldTag j` fails, `HoldStep fs v j`
returns the wrapped error and no abstraction without issuing a ZFS command;
otherwise it issues exactly one `ZFSHold fs v tag` with `tag = StepHoldTag j`
and, if that succeeds, returns the step hold abstraction with `FS = fs`,
`Tag = tag`, `JobID = j` and `FilesystemVersion = v`, and if it fails returns
the wrapped ZFS error and no abstraction. -/
theorem C18_HoldStep {σ : Type} (d : Deps) (z : ZFS σ) (w : Sys σ) (fs : String)
    (v : FilesystemVersion) (j : JobID) (hv : v.Type_ = VersionType.Snapshot) :
    (∀ t err, StepHoldTag d j = (t, some err) →
        HoldStep d z w fs v j = .done (none, some (.wrap err "step hold tag")) w)
      ∧ (∀ tag s1, StepHoldTag d j = (tag, none) → z.ZFSHold w.zfs fs v tag = (none, s1) →
        HoldStep d z w fs v j
          = .done (some (.hold { Type_ := .AbstractionStepHold, FS := fs, Tag := tag,
                                 JobID := j, FilesystemVersion := v }), none)
              { zfs := s1, calls := w.calls ++ [.ZFSHold fs v tag none], log := w.log })
      ∧ (∀ tag err s1, StepHoldTag d j = (tag, none) →
        z.ZFSHold w.zfs fs v tag = (some err, s1) →
        HoldStep d z w fs v j
          = .done (none, some (.wrap err "step hold: zfs"))
              { zfs := s1, calls := w.calls ++ [.ZFSHold fs v tag (some err)], log := w.log }) :=
  ⟨fun t err ht => HoldStep_tag_error d z w fs v j hv t err ht,
    fun tag s1 ht hz => HoldStep_ok d z w fs v j hv tag ht s1 hz,
    fun tag err s1 ht hz => HoldStep_zfs_error d z w fs v j hv tag ht err s1 hz⟩

/-- An instance of C18: holding `@1` for `sender-job` on an empty ZFS. -/
theorem C18_HoldStep_witness :
    HoldStep sampleDeps modelZFS (Sys.start zfsEmpty) "pool/fs" snap1 senderJob
      = .done (some (.hold { Type_ := .AbstractionStepHold, FS := "pool/fs",
                             Tag := "zrepl_STEP_J_sender-job", JobID := senderJob,
                             FilesystemVersion := snap1 }), none)
          { zfs := { bookmarkCloning := true
                     holds := [("pool/fs", snap1, "zrepl_STEP_J_sender-job")]
                     bookmarks := [] }
            calls := [] ++ [.ZFSHold "pool/fs" snap1 "zrepl_STEP_J_sender-job" none]
            log := [] } :=
  (C18_HoldStep sampleDeps modelZFS (Sys.start zfsEmpty) "pool/fs" snap1 senderJob rfl).2.1
    "zrepl_STEP_J_sender-job" _ rfl rfl

/-! ## The `to` step of `bookmarks`, and the panic of `HoldStep` -/

/-- C19, as the claim states it, fails: with `bookmarks`, when the step bookmark
of `ToVersion` is answered with `ErrBookmarkCloningNotSupported`, `PreSend`
returns that very error with an empty keep list and writes no log line. -/
theorem C19_counterexample :
    ¬ ∀ (d : Deps) (w : Sys ZFSModel) (jid : JobID) (sendArgs : ZFSSendArgsValidated) (n : String)
        (s1 : ZFSModel),
      sendArgs.FromVersion = none →
      StepBookmarkName d sendArgs.FS sendArgs.ToVersion.Guid jid = .ok n →
      modelZFS.ZFSBookmark w.zfs sendArgs.FS sendArgs.ToVersion n
        = (.error .ErrBookmarkCloningNotSupported, s1) →
      ∃ keep err w',
        StepProtectionStrategy.PreSend .StepProtectionStrategyBookmarks d modelZFS w jid sendArgs
          = .done (keep, err) w'
        ∧ err ≠ some .ErrBookmarkCloningNotSupported
        ∧ w'.log ≠ w.log := by
  intro h
  obtain ⟨keep, err, w', hrun, herr, _⟩ :=
    h sampleDeps (Sys.start zfsNoCloning) senderJob fullArgsToBookmark
      "zrepl_STEP_G_0000000000000065_J_sender-job" zfsNoCloning rfl rfl rfl
  have h0 : StepProtectionStrategy.PreSend .StepProtectionStrategyBookmarks sampleDeps modelZFS
      (Sys.start zfsNoCloning) senderJob fullArgsToBookmark
      = .done ([], some .ErrBookmarkCloningNotSupported)
          { zfs := zfsNoCloning
            calls := [.ZFSBookmark "pool/fs" book1 "zrepl_STEP_G_0000000000000065_J_sender-job"
              (.error .ErrBookmarkCloningNotSupported)]
            log := [] } := rfl
  rw [h0] at hrun
  simp only [Run.done.injEq, Prod.mk.injEq] at hrun
  exact herr hrun.1.2.symm

/-- C19, amended. With `bookmarks`, whenever the step bookmark of `ToVersion` is
answered with `ErrBookmarkCloningNotSupported`, `PreSend` rejects the step: it
returns that error to the caller with an empty keep list and logs nothing
about `to`. This holds on a full send, after a successful step bookmark of
`FromVersion`, and after a `FromVersion` whose own bookmark was answered with
the same error (the one log line is then the one about `from`). -/
theorem C19_Bookmarks_PreSend_to_not_supported {σ : Type} (d : Deps) (z : ZFS σ) (w : Sys σ)
    (jid : JobID) (sendArgs : ZFSSendArgsValidated) (n2 : String)
    (hn2 : StepBookmarkName d sendArgs.FS sendArgs.ToVersion.Guid jid = .ok n2) :
    (∀ s1, sendArgs.FromVersion = none →
        z.ZFSBookmark w.zfs sendArgs.FS sendArgs.ToVersion n2
          = (.error .ErrBookmarkCloningNotSupported, s1) →
        StepProtectionStrategy.PreSend .StepProtectionStrategyBookmarks d z w jid sendArgs
          = .done ([], some .ErrBookmarkCloningNotSupported)
              { zfs := s1
                calls := w.calls ++ [.ZFSBookmark sendArgs.FS sendArgs.ToVersion n2
                  (.error .ErrBookmarkCloningNotSupported)]
                log := w.log })
      ∧ (∀ fromVersion n1 b1 s1 s2, sendArgs.FromVersion = some fromVersion →
        StepBookmarkName d sendArgs.FS fromVersion.Guid jid = .ok n1 →
        z.ZFSBookmark w.zfs sendArgs.FS fromVersion n1 = (.ok b1, s1) →
        z.ZFSBookmark s1 sendArgs.FS sendArgs.ToVersion n2
          = (.error .ErrBookmarkCloningNotSupported, s2) →
        StepProtectionStrategy.PreSend .StepProtectionStrategyBookmarks d z w jid sendArgs
          = .done ([], some .ErrBookmarkCloningNotSupported)
              { zfs := s2
                calls := w.calls ++ [.ZFSBookmark sendArgs.FS fromVersion n1 (.ok b1),
                  .ZFSBookmark sendArgs.FS sendArgs.ToVersion n2
                    (.error .ErrBookmarkCloningNotSupported)]
                log := w.log })
      ∧ (∀ fromVersion n1 s1 s2, sendArgs.FromVersion = some fromVersion →
        StepBookmarkName d sendArgs.FS fromVersion.Guid jid = .ok n1 →
        z.ZFSBookmark w.zfs sendArgs.FS fromVersion n1
          = (.error .ErrBookmarkCloningNotSupported, s1) →
        z.ZFSBookmark s1 sendArgs.FS sendArgs.ToVersion n2
          = (.error .ErrBookmarkCloningNotSupported, s2) →
        StepProtectionStrategy.PreSend .StepProtectionStrategyBookmarks d z w jid sendArgs
          = .done ([], some .ErrBookmarkCloningNotSupported)
              { zfs := s2
                calls := w.calls ++ [.ZFSBookmark sendArgs.FS fromVersion n1
                    (.error .ErrBookmarkCloningNotSupported),
                  .ZFSBookmark sendArgs.FS sendArgs.ToVersion n2
                    (.error .ErrBookmarkCloningNotSupported)]
                log := w.log ++ [.Info msgCloningNotSupported] }) := by
  refine ⟨?_, ?_, ?_⟩
  · intro s1 hfrom hz
    have h := BookmarkStep_zfs_error d z w sendArgs.FS sendArgs.ToVersion jid n2 _ s1 hn2 hz
    simp only [StepProtectionStrategy.PreSend, StepProtectionStrategyBookmarks_PreSend, hfrom, h,
      if_true]
    rfl
  · intro fromVersion n1 b1 s1 s2 hfrom hn1 hz1 hz2
    have h1 := BookmarkStep_ok d z w sendArgs.FS fromVersion jid n1 b1 s1 hn1 hz1
    have h2 := BookmarkStep_zfs_error d z
      (w.after s1 (.ZFSBookmark sendArgs.FS fromVersion n1 (.ok b1)))
      sendArgs.FS sendArgs.ToVersion jid n2 _ s2 hn2 hz2
    simp only [StepProtectionStrategy.PreSend, StepProtectionStrategyBookmarks_PreSend, hfrom, h1,
      h2, if_true]
    simp [Sys.after]
  · intro fromVersion n1 s1 s2 hfrom hn1 hz1 hz2
    have h1 := BookmarkStep_zfs_error d z w sendArgs.FS fromVersion jid n1 _ s1 hn1 hz1
    have h2 := BookmarkStep_zfs_error d z
      ((w.after s1 (.ZFSBookmark sendArgs.FS fromVersion n1
        (.error .ErrBookmarkCloningNotSupported))).logLine (.Info msgCloningNotSupported))
      sendArgs.FS sendArgs.ToVersion jid n2 _ s2 hn2 hz2
    simp only [StepProtectionStrategy.PreSend, StepProtectionStrategyBookmarks_PreSend, hfrom, h1,
      h2, if_true]
    simp [Sys.after, Sys.logLine]

/-- An instance of the amended C19: a full send whose `ToVersion` is a bookmark,
on a kernel that cannot bookmark a bookmark. -/
theorem C19_Bookmarks_PreSend_to_not_supported_witness :
    StepProtectionStrategy.PreSend .StepProtectionStrategyBookmarks sampleDeps modelZFS
        (Sys.start zfsNoCloning) senderJob fullArgsToBookmark
      = .done ([], some .ErrBookmarkCloningNotSupported)
          { zfs := zfsNoCloning
            calls := [] ++ [.ZFSBookmark "pool/fs" book1
              "zrepl_STEP_G_0000000000000065_J_sender-job"
              (.error .ErrBookmarkCloningNotSupported)]
            log := [] } :=
  (C19_Bookmarks_PreSend_to_not_supported sampleDeps modelZFS (Sys.start zfsNoCloning) senderJob
    fullArgsToBookmark "zrepl_STEP_G_0000000000000065_J_sender-job" rfl).1 zfsNoCloning rfl rfl

theorem BookmarkStep_calls {σ : Type} (d : Deps) (z : ZFS σ) (w : Sys σ) (fs : String)
    (v : FilesystemVersion) (jid : JobID) :
    ∃ l, (BookmarkStep d z w fs v jid).2.calls = w.calls ++ l ∧ ∀ c ∈ l, c.isHold = false := by
  rcases BookmarkStep_inv d z w fs v jid with
    ⟨err, _, h1⟩ | ⟨n, err, s1, _, _, h1⟩ | ⟨n, b, s1, _, _, h1⟩
  · exact ⟨[], by rw [h1]; simp, by simp⟩
  · exact ⟨[.ZFSBookmark fs v n (.error err)], by rw [h1]; rfl, by simp [ZFSCall.isHold]⟩
  · exact ⟨[.ZFSBookmark fs v n (.ok b)], by rw [h1]; rfl, by simp [ZFSCall.isHold]⟩

theorem HoldStep_snapshot_calls {σ : Type} (d : Deps) (z : ZFS σ) (w : Sys σ) (fs : String)
    (v : FilesystemVersion) (jid : JobID) (hv : v.Type_ = VersionType.Snapshot) :
    ∃ r w', HoldStep d z w fs v jid = .done r w'
      ∧ ∃ l, w'.calls = w.calls ++ l
        ∧ ∀ c ∈ l, c.version.Type_ = VersionType.Snapshot := by
  rcases HoldStep_inv d z w fs v jid with
    ⟨hn, _⟩ | ⟨_, t, err, _, h1⟩ | ⟨_, t, err, s1, _, _, h1⟩ | ⟨_, t, s1, _, _, h1⟩
  · exact absurd hv hn
  · exact ⟨_, _, h1, [], by simp, by simp⟩
  · exact ⟨_, _, h1, [.ZFSHold fs v t (some err)], rfl, by simp [ZFSCall.version, hv]⟩
  · exact ⟨_, _, h1, [.ZFSHold fs v t none], rfl, by simp [ZFSCall.version, hv]⟩

theorem holdsToStep_snapshot_calls {σ : Type} (d : Deps) (z : ZFS σ) (jid : JobID)
    (sendArgs : ZFSSendArgsValidated) (keep : List (Option Abstraction)) (w : Sys σ)
    (hto : sendArgs.ToVersion.Type_ = VersionType.Snapshot) :
    ∃ r w', holdsToStep d z jid sendArgs keep w = .done r w'
      ∧ ∃ l, w'.calls = w.calls ++ l
        ∧ ∀ c ∈ l, c.version.Type_ = VersionType.Snapshot := by
  obtain ⟨⟨a, e⟩, w1, h1, l, hl, hc⟩ :=
    HoldStep_snapshot_calls d z w sendArgs.FS sendArgs.ToVersion jid hto
  unfold holdsToStep
  rw [h1]
  cases e with
  | some err => exact ⟨_, _, rfl, l, hl, hc⟩
  | none => exact ⟨_, _, rfl, l, hl, hc⟩

/-- C20. For every job and all send arguments whose `ToVersion` is a snapshot
(and whose `FromVersion` is absent, a snapshot or a bookmark), `PreSend` of
`holds` returns without the panic of `HoldStep`, and every `ZFSHold` it issues
is for a snapshot; `HoldStep` called on a version that is not a snapshot
panics without issuing a ZFS command. -/
theorem C20_Holds_PreSend_no_panic {σ : Type} (d : Deps) (z : ZFS σ) (w : Sys σ) (jid : JobID)
    (sendArgs : ZFSSendArgsValidated)
    (hto : sendArgs.ToVersion.Type_ = VersionType.Snapshot) :
    (∃ r w', StepProtectionStrategy.PreSend .StepProtectionStrategyHolds d z w jid sendArgs
          = .done r w'
        ∧ ∃ l, w'.calls = w.calls ++ l
          ∧ ∀ c ∈ l, c.isHold = true → c.version.Type_ = VersionType.Snapshot)
      ∧ ∀ (fs : String) (v : FilesystemVersion), v.Type_ ≠ VersionType.Snapshot →
          HoldStep d z w fs v jid = .panic "version must be a snapshot" w := by
  refine ⟨?_, fun fs v hv => HoldStep_not_snapshot d z w fs v jid hv⟩
  show ∃ r w', StepProtectionStrategyHolds_PreSend d z w jid sendArgs = .done r w' ∧ _
  rw [Holds_PreSend_eq]
  cases hf : sendArgs.FromVersion with
  | none =>
    obtain ⟨r, w', h, l, hl, hc⟩ := holdsToStep_snapshot_calls d z jid sendArgs [] w hto
    exact ⟨r, w', h, l, hl, fun c hcl _ => hc c hcl⟩
  | some f =>
    simp only
    by_cases hbm : f.Type_ = VersionType.Bookmark
    · simp only [hbm, if_true]
      obtain ⟨l1, hl1, hc1⟩ := BookmarkStep_calls d z (w.logLine (.Debug msgCannotHoldBookmark))
        sendArgs.FS f jid
      rcases hb : BookmarkStep d z (w.logLine (.Debug msgCannotHoldBookmark)) sendArgs.FS f jid
        with ⟨⟨a, e⟩, wx⟩
      rw [hb] at hl1
      simp only at hl1
      cases e with
      | none =>
        obtain ⟨r, w', h, l, hl, hc⟩ := holdsToStep_snapshot_calls d z jid sendArgs [a] wx hto
        refine ⟨r, w', h, l1 ++ l, ?_, ?_⟩
        · rw [hl, hl1]
          simp [Sys.logLine]
        · intro c hcl hh
          rcases List.mem_append.mp hcl with h1 | h2
          · rw [hc1 c h1] at hh
            cases hh
          · exact hc c h2
      | some err =>
        by_cases he : err = .ErrBookmarkCloningNotSupported
        · simp only [he, if_true]
          obtain ⟨r, w', h, l, hl, hc⟩ := holdsToStep_snapshot_calls d z jid sendArgs [a]
            (wx.logLine (.Info msgCloningNotSupported)) hto
          refine ⟨r, w', h, l1 ++ l, ?_, ?_⟩
          · rw [hl]
            simp only [Sys.logLine] at hl1 ⊢
            rw [hl1]
            simp
          · intro c hcl hh
            rcases List.mem_append.mp hcl with h1 | h2
            · rw [hc1 c h1] at hh
              cases hh
            · exact hc c h2
        · simp only [he, if_false]
          refine ⟨_, _, rfl, l1, ?_, ?_⟩
          · rw [hl1]
            simp [Sys.logLine]
          · intro c hcl hh
            rw [hc1 c hcl] at hh
            cases hh
    · simp only [hbm, if_false]
      have hsn : f.Type_ = VersionType.Snapshot := by
        cases hft : f.Type_ with
        | Bookmark => exact absurd hft hbm
        | Snapshot => rfl
      obtain ⟨⟨a, e⟩, w1, h1, l1, hl1, hc1⟩ := HoldStep_snapshot_calls d z w sendArgs.FS f jid hsn
      rw [h1]
      cases e with
      | some err => exact ⟨_, _, rfl, l1, hl1, fun c hcl _ => hc1 c hcl⟩
      | none =>
        obtain ⟨r, w', h, l, hl, hc⟩ := holdsToStep_snapshot_calls d z jid sendArgs [a] w1 hto
        refine ⟨r, w', h, l1 ++ l, ?_, ?_⟩
        · rw [hl, hl1]
          simp
        · intro c hcl _
          rcases List.mem_append.mp hcl with h1 | h2
          · exact hc1 c h1
          · exact hc c h2

/-- An instance of C20: `holds` on the step `#1 → @2`, and `HoldStep` on `#1`. -/
theorem C20_Holds_PreSend_no_panic_witness :
    (∃ r w', StepProtectionStrategy.PreSend .StepProtectionStrategyHolds sampleDeps modelZFS
          (Sys.start zfsEmpty) senderJob stepArgsFromBookmark = .done r w'
        ∧ ∃ l, w'.calls = (Sys.start zfsEmpty).calls ++ l
          ∧ ∀ c ∈ l, c.isHold = true → c.version.Type_ = VersionType.Snapshot)
      ∧ HoldStep sampleDeps modelZFS (Sys.start zfsEmpty) "pool/fs" book1 senderJob
          = .panic "version must be a snapshot" (Sys.start zfsEmpty) :=
  ⟨(C20_Holds_PreSend_no_panic sampleDeps modelZFS (Sys.start zfsEmpty) senderJob
      stepArgsFromBookmark rfl).1,
    (C20_Holds_PreSend_no_panic sampleDeps modelZFS (Sys.start zfsEmpty) senderJob
      stepArgsFromBookmark rfl).2 "pool/fs" book1 (by decide)⟩

/-! ## The modelled bookmark name codec round-trips -/

theorem hexValue_hexDigit (m : Nat) (h : m < 16) : hexValue (hexDigit m) = some m := by
  interval_cases m <;> rfl

theorem parseHex_map_hexDigit (ds : List Nat) (hds : ∀ x ∈ ds, x < 16) (acc : Nat) :
    parseHex (ds.map hexDigit) acc = some (ds.foldl (fun a x => a * 16 + x) acc) := by
  induction ds generalizing acc with
  | nil => rfl
  | cons x xs ih =>
    simp only [List.map_cons, parseHex, hexValue_hexDigit x (hds x (List.mem_cons_self _ _)),
      List.foldl_cons]
    exact ih (fun y hy => hds y (List.mem_cons_of_mem _ hy)) _

theorem foldl_hex_digits (g k acc : Nat) :
    ((List.range k).reverse.map (fun i => g / 16 ^ i % 16)).foldl (fun a x => a * 16 + x) acc
      = acc * 16 ^ k + g % 16 ^ k := by
  induction k generalizing acc with
  | zero => simp [Nat.mod_one]
  | succ k ih =>
    rw [List.range_succ, List.reverse_append, List.reverse_singleton, List.singleton_append,
      List.map_cons, List.foldl_cons, ih, Nat.mod_pow_succ]
    ring

theorem hex16_eq (g : Nat) :
    hex16 g = ((List.range 16).reverse.map (fun i => g / 16 ^ i % 16)).map hexDigit := by
  simp [hex16, List.map_map, Function.comp_def]

theorem hex16_length (g : Nat) : (hex16 g).length = 16 := by
  simp [hex16]

theorem parseHex_hex16 (g : Nat) : parseHex (hex16 g) 0 = some (g % 2 ^ 64) := by
  rw [hex16_eq, parseHex_map_hexDigit]
  · rw [foldl_hex_digits]
    have h16 : (16 : Nat) ^ 16 = 2 ^ 64 := by norm_num
    rw [h16]
    simp
  · intro x hx
    simp only [List.mem_map, List.mem_reverse, List.mem_range] at hx
    obtain ⟨i, _, rfl⟩ := hx
    exact Nat.mod_lt _ (by norm_num)

theorem hexDigit_ne_hash (m : Nat) (h : m < 16) : hexDigit m ≠ Char.ofNat 35 := by
  interval_cases m <;> decide

theorem hex16_no_hash (g : Nat) : Char.ofNat 35 ∉ hex16 g := by
  intro h
  simp only [hex16, List.mem_map, List.mem_reverse, List.mem_range] at h
  obtain ⟨i, _, hi⟩ := h
  exact hexDigit_ne_hash _ (Nat.mod_lt _ (by norm_num)) hi

theorem takeWhile_append_cons_of_stop {α : Type} (p : α → Bool) (l1 : List α) (x : α)
    (l2 : List α) (h1 : ∀ a ∈ l1, p a = true) (hx : p x = false) :
    (l1 ++ x :: l2).takeWhile p = l1 := by
  induction l1 with
  | nil => simp [List.takeWhile, hx]
  | cons a l ih =>
    have ha := h1 a (List.mem_cons_self _ _)
    simp only [List.cons_append, List.takeWhile_cons, ha, if_true]
    rw [ih (fun b hb => h1 b (List.mem_cons_of_mem _ hb))]

theorem name_after_last_hash (fs n : List Char) (hn : Char.ofNat 35 ∉ n) :
    ((fs ++ Char.ofNat 35 :: n).reverse.takeWhile (fun c => c != Char.ofNat 35)).reverse = n := by
  have hrev : (fs ++ Char.ofNat 35 :: n).reverse = n.reverse ++ Char.ofNat 35 :: fs.reverse := by
    simp
  rw [hrev, takeWhile_append_cons_of_stop _ _ _ _ _ (by simp), List.reverse_reverse]
  intro a ha
  simp only [bne_iff_ne, ne_eq]
  intro h
  exact hn (h ▸ List.mem_reverse.mp ha)

theorem parseJobAndGuidBookmarkName_make (check : String → Option Error)
    (hclass : ∀ s, check s = none → Char.ofNat 35 ∉ s.data)
    (pre fs : String) (hpre : Char.ofNat 35 ∉ pre.data) (guid : Nat)
    (jobid : String) (hjob : check jobid = none) :
    parseJobAndGuidBookmarkName check
        (fs ++ "#" ++ (pre ++ "_G_" ++ ⟨hex16 guid⟩ ++ "_J_" ++ jobid)) pre
      = (guid % 2 ^ 64, ⟨jobid⟩, none) := by
  have hjh := hclass jobid hjob
  have hname : Char.ofNat 35 ∉ pre.data ++ "_G_".data ++ hex16 guid ++ "_J_".data ++ jobid.data := by
    simp only [List.mem_append, not_or]
    exact ⟨⟨⟨⟨hpre, by decide⟩, hex16_no_hash guid⟩, by decide⟩, hjh⟩
  have hfull : (fs ++ "#" ++ (pre ++ "_G_" ++ ⟨hex16 guid⟩ ++ "_J_" ++ jobid)).data
      = fs.data ++ Char.ofNat 35 :: (pre.data ++ "_G_".data ++ hex16 guid ++ "_J_".data
          ++ jobid.data) := by
    simp only [String.data_append, List.append_assoc]
    rfl
  unfold parseJobAndGuidBookmarkName
  rw [hfull, if_pos (by simp)]
  simp only [name_after_last_hash _ _ hname]
  have hhead : (pre ++ "_G_").data.isPrefixOf
      (pre.data ++ "_G_".data ++ hex16 guid ++ "_J_".data ++ jobid.data) = true := by
    rw [List.isPrefixOf_iff_prefix, String.data_append]
    exact ⟨hex16 guid ++ "_J_".data ++ jobid.data, by simp⟩
  rw [if_pos hhead]
  have hdrop : (pre.data ++ "_G_".data ++ hex16 guid ++ "_J_".data ++ jobid.data).drop
      (pre ++ "_G_").data.length = hex16 guid ++ ("_J_".data ++ jobid.data) := by
    rw [String.data_append]
    have : pre.data ++ "_G_".data ++ hex16 guid ++ "_J_".data ++ jobid.data
        = (pre.data ++ "_G_".data) ++ (hex16 guid ++ ("_J_".data ++ jobid.data)) := by simp
    rw [this, List.drop_left]
  simp only [hdrop]
  have htake : (hex16 guid ++ ("_J_".data ++ jobid.data)).take 16 = hex16 guid := by
    rw [← hex16_length guid, List.take_left]
  have hdrop2 : (hex16 guid ++ ("_J_".data ++ jobid.data)).drop 16 = "_J_".data ++ jobid.data := by
    rw [← hex16_length guid, List.drop_left]
  simp only [htake, hdrop2, parseHex_hex16 guid, hex16_length]
  have hj : "_J_".data.isPrefixOf ("_J_".data ++ jobid.data) = true := by
    rw [List.isPrefixOf_iff_prefix]
    exact List.prefix_append _ _
  have hd3 : ("_J_".data ++ jobid.data).drop 3 = jobid.data := by
    have : (3 : Nat) = "_J_".data.length := rfl
    rw [this, List.drop_left]
  simp only [hj, hd3, and_self, if_true, hjob]

/-- C13. Over the modelled bookmark name codec and a `MakeJobID` whose admitted
names contain no `#`: for every filesystem `fs`, 64-bit `guid` and job `id` made
by `MakeJobID` for which `StepBookmarkName fs guid id` succeeds with name `n`,
`ParseStepBookmarkName` of `fs#n` succeeds and returns exactly `(guid, id)`;
hence two pairs with the same step bookmark name on `fs` are equal. -/
theorem C13_ParseStepBookmarkName_StepBookmarkName (check validTag : String → Option Error)
    (hclass : ∀ s, check s = none → Char.ofNat 35 ∉ s.data)
    (fs : String) (guid : Nat) (s : String) (id : JobID) (n : String) (hg : guid < 2 ^ 64)
    (hid : MakeJobID (codecDeps check validTag) s = .ok id)
    (hn : StepBookmarkName (codecDeps check validTag) fs guid id = .ok n) :
    ParseStepBookmarkName (codecDeps check validTag) (fs ++ "#" ++ n) = (guid, id, none)
      ∧ ∀ guid2 s2 id2, guid2 < 2 ^ 64 → MakeJobID (codecDeps check validTag) s2 = .ok id2 →
          StepBookmarkName (codecDeps check validTag) fs guid2 id2 = .ok n →
          guid2 = guid ∧ id2 = id := by
  have key : ∀ g t j m, g < 2 ^ 64 → MakeJobID (codecDeps check validTag) t = .ok j →
      StepBookmarkName (codecDeps check validTag) fs g j = .ok m →
      ParseStepBookmarkName (codecDeps check validTag) (fs ++ "#" ++ m) = (g, j, none) := by
    intro g t j m hg hj hm
    obtain ⟨hchk, rfl⟩ := MakeJobID_ok _ t j hj
    simp only [StepBookmarkName, stepBookmarkNameImpl, codecDeps, makeJobAndGuidBookmarkName,
      JobID.String, Except.ok.injEq] at hm
    subst hm
    have hp := parseJobAndGuidBookmarkName_make check hclass stepBookmarkNamePrefix fs
      (by decide) g t hchk
    rw [Nat.mod_eq_of_lt hg] at hp
    simp only [ParseStepBookmarkName, codecDeps, hp]
  refine ⟨key guid s id n hg hid hn, ?_⟩
  intro guid2 s2 id2 hg2 hid2 hn2
  have h1 := key guid s id n hg hid hn
  have h2 := key guid2 s2 id2 n hg2 hid2 hn2
  rw [h1] at h2
  simp only [Prod.mk.injEq, and_true] at h2
  exact ⟨h2.1.symm, h2.2.symm⟩

theorem sampleJobIDCheck_no_hash (s : String) (h : sampleJobIDCheck s = none) :
    Char.ofNat 35 ∉ s.data := by
  simp only [sampleJobIDCheck] at h
  split at h
  · cases h
  · split at h
    · rename_i hall
      intro hmem
      have := List.all_eq_true.mp hall _ hmem
      revert this
      decide
    · cases h

/-- An instance of C13: the step bookmark name of guid 101 for `sender-job`. -/
theorem C13_ParseStepBookmarkName_StepBookmarkName_witness :
    ParseStepBookmarkName (codecDeps sampleJobIDCheck sampleDeps.ValidHoldTag)
        ("pool/fs" ++ "#" ++ "zrepl_STEP_G_0000000000000065_J_sender-job")
        = (101, senderJob, none)
      ∧ ∀ guid2 s2 id2, guid2 < 2 ^ 64 →
          MakeJobID (codecDeps sampleJobIDCheck sampleDeps.ValidHoldTag) s2 = .ok id2 →
          StepBookmarkName (codecDeps sampleJobIDCheck sampleDeps.ValidHoldTag) "pool/fs" guid2 id2
            = .ok "zrepl_STEP_G_0000000000000065_J_sender-job" →
          guid2 = 101 ∧ id2 = senderJob :=
  C13_ParseStepBookmarkName_StepBookmarkName sampleJobIDCheck sampleDeps.ValidHoldTag
    sampleJobIDCheck_no_hash "pool/fs" 101 "sender-job" senderJob
    "zrepl_STEP_G_0000000000000065_J_sender-job" (by norm_num) rfl rfl

/-! ## JSON form of the strategy kinds -/

/-- C14. Over the modelled generated methods: `Holds`, `Bookmarks` and `None`
marshal to the strings `holds`, `bookmarks` and `none`; unmarshalling each
string yields the same kind again, so every kind round-trips; and parsing is
case-sensitive: every other string, `Holds` for one, is rejected with an
error. -/
theorem C14_StepProtectionStrategyKind_json :
    StepProtectionStrategyKind_MarshalJSON StepProtectionStrategyKindHolds = ("holds", none)
      ∧ StepProtectionStrategyKind_MarshalJSON StepProtectionStrategyKindBookmarks
          = ("bookmarks", none)
      ∧ StepProtectionStrategyKind_MarshalJSON StepProtectionStrategyKindNone = ("none", none)
      ∧ StepProtectionStrategyKind_UnmarshalJSON "holds" = (StepProtectionStrategyKindHolds, none)
      ∧ StepProtectionStrategyKind_UnmarshalJSON "bookmarks"
          = (StepProtectionStrategyKindBookmarks, none)
      ∧ StepProtectionStrategyKind_UnmarshalJSON "none" = (StepProtectionStrategyKindNone, none)
      ∧ (∀ k, (k = StepProtectionStrategyKindHolds ∨ k = StepProtectionStrategyKindBookmarks
            ∨ k = StepProtectionStrategyKindNone) →
          StepProtectionStrategyKind_UnmarshalJSON (StepProtectionStrategyKind_MarshalJSON k).1
            = (k, none))
      ∧ (∀ s, s ≠ "holds" → s ≠ "bookmarks" → s ≠ "none" →
          ∃ e, StepProtectionStrategyKind_UnmarshalJSON s = (0, some e))
      ∧ (∃ e, StepProtectionStrategyKind_UnmarshalJSON "Holds" = (0, some e)) := by
  refine ⟨rfl, rfl, rfl, rfl, rfl, rfl, ?_, ?_, ⟨_, rfl⟩⟩
  · rintro k (rfl | rfl | rfl) <;> rfl
  · intro s h1 h2 h3
    exact ⟨.errorf (s ++ " does not belong to StepProtectionStrategyKind values"),
      by simp [StepProtectionStrategyKind_UnmarshalJSON, StepProtectionStrategyKindString,
        h1, h2, h3]⟩

/-! ## `PreSend` only adds step markers of its own job -/

theorem ZFSModel.extendsFor_refl (d : Deps) (J : JobID) (s : ZFSModel) : s.extendsFor d J s :=
  ⟨[], [], by simp, by simp, by simp, by simp⟩

theorem ZFSModel.extendsFor_trans {d : Deps} {J : JobID} {s1 s2 s3 : ZFSModel}
    (h12 : s1.extendsFor d J s2) (h23 : s2.extendsFor d J s3) : s1.extendsFor d J s3 := by
  obtain ⟨h1, b1, hh1, hb1, ph1, pb1⟩ := h12
  obtain ⟨h2, b2, hh2, hb2, ph2, pb2⟩ := h23
  refine ⟨h1 ++ h2, b1 ++ b2, by rw [hh2, hh1, List.append_assoc],
    by rw [hb2, hb1, List.append_assoc], ?_, ?_⟩
  · intro h hm
    rcases List.mem_append.mp hm with hm | hm
    · exact ph1 h hm
    · exact ph2 h hm
  · intro b hm
    rcases List.mem_append.mp hm with hm | hm
    · exact pb1 b hm
    · exact pb2 b hm

theorem ZFSModel.ZFSHold_extendsFor (d : Deps) (J : JobID) (s s' : ZFSModel) (fs : String)
    (v : FilesystemVersion) (tag : String) (r : Option Error)
    (ht : StepHoldTag d J = (tag, none)) (h : s.ZFSHold fs v tag = (r, s')) :
    s.extendsFor d J s' := by
  unfold ZFSModel.ZFSHold at h
  split at h
  · cases h
    exact ZFSModel.extendsFor_refl d J s
  · split at h
    · cases h
      exact ZFSModel.extendsFor_refl d J s
    · cases h
      refine ⟨[(fs, v, tag)], [], rfl, by simp, ?_, by simp⟩
      intro x hx
      simp only [List.mem_singleton] at hx
      subst hx
      exact ht

theorem ZFSModel.ZFSBookmark_extendsFor (d : Deps) (J : JobID) (s s' : ZFSModel) (fs : String)
    (v : FilesystemVersion) (n : String) (r : Except Error FilesystemVersion)
    (hn : StepBookmarkName d fs v.Guid J = .ok n) (h : s.ZFSBookmark fs v n = (r, s')) :
    s.extendsFor d J s' := by
  unfold ZFSModel.ZFSBookmark at h
  split at h
  · cases h
    exact ZFSModel.extendsFor_refl d J s
  · split at h
    · split at h
      · cases h
        exact ZFSModel.extendsFor_refl d J s
      · cases h
        exact ZFSModel.extendsFor_refl d J s
    · cases h
      refine ⟨[], [⟨fs, ⟨.Bookmark, n, v.Guid, v.CreateTXG, v.Creation⟩⟩], by simp, rfl,
        by simp, ?_⟩
      intro x hx
      simp only [List.mem_singleton] at hx
      subst hx
      exact ⟨v.Guid, hn⟩

theorem HoldStep_extendsFor (d : Deps) (w : Sys ZFSModel) (fs : String) (v : FilesystemVersion)
    (J : JobID) : w.zfs.extendsFor d J (HoldStep d modelZFS w fs v J).world.zfs := by
  rcases HoldStep_inv d modelZFS w fs v J with
    ⟨_, h1⟩ | ⟨_, t, err, _, h1⟩ | ⟨_, t, err, s1, ht, hz, h1⟩ | ⟨_, t, s1, ht, hz, h1⟩
  · rw [h1]
    exact ZFSModel.extendsFor_refl d J _
  · rw [h1]
    exact ZFSModel.extendsFor_refl d J _
  · rw [h1]
    exact ZFSModel.ZFSHold_extendsFor d J _ _ fs v t _ ht hz
  · rw [h1]
    exact ZFSModel.ZFSHold_extendsFor d J _ _ fs v t _ ht hz

theorem BookmarkStep_extendsFor (d : Deps) (w : Sys ZFSModel) (fs : String)
    (v : FilesystemVersion) (J : JobID) :
    w.zfs.extendsFor d J (BookmarkStep d modelZFS w fs v J).2.zfs := by
  rcases BookmarkStep_inv d modelZFS w fs v J with
    ⟨err, _, h1⟩ | ⟨n, err, s1, hn, hz, h1⟩ | ⟨n, b, s1, hn, hz, h1⟩
  · rw [h1]
    exact ZFSModel.extendsFor_refl d J _
  · rw [h1]
    exact ZFSModel.ZFSBookmark_extendsFor d J _ _ fs v n _ hn hz
  · rw [h1]
    exact ZFSModel.ZFSBookmark_extendsFor d J _ _ fs v n _ hn hz

theorem bookmarksToStep_extendsFor (d : Deps) (J : JobID) (sendArgs : ZFSSendArgsValidated)
    (keep : List (Option Abstraction)) (w : Sys ZFSModel) :
    w.zfs.extendsFor d J (bookmarksToStep d modelZFS J sendArgs keep w).world.zfs := by
  have h := BookmarkStep_extendsFor d w sendArgs.FS sendArgs.ToVersion J
  unfold bookmarksToStep
  rcases hb : BookmarkStep d modelZFS w sendArgs.FS sendArgs.ToVersion J with ⟨⟨a, e⟩, wx⟩
  rw [hb] at h
  cases e <;> exact h

theorem holdsToStep_extendsFor (d : Deps) (J : JobID) (sendArgs : ZFSSendArgsValidated)
    (keep : List (Option Abstraction)) (w : Sys ZFSModel) :
    w.zfs.extendsFor d J (holdsToStep d modelZFS J sendArgs keep w).world.zfs := by
  have h := HoldStep_extendsFor d w sendArgs.FS sendArgs.ToVersion J
  unfold holdsToStep
  cases hb : HoldStep d modelZFS w sendArgs.FS sendArgs.ToVersion J with
  | panic msg wx =>
    rw [hb] at h
    exact h
  | done ae wx =>
    obtain ⟨a, e⟩ := ae
    rw [hb] at h
    cases e <;> exact h

theorem PreSend_extendsFor (d : Deps) (s : StepProtectionStrategy) (w : Sys ZFSModel)
    (J : JobID) (sendArgs : ZFSSendArgsValidated) :
    w.zfs.extendsFor d J (s.PreSend d modelZFS w J sendArgs).world.zfs := by
  cases s with
  | StepProtectionStrategyNone => exact ZFSModel.extendsFor_refl d J _
  | StepProtectionStrategyBookmarks =>
    show w.zfs.extendsFor d J (StepProtectionStrategyBookmarks_PreSend d modelZFS w J sendArgs).world.zfs
    rw [Bookmarks_PreSend_eq]
    cases hf : sendArgs.FromVersion with
    | none => exact bookmarksToStep_extendsFor d J sendArgs [] w
    | some f =>
      simp only
      have h1 := BookmarkStep_extendsFor d w sendArgs.FS f J
      rcases hb : BookmarkStep d modelZFS w sendArgs.FS f J with ⟨⟨a, e⟩, wx⟩
      rw [hb] at h1
      cases e with
      | none => exact ZFSModel.extendsFor_trans h1 (bookmarksToStep_extendsFor d J sendArgs [a] wx)
      | some err =>
        by_cases he : err = .ErrBookmarkCloningNotSupported
        · simp only [he, if_true]
          exact ZFSModel.extendsFor_trans h1
            (bookmarksToStep_extendsFor d J sendArgs [a] (wx.logLine _))
        · simp only [he, if_false]
          exact h1
  | StepProtectionStrategyHolds =>
    show w.zfs.extendsFor d J (StepProtectionStrategyHolds_PreSend d modelZFS w J sendArgs).world.zfs
    rw [Holds_PreSend_eq]
    cases hf : sendArgs.FromVersion with
    | none => exact holdsToStep_extendsFor d J sendArgs [] w
    | some f =>
      simp only
      by_cases hbm : f.Type_ = VersionType.Bookmark
      · simp only [hbm, if_true]
        have h1 := BookmarkStep_extendsFor d (w.logLine (.Debug msgCannotHoldBookmark))
          sendArgs.FS f J
        rcases hb : BookmarkStep d modelZFS (w.logLine (.Debug msgCannotHoldBookmark))
          sendArgs.FS f J with ⟨⟨a, e⟩, wx⟩
        rw [hb] at h1
        cases e with
        | none => exact ZFSModel.extendsFor_trans h1 (holdsToStep_extendsFor d J sendArgs [a] wx)
        | some err =>
          by_cases he : err = .ErrBookmarkCloningNotSupported
          · simp only [he, if_true]
            exact ZFSModel.extendsFor_trans h1
              (holdsToStep_extendsFor d J sendArgs [a] (wx.logLine _))
          · simp only [he, if_false]
            exact h1
      · simp only [hbm, if_false]
        have h1 := HoldStep_extendsFor d w sendArgs.FS f J
        cases hb : HoldStep d modelZFS w sendArgs.FS f J with
        | panic msg wx =>
          rw [hb] at h1
          exact h1
        | done ae wx =>
          obtain ⟨a, e⟩ := ae
          rw [hb] at h1
          cases e with
          | some err => exact h1
          | none => exact ZFSModel.extendsFor_trans h1 (holdsToStep_extendsFor d J sendArgs [a] wx)

/-! ## Listing another job's abstractions before and after an attempt -/

theorem listing_frame_append {α β : Type} (f : α → Option β) (p : α → Bool) (q : β → Bool)
    (l new : List α) (hnew : ∀ x ∈ new, ∀ a, f x = some a → q a = false) :
    (((l ++ new).filter p).filterMap f).filter q = ((l.filter p).filterMap f).filter q := by
  rw [List.filter_append, List.filterMap_append, List.filter_append]
  have hnil : ((new.filter p).filterMap f).filter q = [] := by
    rw [List.filter_eq_nil_iff]
    intro a ha
    rw [List.mem_filterMap] at ha
    obtain ⟨x, hx, hfx⟩ := ha
    rw [hnew x (List.mem_filter.mp hx).1 a hfx]
    simp
  rw [hnil, List.append_nil]

theorem listing_frame_filter {α β : Type} (f : α → Option β) (p : α → Bool) (q : β → Bool)
    (k : α → Bool) (l : List α)
    (hk : ∀ x ∈ l, k x = false → ∀ a, f x = some a → q a = false) :
    (((l.filter k).filter p).filterMap f).filter q = ((l.filter p).filterMap f).filter q := by
  induction l with
  | nil => rfl
  | cons x xs ih =>
    have ih' := ih (fun y hy => hk y (List.mem_cons_of_mem _ hy))
    by_cases hkx : k x = true
    · rw [List.filter_cons_of_pos hkx]
      by_cases hpx : p x = true
      · rw [List.filter_cons_of_pos hpx, List.filter_cons_of_pos hpx]
        cases hfx : f x with
        | none => rw [List.filterMap_cons_none hfx, List.filterMap_cons_none hfx, ih']
        | some a =>
          rw [List.filterMap_cons_some hfx, List.filterMap_cons_some hfx]
          by_cases hqa : q a = true
          · rw [List.filter_cons_of_pos hqa, List.filter_cons_of_pos hqa, ih']
          · rw [List.filter_cons_of_neg hqa, List.filter_cons_of_neg hqa, ih']
      · rw [List.filter_cons_of_neg hpx, List.filter_cons_of_neg hpx, ih']
    · rw [List.filter_cons_of_neg hkx, ih']
      have hkx' : k x = false := by simpa using hkx
      by_cases hpx : p x = true
      · rw [List.filter_cons_of_pos hpx]
        cases hfx : f x with
        | none => rw [List.filterMap_cons_none hfx]
        | some a =>
          rw [List.filterMap_cons_some hfx]
          have hqa := hk x (List.mem_cons_self _ _) hkx' a hfx
          rw [List.filter_cons_of_neg (by simp [hqa])]
      · rw [List.filter_cons_of_neg hpx]

theorem sampleJobIDCheck_class (s : String) (h : sampleJobIDCheck s = none) :
    s.data ≠ [] ∧ Char.ofNat 10 ∉ s.data ∧ Char.ofNat 35 ∉ s.data := by
  refine ⟨?_, ?_, sampleJobIDCheck_no_hash s h⟩
  · exact (sampleDeps_class s h).1
  · exact (sampleDeps_class s h).2

/-! ## Package `logger` -/

/-- C24. `ParseLevel` inverts `Level.String` on the defined levels: for every
`l` in `AllLevels`, `ParseLevel (l.String())` returns `(l, nil)`; and for every
string outside `debug`, `info`, `warn`, `error`, the differently-cased `Debug`
for one, `ParseLevel` returns an error together with the level `-1`. -/
theorem C24_ParseLevel :
    (∀ l ∈ logger.AllLevels, logger.ParseLevel (logger.Level.String l) = (l, none))
      ∧ (∀ s : String, s ≠ "debug" → s ≠ "info" → s ≠ "warn" → s ≠ "error" →
          ∃ e, logger.ParseLevel s = (-1, some e))
      ∧ (∃ e, logger.ParseLevel "Debug" = (-1, some e)) := by
  refine ⟨?_, ?_, ⟨_, rfl⟩⟩
  · intro l hl
    simp only [logger.AllLevels, List.mem_cons, List.mem_singleton, List.not_mem_nil,
      or_false] at hl
    rcases hl with rfl | rfl | rfl | rfl <;> rfl
  · intro s h1 h2 h3 h4
    refine ⟨.errorf ("unknown level '" ++ s ++ "'"), ?_⟩
    have e1 : logger.Level.String logger.Debug = "debug" := rfl
    have e2 : logger.Level.String logger.Info = "info" := rfl
    have e3 : logger.Level.String logger.Warn = "warn" := rfl
    have e4 : logger.Level.String logger.Error = "error" := rfl
    simp only [logger.ParseLevel, logger.AllLevels, logger.ParseLevel.loop, e1, e2, e3, e4,
      h1, h2, h3, h4, if_false]

theorem logger.Outlets.addTo_e {O : Type} (os : logger.Outlets O) (o : O)
    (ls : List logger.Level) : (os.addTo o ls).e = os.e := by
  induction ls generalizing os with
  | nil => rfl
  | cons l rest ih =>
    simp only [logger.Outlets.addTo]
    rw [ih]

theorem logger.Outlets.addTo_reg {O : Type} (os : logger.Outlets O) (o : O)
    (ls : List logger.Level) (hnd : ls.Nodup) (k : logger.Level) :
    (os.addTo o ls).reg k = if k ∈ ls then os.reg k ++ [o] else os.reg k := by
  induction ls generalizing os with
  | nil => simp [logger.Outlets.addTo]
  | cons l rest ih =>
    simp only [logger.Outlets.addTo]
    rw [ih _ (List.nodup_cons.mp hnd).2]
    have hl : l ∉ rest := (List.nodup_cons.mp hnd).1
    by_cases hk : k ∈ rest
    · have hkl : k ≠ l := fun h => hl (h ▸ hk)
      simp [hk, hkl]
    · by_cases hkl : k = l
      · subst hkl
        simp [hk]
      · simp [hk, hkl]

theorem logger.AllLevelsFrom_spec (m : logger.Level) (hm : m ∈ logger.AllLevels) :
    ∃ ls, logger.AllLevelsFrom m = .ret ls ∧ ls.Nodup
      ∧ ∀ l ∈ logger.AllLevels, (l ∈ ls ↔ m ≤ l) := by
  simp only [logger.AllLevels, List.mem_cons, List.mem_singleton, List.not_mem_nil,
    or_false] at hm
  rcases hm with rfl | rfl | rfl | rfl
  · exact ⟨[0, 1, 2, 3], rfl, by decide, by decide⟩
  · exact ⟨[1, 2, 3], rfl, by decide, by decide⟩
  · exact ⟨[2, 3], rfl, by decide, by decide⟩
  · exact ⟨[3], rfl, by decide, by decide⟩

theorem logger.Outlets.Add_spec {O : Type} (os : logger.Outlets O) (o : O) (m : logger.Level)
    (hm : m ∈ logger.AllLevels) :
    ∃ os1, os.Add o m = .ret os1 ∧ os1.e = os.e
      ∧ ∀ l ∈ logger.AllLevels,
          os1.Get l = os.Get l ++ (if m ≤ l then [o] else []) := by
  obtain ⟨ls, hls, hnd, hmem⟩ := logger.AllLevelsFrom_spec m hm
  refine ⟨os.addTo o ls, by simp only [logger.Outlets.Add, hls],
    logger.Outlets.addTo_e _ _ _, ?_⟩
  intro l hl
  simp only [logger.Outlets.Get, logger.Outlets.addTo_reg _ _ _ hnd]
  by_cases h : m ≤ l
  · simp [(hmem l hl).mpr h, h]
  · have : l ∉ ls := fun hc => h ((hmem l hl).mp hc)
    simp [this, h]

theorem logger.Outlets.AddAll_spec {O : Type} (adds : List (O × logger.Level))
    (hadds : ∀ p ∈ adds, p.2 ∈ logger.AllLevels) (os : logger.Outlets O) :
    ∃ os1, os.AddAll adds = .ret os1 ∧ os1.e = os.e
      ∧ ∀ l ∈ logger.AllLevels,
          os1.Get l = os.Get l ++ (adds.filter (fun p => decide (p.2 ≤ l))).map (fun p => p.1) := by
  induction adds generalizing os with
  | nil => exact ⟨os, rfl, rfl, by simp⟩
  | cons p rest ih =>
    obtain ⟨o, m⟩ := p
    obtain ⟨os1, h1, he1, hg1⟩ := logger.Outlets.Add_spec os o m
      (hadds (o, m) (List.mem_cons_self _ _))
    obtain ⟨os2, h2, he2, hg2⟩ := ih (fun q hq => hadds q (List.mem_cons_of_mem _ hq)) os1
    refine ⟨os2, by simp only [logger.Outlets.AddAll, h1, h2], he2.trans he1, ?_⟩
    intro l hl
    rw [hg2 l hl, hg1 l hl]
    by_cases h : m ≤ l
    · simp [h]
    · simp [h]

/-- C22. Starting from `NewOutlets e`, after any sequence of calls
`Add(o_i, m_i)` with every `m_i` in `AllLevels`: no call panics, `Get l` for
every level `l` in `AllLevels` is exactly the list of the `o_i` with
`m_i ≤ l`, in the order they were added, so that `Get l` is a sublist of
`Get l2` whenever `l ≤ l2`, and `GetLoggerErrorOutlet()` still returns `e`. -/
theorem C22_Outlets_Add_Get {O : Type} (e : O) (adds : List (O × logger.Level))
    (hadds : ∀ p ∈ adds, p.2 ∈ logger.AllLevels) :
    ∃ os, (logger.NewOutlets e).AddAll adds = .ret os
      ∧ (∀ l ∈ logger.AllLevels,
          os.Get l = (adds.filter (fun p => decide (p.2 ≤ l))).map (fun p => p.1))
      ∧ (∀ l ∈ logger.AllLevels, ∀ l2 ∈ logger.AllLevels, l ≤ l2 →
          List.Sublist (os.Get l) (os.Get l2))
      ∧ os.GetLoggerErrorOutlet = e := by
  obtain ⟨os, h, he, hg⟩ := logger.Outlets.AddAll_spec adds hadds (logger.NewOutlets e)
  have hget : ∀ l ∈ logger.AllLevels,
      os.Get l = (adds.filter (fun p => decide (p.2 ≤ l))).map (fun p => p.1) := by
    intro l hl
    rw [hg l hl]
    simp [logger.Outlets.Get, logger.NewOutlets]
  refine ⟨os, h, hget, ?_, he⟩
  intro l hl l2 hl2 hle
  rw [hget l hl, hget l2 hl2]
  apply List.Sublist.map
  apply List.monotone_filter_right
  intro p hp
  simp only [decide_eq_true_eq] at hp ⊢
  exact le_trans hp hle

/-- An instance of C22: three outlets added at `Warn`, `Debug` and `Error`. -/
theorem C22_Outlets_Add_Get_witness :
    ∃ os, (logger.NewOutlets "stderr").AddAll
          [("a", logger.Warn), ("b", logger.Debug), ("c", logger.Error)] = .ret os
      ∧ (∀ l ∈ logger.AllLevels,
          os.Get l = (([("a", logger.Warn), ("b", logger.Debug), ("c", logger.Error)] :
              List (String × logger.Level)).filter
            (fun p => decide (p.2 ≤ l))).map (fun p => p.1))
      ∧ (∀ l ∈ logger.AllLevels, ∀ l2 ∈ logger.AllLevels, l ≤ l2 →
          List.Sublist (os.Get l) (os.Get l2))
      ∧ os.GetLoggerErrorOutlet = "stderr" :=
  C22_Outlets_Add_Get "stderr" [("a", logger.Warn), ("b", logger.Debug), ("c", logger.Error)]
    (by decide)

/-! ## Package `job` -/

/-- C21. `buildSenderConfig` returns an error and a nil config whenever the
filesystem filter cannot be built or the configured `IncrementalStepProtection`
string is rejected by `StepProtectionStrategyKindString`, the filter error
taking precedence; otherwise it returns a nil error and the config whose
`JobID` is the given job, whose kind is the parsed kind, whose `FSF` is the
built filter and whose `Encrypt` flag is the configured `Encrypted`. -/
theorem C21_buildSenderConfig {FC F : Type} (filterFromConfig : FC → F × Option Error)
    (kindString : String → StepProtectionStrategyKind × Option Error)
    (inp : job.SendingJobConfig FC) (jobID : JobID) :
    (∀ err, (filterFromConfig inp.GetFilesystems).2 = some err →
        job.buildSenderConfig filterFromConfig kindString inp jobID
          = (none, some (.wrap err "cannot build filesystem filter")))
      ∧ (∀ err, (filterFromConfig inp.GetFilesystems).2 = none →
        (kindString inp.GetSendOptions.IncrementalStepProtection).2 = some err →
        job.buildSenderConfig filterFromConfig kindString inp jobID
          = (none, some (.wrap err "cannot parse incremental step protection setting")))
      ∧ ((filterFromConfig inp.GetFilesystems).2 = none →
        (kindString inp.GetSendOptions.IncrementalStepProtection).2 = none →
        job.buildSenderConfig filterFromConfig kindString inp jobID
          = (some
              { FSF := (filterFromConfig inp.GetFilesystems).1
                Encrypt := { B := inp.GetSendOptions.Encrypted }
                IncrementalStepProtectionStrategyKind :=
                  (kindString inp.GetSendOptions.IncrementalStepProtection).1
                JobID := jobID }, none)) := by
  rcases hf : filterFromConfig inp.GetFilesystems with ⟨fsf, ef⟩
  rcases hk : kindString inp.GetSendOptions.IncrementalStepProtection with ⟨k, ek⟩
  refine ⟨?_, ?_, ?_⟩
  · intro err h
    simp only at h
    subst h
    simp only [job.buildSenderConfig, hf]
  · intro err h1 h2
    simp only at h1 h2
    subst h1 h2
    simp only [job.buildSenderConfig, hf, hk]
  · intro h1 h2
    simp only at h1 h2
    subst h1 h2
    simp only [job.buildSenderConfig, hf, hk]

/-! ## Package `stringbuilder`: `RightPad` and `DrawBar` -/

namespace stringbuilder

theorem int64_eq_self (v : Int) (h1 : -(2 ^ 63) ≤ v) (h2 : v < 2 ^ 63) : int64 v = v := by
  unfold int64
  omega

theorem Times_loop_single (c : Char) (n : Nat) (out : List Char) :
    Times.loop [c] n out = out ++ List.replicate n c := by
  induction n generalizing out with
  | zero => simp [Times.loop]
  | succ n ih =>
    rw [Times.loop, ih, List.replicate_succ, List.append_assoc]
    rfl

theorem Times_single (c : Char) (n : Int) : Times [c] n = List.replicate n.toNat c := by
  simp [Times, Times_loop_single]

theorem Write_append (w : B) (s t : List Char) : w.Write (s ++ t) = (w.Write s).Write t := by
  simp [B.Write, List.foldl_append]

theorem flatten_replicate_single (b : Byte) (n : Nat) :
    (List.replicate n [b]).flatten = List.replicate n b := by
  induction n with
  | zero => rfl
  | succ n ih => simp [List.replicate_succ, ih]

theorem arrowAt_nonneg (changeCount : Int) (hc : 0 ≤ changeCount) :
    arrowAt changeCount = .ret (arrowPositions.getD (changeCount % 4).toNat (Char.ofNat 0)) ∧
      (changeCount % 4).toNat < arrowPositions.length := by
  have h4 : (arrowPositions.length : Int) = 4 := rfl
  have hm : Int.tmod changeCount 4 = changeCount % 4 :=
    Int.tmod_eq_emod hc (by decide)
  have h0 : 0 ≤ changeCount % 4 := Int.emod_nonneg _ (by decide)
  have h1 : changeCount % 4 < 4 := Int.emod_lt_of_pos _ (by decide)
  constructor
  · simp only [arrowAt, h4, hm]
    rw [if_pos ⟨h0, h1⟩]
  · show (changeCount % 4).toNat < 4
    omega

theorem completedLength_spec (length bytes totalBytes : Int) (hl : 0 ≤ length)
    (hl2 : length < 2 ^ 63) (ht : 0 < totalBytes) (hb0 : 0 ≤ bytes) (hbt : bytes ≤ totalBytes)
    (hov : length * bytes < 2 ^ 63) :
    completedLength length bytes totalBytes = length * bytes / totalBytes ∧
      0 ≤ length * bytes / totalBytes ∧ length * bytes / totalBytes ≤ length := by
  have hp : 0 ≤ length * bytes := Int.mul_nonneg hl hb0
  have hq0 : 0 ≤ length * bytes / totalBytes := Int.ediv_nonneg hp (le_of_lt ht)
  have hq1 : length * bytes / totalBytes ≤ length :=
    Int.ediv_le_of_le_mul ht (Int.mul_le_mul_of_nonneg_left hbt hl)
  refine ⟨?_, hq0, hq1⟩
  have e1 : int64 (length * bytes) = length * bytes :=
    int64_eq_self _ (by omega) hov
  have e2 : Int.tdiv (length * bytes) totalBytes = length * bytes / totalBytes :=
    Int.tdiv_eq_ediv hp (le_of_lt ht)
  have e3 : int64 (length * bytes / totalBytes) = length * bytes / totalBytes :=
    int64_eq_self _ (by omega) (by omega)
  simp only [completedLength, e1, e2, e3]
  rw [if_pos ht, if_neg (not_lt.mpr hq1)]

end stringbuilder

/-- C27: for every string `str`, every `length ≥ 0` that is a Go `int`, and every one-byte
`pad`, `RightPad` returns a string of exactly `length` bytes, which is the first `length`
bytes of `str` when `len(str) > length`, and otherwise `str` followed by
`length - len(str)` copies of the pad byte, so that `str` is a prefix of it. -/
theorem C27_RightPad (str : List stringbuilder.Byte) (length : Int) (p : stringbuilder.Byte)
    (hl : 0 ≤ length) (hl2 : length < 2 ^ 63) :
    ∃ r, stringbuilder.RightPad str length [p] = .ret r ∧ (r.length : Int) = length ∧
      ((str.length : Int) > length → r = str.take length.toNat) ∧
      (¬ (str.length : Int) > length →
        r = str ++ List.replicate (length - (str.length : Int)).toNat p ∧ str <+: r) := by
  by_cases h : (str.length : Int) > length
  · refine ⟨str.take length.toNat, ?_, ?_, fun _ => rfl, fun h2 => absurd h h2⟩
    · simp only [stringbuilder.RightPad]
      rw [if_pos h, if_pos hl]
    · rw [List.length_take]
      omega
  · have e : stringbuilder.int64 (length - (str.length : Int)) = length - (str.length : Int) :=
      stringbuilder.int64_eq_self _ (by omega) (by omega)
    have hn : ¬ (length - (str.length : Int) < 0) := by omega
    refine ⟨str ++ List.replicate (length - (str.length : Int)).toNat p, ?_, ?_,
      fun h2 => absurd h2 h, fun _ => ⟨rfl, List.prefix_append _ _⟩⟩
    · simp only [stringbuilder.RightPad, stringbuilder.Repeat, e]
      rw [if_neg h, if_neg hn]
      simp only [stringbuilder.flatten_replicate_single]
    · rw [List.length_append, List.length_replicate]
      omega

/-- Witness of C27: padding the three bytes `abc` to five bytes with a space. -/
theorem C27_RightPad_witness :
    ∃ r, stringbuilder.RightPad [97, 98, 99] 5 [32] = .ret r ∧ (r.length : Int) = 5 ∧
      ((([97, 98, 99] : List stringbuilder.Byte).length : Int) > 5 →
        r = ([97, 98, 99] : List stringbuilder.Byte).take (5 : Int).toNat) ∧
      (¬ (([97, 98, 99] : List stringbuilder.Byte).length : Int) > 5 →
        r = [97, 98, 99] ++ List.replicate
            ((5 : Int) - (([97, 98, 99] : List stringbuilder.Byte).length : Int)).toNat 32 ∧
          [97, 98, 99] <+: r) :=
  C27_RightPad [97, 98, 99] 5 32 (by decide) (by decide)

/-- C23 as stated fails: with `changeCount = -1` the remainder is `-1`, the index is out of
range and `DrawBar` panics. -/
theorem C23_DrawBar_arrow_counterexample :
    stringbuilder.arrowAt (-1) = .panic "index out of range" ∧
      stringbuilder.emptyB.DrawBar 10 5 10 (-1) = .panic "index out of range" := by
  constructor <;> rfl

/-- C23, amended: for every `changeCount ≥ 0`, `DrawBar` takes its arrow from the four
characters of `arrowPositions` at index `changeCount mod 4`, which is in range, does not
panic and writes that arrow between the two parts of the bar; `changeCount = 0` draws `>`. -/
theorem C23_DrawBar_arrow (w : stringbuilder.B) (length bytes totalBytes changeCount : Int)
    (hc : 0 ≤ changeCount) :
    ∃ arrow, (changeCount % 4).toNat < stringbuilder.arrowPositions.length ∧
      stringbuilder.arrowPositions.get? (changeCount % 4).toNat = some arrow ∧
      stringbuilder.arrowAt changeCount = .ret arrow ∧
      (changeCount = 0 → arrow = Char.ofNat 62) ∧
      w.DrawBar length bytes totalBytes changeCount =
        .ret (((((w.Write [Char.ofNat 91]).Write
          (stringbuilder.Times [Char.ofNat 61]
            (stringbuilder.completedLength length bytes totalBytes))).Write [arrow]).Write
          (stringbuilder.Times [Char.ofNat 45] (stringbuilder.int64
            (length - stringbuilder.completedLength length bytes totalBytes)))).Write
          [Char.ofNat 93]) := by
  obtain ⟨h1, h2⟩ := stringbuilder.arrowAt_nonneg changeCount hc
  refine ⟨stringbuilder.arrowPositions.getD (changeCount % 4).toNat (Char.ofNat 0), h2, ?_, h1,
    ?_, ?_⟩
  · rw [List.getD_eq_getElem?_getD, List.get?_eq_getElem?, List.getElem?_eq_getElem h2]
    rfl
  · intro h0
    subst h0
    rfl
  · simp only [stringbuilder.B.DrawBar, h1]

/-- Witness of C23: the change count 6 selects the character at index 2. -/
theorem C23_DrawBar_arrow_witness :
    ∃ arrow, ((6 : Int) % 4).toNat < stringbuilder.arrowPositions.length ∧
      stringbuilder.arrowPositions.get? ((6 : Int) % 4).toNat = some arrow ∧
      stringbuilder.arrowAt 6 = .ret arrow ∧
      ((6 : Int) = 0 → arrow = Char.ofNat 62) ∧
      stringbuilder.emptyB.DrawBar 10 5 10 6 =
        .ret (((((stringbuilder.emptyB.Write [Char.ofNat 91]).Write
          (stringbuilder.Times [Char.ofNat 61]
            (stringbuilder.completedLength 10 5 10))).Write [arrow]).Write
          (stringbuilder.Times [Char.ofNat 45] (stringbuilder.int64
            (10 - stringbuilder.completedLength 10 5 10)))).Write
          [Char.ofNat 93]) :=
  C23_DrawBar_arrow stringbuilder.emptyB 10 5 10 6 (by decide)

/-- C25 as stated fails: with `length = 2` and `bytes = totalBytes = 2^62` the product
`int64(length) * bytes` wraps around to `-2^63`, `completedLength` is `-2` instead of `2`,
and the bar is `[>----]`; and with a negative `changeCount` nothing is returned. -/
theorem C25_DrawBar_counterexample :
    stringbuilder.completedLength 2 (2 ^ 62) (2 ^ 62) = -2 ∧
      (2 : Int) * 2 ^ 62 / 2 ^ 62 = 2 ∧
      (stringbuilder.emptyB.DrawBar 2 (2 ^ 62) (2 ^ 62) 0 =
        .ret (stringbuilder.emptyB.Write
          [Char.ofNat 91, Char.ofNat 62, Char.ofNat 45, Char.ofNat 45, Char.ofNat 45,
            Char.ofNat 45, Char.ofNat 93])) ∧
      stringbuilder.emptyB.DrawBar 2 1 2 (-1) = .panic "index out of range" := by
  refine ⟨by decide, by decide, by rfl, by rfl⟩

/-- C25, amended: for every `length ≥ 0`, `totalBytes > 0` and `0 ≤ bytes ≤ totalBytes` such
that `length * bytes` does not overflow `int64`, and every `changeCount ≥ 0`,
`completedLength` is the floor of `length * bytes / totalBytes`, it lies in `[0, length]`,
and `DrawBar` writes `[`, exactly `completedLength` characters `=`, one arrow character of
`arrowPositions`, exactly `length - completedLength` characters `-`, and `]`. -/
theorem C25_DrawBar (w : stringbuilder.B) (length bytes totalBytes changeCount : Int)
    (hl : 0 ≤ length) (hl2 : length < 2 ^ 63) (ht : 0 < totalBytes) (hb0 : 0 ≤ bytes)
    (hbt : bytes ≤ totalBytes) (hov : length * bytes < 2 ^ 63) (hc : 0 ≤ changeCount) :
    stringbuilder.completedLength length bytes totalBytes = length * bytes / totalBytes ∧
      0 ≤ length * bytes / totalBytes ∧ length * bytes / totalBytes ≤ length ∧
      ∃ arrow ∈ stringbuilder.arrowPositions,
        w.DrawBar length bytes totalBytes changeCount =
          .ret (w.Write ([Char.ofNat 91] ++
            List.replicate (length * bytes / totalBytes).toNat (Char.ofNat 61) ++ [arrow] ++
            List.replicate (length - length * bytes / totalBytes).toNat (Char.ofNat 45) ++
            [Char.ofNat 93])) ∧
        (length * bytes / totalBytes).toNat + (length - length * bytes / totalBytes).toNat
          = length.toNat := by
  obtain ⟨e, h0, h1⟩ := stringbuilder.completedLength_spec length bytes totalBytes hl hl2 ht hb0
    hbt hov
  obtain ⟨ha, hlt⟩ := stringbuilder.arrowAt_nonneg changeCount hc
  refine ⟨e, h0, h1, stringbuilder.arrowPositions.getD (changeCount % 4).toNat (Char.ofNat 0),
    ?_, ?_, by omega⟩
  · rw [List.getD_eq_getElem?_getD, List.getElem?_eq_getElem hlt]
    exact List.getElem_mem _
  · have e2 : stringbuilder.int64 (length - length * bytes / totalBytes) =
        length - length * bytes / totalBytes :=
      stringbuilder.int64_eq_self _ (by omega) (by omega)
    simp only [stringbuilder.B.DrawBar, ha, e, e2, stringbuilder.Times_single,
      stringbuilder.Write_append]

/-- Witness of C25: a bar of length 10 at 5 of 10 bytes. -/
theorem C25_DrawBar_witness :
    stringbuilder.completedLength 10 5 10 = 10 * 5 / 10 ∧
      (0 : Int) ≤ 10 * 5 / 10 ∧ (10 : Int) * 5 / 10 ≤ 10 ∧
      ∃ arrow ∈ stringbuilder.arrowPositions,
        stringbuilder.emptyB.DrawBar 10 5 10 1 =
          .ret (stringbuilder.emptyB.Write ([Char.ofNat 91] ++
            List.replicate ((10 : Int) * 5 / 10).toNat (Char.ofNat 61) ++ [arrow] ++
            List.replicate ((10 : Int) - 10 * 5 / 10).toNat (Char.ofNat 45) ++
            [Char.ofNat 93])) ∧
        ((10 : Int) * 5 / 10).toNat + ((10 : Int) - 10 * 5 / 10).toNat = (10 : Int).toNat :=
  C25_DrawBar stringbuilder.emptyB 10 5 10 1 (by decide) (by decide) (by decide) (by decide)
    (by decide) (by decide) (by decide)
/-! ## Package `stringbuilder`: the lines that `Write` produces -/

namespace stringbuilder

theorem scan_append (s t : List Char) : scan (s ++ t) = t.foldl scanLine (scan s) := by
  simp [scan, List.foldl_append]

theorem scanLine_spaces (p : List (List Char) × List Char) (n : Nat) :
    (List.replicate n space).foldl scanLine p = (p.1, p.2 ++ List.replicate n space) := by
  induction n generalizing p with
  | zero => simp
  | succ n ih =>
    rw [List.replicate_succ, List.foldl_cons, ih]
    have hs : space ≠ lf := by decide
    simp [scanLine, hs]

theorem filter_visible_spaces (n : Nat) : (List.replicate n space).filter visible = [] := by
  rw [List.filter_eq_nil_iff]
  intro a ha
  rw [List.eq_of_mem_replicate ha]
  decide

theorem breakLine_fields (w : B) (h0 : 0 ≤ w.indent) (h1 : w.indent < 2 ^ 63) :
    w.breakLine.sb = w.sb ++ ([lf] ++ List.replicate w.indent.toNat space) ∧
      w.breakLine.x = w.indent ∧ w.breakLine.indent = w.indent ∧
      w.breakLine.width = w.width ∧ w.breakLine.indentMultiplier = w.indentMultiplier := by
  have e : int64 (w.indent - 0) = w.indent := by
    rw [Int.sub_zero]
    exact int64_eq_self _ (by omega) h1
  refine ⟨?_, rfl, rfl, rfl, rfl⟩
  simp only [B.breakLine, e, Times_single, List.append_assoc]

theorem breakLine_inv (W : Int) (w : B) (txt : List Char) (hW : W < 2 ^ 63)
    (hi : WriteInv W w txt) (h0 : 0 ≤ w.indent) (h1 : w.indent < w.width) :
    WriteInv W w.breakLine txt ∧ w.breakLine.x < W ∧ w.breakLine.indent = w.indent ∧
      w.breakLine.indentMultiplier = w.indentMultiplier := by
  obtain ⟨hw, hl, hx, hxw, hs, hv⟩ := hi
  obtain ⟨esb, ex, ei, ew, em⟩ := breakLine_fields w h0 (by omega)
  have hscan : scan w.breakLine.sb =
      ((scan w.sb).1 ++ [(scan w.sb).2], List.replicate w.indent.toNat space) := by
    rw [esb, scan_append, List.foldl_append, List.foldl_cons, List.foldl_nil, scanLine_spaces]
    simp [scanLine]
  refine ⟨⟨by rw [ew, hw], ?_, ?_, by rw [ex]; omega, ?_, ?_⟩, by rw [ex]; omega, ei, em⟩
  · intro l hmem
    rw [hscan] at hmem
    rcases List.mem_append.mp hmem with hm | hm
    · exact hl l hm
    · rw [List.mem_singleton] at hm
      rw [hm, ← hx]
      exact hxw
  · rw [hscan, ex, List.length_replicate]
    omega
  · rw [esb]
    exact hs.trans (List.sublist_append_left _ _)
  · rw [esb, List.filter_append, List.filter_append, filter_visible_spaces, hv]
    have : List.filter visible [lf] = [] := by decide
    rw [this]
    simp

theorem writeRune_inv (W : Int) (w : B) (txt : List Char) (c : Char) (hW : W < 2 ^ 63)
    (hi : WriteInv W w txt) (h0 : 0 ≤ w.indent) (h1 : w.indent < w.width) :
    WriteInv W (w.writeRune c) (txt ++ [c]) ∧ (w.writeRune c).indent = w.indent ∧
      (w.writeRune c).indentMultiplier = w.indentMultiplier := by
  by_cases hc : c = lf
  · obtain ⟨⟨hw, hl, hx, hxw, hs, hv⟩, _, ei, em⟩ := breakLine_inv W w txt hW hi h0 h1
    have e : w.writeRune c = { w.breakLine with y := int64 (w.breakLine.y + 1) } := by
      simp only [B.writeRune]
      rw [if_pos hc]
    rw [e]
    refine ⟨⟨hw, hl, hx, hxw, ?_, ?_⟩, ei, em⟩
    · rw [List.filter_append, hc]
      have : List.filter (fun c => c != lf) [lf] = [] := by decide
      rw [this, List.append_nil]
      exact hs
    · rw [List.filter_append, hc]
      have : List.filter visible [lf] = [] := by decide
      rw [this, List.append_nil]
      exact hv
  · have hpre : ∃ w1 : B, (w1 = if w.x ≥ w.width then w.breakLine else w) ∧
        WriteInv W w1 txt ∧ w1.x < W ∧ w1.indent = w.indent ∧
        w1.indentMultiplier = w.indentMultiplier := by
      by_cases hx : w.x ≥ w.width
      · refine ⟨w.breakLine, by rw [if_pos hx], ?_⟩
        exact breakLine_inv W w txt hW hi h0 h1
      · refine ⟨w, by rw [if_neg hx], hi, ?_, rfl, rfl⟩
        rw [← hi.1]
        omega
    obtain ⟨w1, ew1, ⟨hw, hl, hx, hxw, hs, hv⟩, hlt, ei, em⟩ := hpre
    have e : w.writeRune c = { w1 with sb := w1.sb ++ [c], x := int64 (w1.x + 1) } := by
      simp only [B.writeRune]
      rw [if_neg hc, ← ew1]
    have ex : int64 (w1.x + 1) = w1.x + 1 := int64_eq_self _ (by omega) (by omega)
    have hscan : scan (w1.sb ++ [c]) = ((scan w1.sb).1, (scan w1.sb).2 ++ [c]) := by
      rw [scan_append, List.foldl_cons, List.foldl_nil]
      simp [scanLine, hc]
    rw [e, ex]
    refine ⟨⟨hw, ?_, ?_, ?_, ?_, ?_⟩, ei, em⟩
    · show ∀ l ∈ (scan (w1.sb ++ [c])).1, (l.length : Int) ≤ W
      rw [hscan]
      exact hl
    · show w1.x + 1 = (((scan (w1.sb ++ [c])).2.length : Nat) : Int)
      rw [hscan, List.length_append, hx]
      simp
    · show w1.x + 1 ≤ W
      omega
    · show List.Sublist (List.filter (fun c => c != lf) (txt ++ [c])) (w1.sb ++ [c])
      rw [List.filter_append]
      exact List.Sublist.append hs (List.filter_sublist _)
    · show List.filter visible (w1.sb ++ [c]) = List.filter visible (txt ++ [c])
      rw [List.filter_append, List.filter_append, hv]

theorem Write_inv (W : Int) (s : List Char) (w : B) (txt : List Char) (hW : W < 2 ^ 63)
    (hi : WriteInv W w txt) (h0 : 0 ≤ w.indent) (h1 : w.indent < w.width) :
    WriteInv W (w.Write s) (txt ++ s) ∧ (w.Write s).indent = w.indent ∧
      (w.Write s).indentMultiplier = w.indentMultiplier := by
  induction s generalizing w txt with
  | nil =>
    rw [List.append_nil]
    exact ⟨hi, rfl, rfl⟩
  | cons c s ih =>
    obtain ⟨hi1, ei, em⟩ := writeRune_inv W w txt c hW hi h0 h1
    have hw1 : (w.writeRune c).width = w.width := by rw [hi1.1, hi.1]
    obtain ⟨hi2, ei2, em2⟩ := ih (w.writeRune c) (txt ++ [c]) hi1 (by rw [ei]; exact h0)
      (by rw [ei, hw1]; exact h1)
    have e : w.Write (c :: s) = (w.writeRune c).Write s := rfl
    rw [e]
    refine ⟨?_, by rw [ei2, ei], by rw [em2, em]⟩
    have : txt ++ c :: s = txt ++ [c] ++ s := by simp
    rw [this]
    exact hi2

theorem calls_inv (W : Int) (cs : List Call) (b : B) (txt : List Char) (hW : W < 2 ^ 63)
    (hi : WriteInv W b txt) (hok : indentOk b cs) :
    WriteInv W (b.calls cs) (txt ++ written cs) := by
  induction cs generalizing b txt with
  | nil =>
    simp only [written, List.map_nil, List.flatten_nil, List.append_nil]
    exact hi
  | cons c cs ih =>
    have hstep : WriteInv W (b.call c) (txt ++ c.text) ∧ indentOk (b.call c) cs := by
      refine ⟨?_, hok.2⟩
      cases c with
      | Write s => exact (Write_inv W s b txt hW hi (hok.1 rfl).1 (hok.1 rfl).2).1
      | Printf whole => exact (Write_inv W whole b txt hW hi (hok.1 rfl).1 (hok.1 rfl).2).1
      | Newline => exact (Write_inv W [lf] b txt hW hi (hok.1 rfl).1 (hok.1 rfl).2).1
      | AddIndent delta =>
        simp only [Call.text, List.append_nil]
        exact hi
    have e : b.calls (c :: cs) = (b.call c).calls cs := rfl
    have e2 : txt ++ written (c :: cs) = txt ++ c.text ++ written cs := by
      simp [written]
    rw [e, e2]
    exact ih (b.call c) (txt ++ c.text) hstep.1 hstep.2

end stringbuilder

/-- C26: for a builder created by `New` (so its width `w` is at least 1) and any sequence of
`Write`, `Printf`, `Newline` and `AddIndent` calls during which `0 ≤ indent < w` holds at
every call that writes, every line of `String()` has at most `w` characters, `x` is the
number of characters of the last line, the characters of the written text other than line
feeds are all in `String()` in their order, and the characters of `String()` other than line
feeds and spaces are exactly those of the written text, in their order. -/
theorem C26_Write_lines (config : stringbuilder.Config) (b0 : stringbuilder.B)
    (cs : List stringbuilder.Call) (hnew : stringbuilder.New config = .ret b0)
    (hint : config.Width < 2 ^ 63) (hok : stringbuilder.indentOk b0 cs) :
    1 ≤ config.Width ∧
      (∀ l ∈ stringbuilder.lines (b0.calls cs).String, (l.length : Int) ≤ config.Width) ∧
      (b0.calls cs).x = ((stringbuilder.lastLine (b0.calls cs).String).length : Int) ∧
      List.Sublist ((stringbuilder.written cs).filter (fun c => c != stringbuilder.lf))
        (b0.calls cs).String ∧
      (b0.calls cs).String.filter stringbuilder.visible =
        (stringbuilder.written cs).filter stringbuilder.visible := by
  by_cases hv : config.IndentMultiplier ≥ 1 ∧ config.Width ≥ 1
  · simp only [stringbuilder.New] at hnew
    rw [if_pos hv] at hnew
    injection hnew with hb
    have hi0 : stringbuilder.WriteInv config.Width b0 [] := by
      rw [← hb]
      refine ⟨rfl, ?_, rfl, ?_, ?_, rfl⟩
      · intro l hl
        simp [stringbuilder.scan] at hl
      · show (0 : Int) ≤ config.Width
        omega
      · exact List.Sublist.refl _
    have h := stringbuilder.calls_inv config.Width cs b0 [] hint hi0 hok
    rw [List.nil_append] at h
    obtain ⟨_, hl, hx, hxw, hs, hvis⟩ := h
    refine ⟨hv.2, ?_, hx, hs, hvis⟩
    intro l hmem
    rcases List.mem_append.mp hmem with hm | hm
    · exact hl l hm
    · rw [List.mem_singleton] at hm
      rw [hm]
      show (((stringbuilder.scan (b0.calls cs).sb).2.length : Nat) : Int) ≤ config.Width
      rw [← hx]
      exact hxw
  · simp only [stringbuilder.New] at hnew
    rw [if_neg hv] at hnew
    cases hnew

/-- Witness of C26: a builder of width 5 and indent step 2 on which `abcdefg` is written,
the indent is raised once, and a new line and `xy` are written. -/
theorem C26_Write_lines_witness :
    1 ≤ (stringbuilder.Config.mk 2 5).Width ∧
      (∀ l ∈ stringbuilder.lines ((stringbuilder.B.mk 2 [] 0 5 0 0).calls
          [.Write "abcdefg".data, .AddIndent 1, .Newline, .Printf "xy".data]).String,
        (l.length : Int) ≤ (stringbuilder.Config.mk 2 5).Width) ∧
      ((stringbuilder.B.mk 2 [] 0 5 0 0).calls
          [.Write "abcdefg".data, .AddIndent 1, .Newline, .Printf "xy".data]).x =
        ((stringbuilder.lastLine ((stringbuilder.B.mk 2 [] 0 5 0 0).calls
          [.Write "abcdefg".data, .AddIndent 1, .Newline, .Printf "xy".data]).String).length
          : Int) ∧
      List.Sublist ((stringbuilder.written
          [.Write "abcdefg".data, .AddIndent 1, .Newline, .Printf "xy".data]).filter
          (fun c => c != stringbuilder.lf))
        ((stringbuilder.B.mk 2 [] 0 5 0 0).calls
          [.Write "abcdefg".data, .AddIndent 1, .Newline, .Printf "xy".data]).String ∧
      ((stringbuilder.B.mk 2 [] 0 5 0 0).calls
          [.Write "abcdefg".data, .AddIndent 1, .Newline, .Printf "xy".data]).String.filter
          stringbuilder.visible =
        (stringbuilder.written
          [.Write "abcdefg".data, .AddIndent 1, .Newline, .Printf "xy".data]).filter
          stringbuilder.visible :=
  C26_Write_lines (stringbuilder.Config.mk 2 5) (stringbuilder.B.mk 2 [] 0 5 0 0)
    [.Write "abcdefg".data, .AddIndent 1, .Newline, .Printf "xy".data] (by rfl) (by decide)
    (by decide)
/-! ## Package `stringbuilder`: `wrap` -/

namespace stringbuilder

theorem IndexAny_range (s chars : List Byte) :
    IndexAny s chars = -1 ∨ (0 ≤ IndexAny s chars ∧ IndexAny s chars < (s.length : Int)) := by
  induction s with
  | nil => left; rfl
  | cons c s ih =>
    simp only [IndexAny]
    by_cases hc : c ∈ chars
    · right
      rw [if_pos hc]
      simp
    · rw [if_neg hc]
      by_cases h1 : IndexAny s chars = -1
      · left
        rw [if_pos h1]
      · right
        rw [if_neg h1]
        rcases ih with h | ⟨h2, h3⟩
        · exact absurd h h1
        · simp only [List.length_cons, Nat.cast_add, Nat.cast_one]
          omega

/-- Before the index that `IndexAny` returns there is no byte of `chars`, and nowhere when
it returns `-1`. -/
theorem IndexAny_take (s chars : List Byte) (k : Nat)
    (hk : IndexAny s chars = -1 ∨ (k : Int) ≤ IndexAny s chars) :
    ∀ z ∈ s.take k, z ∉ chars := by
  induction s generalizing k with
  | nil => simp
  | cons c s ih =>
    cases k with
    | zero => simp
    | succ k =>
      simp only [IndexAny] at hk
      by_cases hc : c ∈ chars
      · rw [if_pos hc] at hk
        rcases hk with h | h
        · exact absurd h (by decide)
        · simp only [Nat.cast_add, Nat.cast_one] at h
          omega
      · rw [if_neg hc] at hk
        have hk2 : IndexAny s chars = -1 ∨ (k : Int) ≤ IndexAny s chars := by
          by_cases h1 : IndexAny s chars = -1
          · left; exact h1
          · right
            rw [if_neg h1] at hk
            rcases hk with h | h
            · rcases IndexAny_range s chars with h2 | h2
              · exact absurd h2 h1
              · omega
            · simp only [Nat.cast_add, Nat.cast_one] at h
              omega
        intro z hz
        rw [List.take_succ_cons, List.mem_cons] at hz
        rcases hz with h | h
        · rw [h]; exact hc
        · exact ih k hk2 z h

/-- At the index that `IndexAny` returns there is a byte of `chars`. -/
theorem IndexAny_at (s chars : List Byte) (i : Nat) (hi : IndexAny s chars = (i : Int)) :
    ∃ z ∈ chars, s.take (i + 1) = s.take i ++ [z] := by
  induction s generalizing i with
  | nil =>
    simp only [IndexAny] at hi
    omega
  | cons c s ih =>
    simp only [IndexAny] at hi
    by_cases hc : c ∈ chars
    · rw [if_pos hc] at hi
      have : i = 0 := by omega
      subst this
      exact ⟨c, hc, by simp⟩
    · rw [if_neg hc] at hi
      by_cases h1 : IndexAny s chars = -1
      · rw [if_pos h1] at hi
        omega
      · rw [if_neg h1] at hi
        cases i with
        | zero =>
          rcases IndexAny_range s chars with h2 | h2
          · exact absurd h2 h1
          · simp at hi
            omega
        | succ j =>
          have hj : IndexAny s chars = (j : Int) := by
            simp only [Nat.cast_add, Nat.cast_one] at hi
            omega
          obtain ⟨z, hz, e⟩ := ih j hj
          refine ⟨z, hz, ?_⟩
          rw [List.take_succ_cons, List.take_succ_cons, e, List.cons_append]

theorem TrimRight_mem (s cutset : List Byte) : ∀ z ∈ TrimRight s cutset, z ∈ s := by
  intro z hz
  exact (List.rdropWhile_prefix _ s).subset hz

theorem TrimRight_length (s cutset : List Byte) : (TrimRight s cutset).length ≤ s.length :=
  (List.rdropWhile_prefix _ s).length_le

/-- The piece that an iteration of `wrap` cuts off has no line feed or carriage return
once trimmed, and is at most `rem` bytes long. -/
theorem wrap_piece (s : List Byte) (rem0 : Int) (h0 : 0 ≤ rem0) :
    let idx := IndexAny s nlcr
    let rem := if idx ≠ -1 ∧ idx < rem0 then idx + 1 else rem0
    (∀ z ∈ TrimRight (s.take rem.toNat) nlcr, z ∉ nlcr) ∧
      ((TrimRight (s.take rem.toNat) nlcr).length : Int) ≤ rem ∧ rem ≤ max rem0 1 ∧
      (1 ≤ rem0 → 1 ≤ rem) ∧ (rem0 ≤ (s.length : Int) → rem ≤ (s.length : Int)) := by
  intro idx rem
  have hr := IndexAny_range s nlcr
  by_cases hc : idx ≠ -1 ∧ idx < rem0
  · have e : rem = idx + 1 := if_pos hc
    have hidx : 0 ≤ idx := by
      rcases hr with h | h
      · exact absurd h hc.1
      · exact h.1
    obtain ⟨i, hi⟩ := Int.eq_ofNat_of_zero_le hidx
    obtain ⟨z, hz, et⟩ := IndexAny_at s nlcr i hi
    have e2 : rem.toNat = i + 1 := by omega
    have htrim : TrimRight (s.take rem.toNat) nlcr = TrimRight (s.take i) nlcr := by
      rw [e2, et]
      exact List.rdropWhile_concat_pos _ _ _ (by simpa using hz)
    refine ⟨?_, ?_, by omega, by omega, ?_⟩
    · intro y hy
      rw [htrim] at hy
      exact IndexAny_take s nlcr i (Or.inr (by omega)) y (TrimRight_mem _ _ y hy)
    · rw [htrim]
      have h1 := TrimRight_length (s.take i) nlcr
      have h2 : (s.take i).length ≤ i := List.length_take_le _ _
      omega
    · intro _
      rcases hr with h | h
      · exact absurd h hc.1
      · omega
  · have e : rem = rem0 := if_neg hc
    refine ⟨?_, ?_, by omega, by omega, by omega⟩
    · intro y hy
      have hk : idx = -1 ∨ ((rem.toNat : Nat) : Int) ≤ idx := by
        by_cases h1 : idx = -1
        · left; exact h1
        · right
          have : ¬ idx < rem0 := fun h => hc ⟨h1, h⟩
          omega
      exact IndexAny_take s nlcr rem.toNat hk y (TrimRight_mem _ _ y hy)
    · have h1 := TrimRight_length (s.take rem.toNat) nlcr
      have h2 : (s.take rem.toNat).length ≤ rem.toNat := List.length_take_le _ _
      omega

theorem endLines_concat (cs : List (List Byte)) (c : List Byte) :
    endLines (cs ++ [c]) = endLines cs ++ c ++ [10] := by
  simp [endLines]

theorem joinLines_concat (cs : List (List Byte)) (c : List Byte) :
    joinLines (cs ++ [c]) = endLines cs ++ c := by
  induction cs with
  | nil => simp [joinLines, endLines]
  | cons a cs ih =>
    cases cs with
    | nil => simp [joinLines, endLines]
    | cons a2 cs2 =>
      have e : joinLines ((a :: a2 :: cs2) ++ [c]) = a ++ [10] ++ joinLines ((a2 :: cs2) ++ [c]) :=
        rfl
      rw [e, ih]
      simp [endLines]

/-- Trimming the builder of `wrap` leaves the lines joined by line feeds, and the result
does not end in a line feed or carriage return. -/
theorem TrimRight_endLines (width : Int) (chunks : List (List Byte))
    (hg : ∀ c ∈ chunks, goodLine width c) :
    TrimRight (endLines chunks) nlcr = joinLines chunks ∧
      ∀ z, (joinLines chunks).getLast? = some z → z ∉ nlcr := by
  rcases List.eq_nil_or_concat chunks with h | ⟨cs, c, h⟩
  · subst h
    refine ⟨rfl, ?_⟩
    intro z hz
    simp [joinLines] at hz
  · rw [List.concat_eq_append] at h
    subst h
    obtain ⟨hne, _, hno⟩ := hg c (by simp)
    rcases List.eq_nil_or_concat c with h | ⟨c1, z1, h⟩
    · exact absurd h hne
    · rw [List.concat_eq_append] at h
      subst h
      have hz1 : z1 ∉ nlcr := hno z1 (by simp)
      rw [joinLines_concat, endLines_concat]
      constructor
      · unfold TrimRight
        rw [List.rdropWhile_concat_pos _ _ _ (by decide), ← List.append_assoc,
          List.rdropWhile_concat_neg _ _ _ (by simpa using hz1)]
      · intro z hz
        rw [← List.append_assoc, List.getLast?_concat] at hz
        injection hz with hz
        rw [← hz]
        exact hz1

theorem wrap_loop_succ (width : Int) (fuel : Nat) (s b : List Byte) (rem : Int)
    (hs : s.length > 0)
    (hrem : rem = if IndexAny s nlcr ≠ -1 ∧ IndexAny s nlcr <
        (if width > (s.length : Int) then (s.length : Int) else width)
      then IndexAny s nlcr + 1
      else (if width > (s.length : Int) then (s.length : Int) else width))
    (hr : 0 ≤ rem ∧ rem ≤ (s.length : Int)) :
    wrap.loop width (fuel + 1) s b =
      if (TrimRight (s.take rem.toNat) nlcr).length = 0 then
        wrap.loop width fuel (s.drop rem.toNat) b
      else wrap.loop width fuel (s.drop rem.toNat) (b ++ TrimRight (s.take rem.toNat) nlcr ++ [10])
    := by
  subst hrem
  simp only [wrap.loop]
  rw [if_pos hs, if_pos hr]

theorem wrap_loop_spec (width : Int) (hw : 1 ≤ width) (fuel : Nat) (s b : List Byte)
    (chunks : List (List Byte)) (hf : s.length < fuel) (hb : b = endLines chunks)
    (hg : ∀ c ∈ chunks, goodLine width c) :
    ∃ chunks2, wrap.loop width fuel s b = some (.ret (joinLines chunks2)) ∧
      (∀ c ∈ chunks2, goodLine width c) ∧
      ∀ z, (joinLines chunks2).getLast? = some z → z ∉ nlcr := by
  induction fuel generalizing s b chunks with
  | zero => omega
  | succ fuel ih =>
    by_cases hs : s.length > 0
    · have hrem0 : (1 : Int) ≤ (if width > (s.length : Int) then (s.length : Int) else width) := by
        split <;> omega
      have hrem1 : (if width > (s.length : Int) then (s.length : Int) else width) ≤
          (s.length : Int) := by
        split <;> omega
      have hrem2 : (if width > (s.length : Int) then (s.length : Int) else width) ≤ width := by
        split <;> omega
      have hp := wrap_piece s
        (if width > (s.length : Int) then (s.length : Int) else width) (by omega)
      obtain ⟨rem, hrem⟩ : ∃ rem : Int, rem = if IndexAny s nlcr ≠ -1 ∧ IndexAny s nlcr <
            (if width > (s.length : Int) then (s.length : Int) else width)
          then IndexAny s nlcr + 1
          else (if width > (s.length : Int) then (s.length : Int) else width) := ⟨_, rfl⟩
      simp only [← hrem] at hp
      obtain ⟨p1, p2, p3, p4, p5⟩ := hp
      have q4 := p4 hrem0
      have q5 := p5 hrem1
      rw [wrap_loop_succ width fuel s b rem hs hrem ⟨by omega, q5⟩]
      have hdrop : (s.drop rem.toNat).length < fuel := by
        rw [List.length_drop]
        omega
      by_cases hu : (TrimRight (s.take rem.toNat) nlcr).length = 0
      · rw [if_pos hu]
        exact ih _ b chunks hdrop hb hg
      · rw [if_neg hu]
        refine ih _ _ (chunks ++ [TrimRight (s.take rem.toNat) nlcr]) hdrop ?_ ?_
        · rw [endLines_concat, hb]
        · intro c hc
          rcases List.mem_append.mp hc with h | h
          · exact hg c h
          · rw [List.mem_singleton] at h
            rw [h]
            refine ⟨?_, by omega, p1⟩
            intro h0
            exact hu (by rw [h0]; rfl)
    · simp only [wrap.loop]
      rw [if_neg hs]
      obtain ⟨e, hl⟩ := TrimRight_endLines width chunks hg
      exact ⟨chunks, by rw [hb, e], hg, hl⟩

end stringbuilder

/-- C28: for every string `s` and every `width ≥ 1`, the loop of `wrap` ends within
`len(s)` iterations (each one consumes at least one byte) and `wrap` returns lines joined
by line feeds, each line not empty, at most `width` bytes long and without line feed or
carriage return; the result does not end in a line feed or carriage return. -/
theorem C28_wrap (s : List stringbuilder.Byte) (width : Int) (fuel : Nat) (hw : 1 ≤ width)
    (hf : s.length < fuel) :
    ∃ chunks, stringbuilder.wrap fuel s width = some (.ret (stringbuilder.joinLines chunks)) ∧
      (∀ c ∈ chunks, c ≠ [] ∧ (c.length : Int) ≤ width ∧ (10 : stringbuilder.Byte) ∉ c ∧
        (13 : stringbuilder.Byte) ∉ c) ∧
      (stringbuilder.joinLines chunks).getLast? ≠ some 10 ∧
      (stringbuilder.joinLines chunks).getLast? ≠ some 13 := by
  obtain ⟨chunks, e, hg, hl⟩ := stringbuilder.wrap_loop_spec width hw fuel s [] [] hf rfl
    (by simp)
  refine ⟨chunks, e, ?_, ?_, ?_⟩
  · intro c hc
    obtain ⟨h1, h2, h3⟩ := hg c hc
    refine ⟨h1, h2, ?_, ?_⟩
    · intro h
      exact h3 10 h (by decide)
    · intro h
      exact h3 13 h (by decide)
  · intro h
    exact hl 10 h (by decide)
  · intro h
    exact hl 13 h (by decide)

/-- Witness of C28: wrapping `abcd`, a line feed and `ef` at width 3. -/
theorem C28_wrap_witness :
    ∃ chunks, stringbuilder.wrap 8 [97, 98, 99, 100, 10, 101, 102] 3 =
        some (.ret (stringbuilder.joinLines chunks)) ∧
      (∀ c ∈ chunks, c ≠ [] ∧ (c.length : Int) ≤ 3 ∧ (10 : stringbuilder.Byte) ∉ c ∧
        (13 : stringbuilder.Byte) ∉ c) ∧
      (stringbuilder.joinLines chunks).getLast? ≠ some 10 ∧
      (stringbuilder.joinLines chunks).getLast? ≠ some 13 :=
  C28_wrap [97, 98, 99, 100, 10, 101, 102] 3 8 (by decide) (by decide)

/-! ## Whose name is it: hold tags and bookmark names across the kinds -/

theorem takeWhile_append_stop {α : Type} (p : α → Bool) (l : List α) (x : α) (r : List α)
    (hx : p x = false) : (l ++ x :: r).takeWhile p = l.takeWhile p := by
  induction l with
  | nil => simp [List.takeWhile, hx]
  | cons a l ih =>
    simp only [List.cons_append, List.takeWhile_cons]
    split
    · rw [ih]
    · rfl

theorem fullname_data (a n : String) :
    (a ++ "#" ++ n).data = a.data ++ Char.ofNat 35 :: n.data := by
  simp only [String.data_append, List.append_assoc]
  rfl

theorem fullname_tail (a n : String) :
    ((a ++ "#" ++ n).data.reverse.takeWhile (fun c => c != Char.ofNat 35)).reverse
      = (n.data.reverse.takeWhile (fun c => c != Char.ofNat 35)).reverse := by
  rw [fullname_data]
  have hrev : (a.data ++ Char.ofNat 35 :: n.data).reverse
      = n.data.reverse ++ Char.ofNat 35 :: a.data.reverse := by simp
  rw [hrev, takeWhile_append_stop _ _ _ _ (by simp)]

theorem fullname_hash (a n : String) : Char.ofNat 35 ∈ (a ++ "#" ++ n).data := by
  rw [fullname_data]
  simp

/-- The decoder reads a full name from what follows its last `#`, whatever the
filesystem in front of it. -/
theorem parseJobAndGuidBookmarkName_fs (check : String → Option Error) (a b n pre : String) :
    parseJobAndGuidBookmarkName check (a ++ "#" ++ n) pre
      = parseJobAndGuidBookmarkName check (b ++ "#" ++ n) pre := by
  unfold parseJobAndGuidBookmarkName
  rw [if_pos (fullname_hash a n), if_pos (fullname_hash b n)]
  simp only [fullname_tail a n, fullname_tail b n]

/-- A name the decoder accepts under the prefix `pre` starts, after its last `#`, with
`pre` and `_G_`. -/
theorem parseJobAndGuidBookmarkName_head (check : String → Option Error) (a n pre : String)
    (g : Nat) (j : JobID)
    (h : parseJobAndGuidBookmarkName check (a ++ "#" ++ n) pre = (g, j, none)) :
    (pre ++ "_G_").data <+: (n.data.reverse.takeWhile (fun c => c != Char.ofNat 35)).reverse := by
  unfold parseJobAndGuidBookmarkName at h
  rw [if_pos (fullname_hash a n)] at h
  simp only [fullname_tail a n] at h
  by_cases hp : (pre ++ "_G_").data.isPrefixOf
      (n.data.reverse.takeWhile (fun c => c != Char.ofNat 35)).reverse = true
  · exact List.isPrefixOf_iff_prefix.mp hp
  · rw [if_neg hp] at h
    simp at h

theorem bookmark_heads_exclusive (p q : String) (hp : p ∈ bookmarkNamePrefixes)
    (hq : q ∈ bookmarkNamePrefixes) (t : List Char) (h1 : (p ++ "_G_").data <+: t)
    (h2 : (q ++ "_G_").data <+: t) : p = q := by
  have h := List.prefix_or_prefix_of_prefix h1 h2
  simp only [bookmarkNamePrefixes, List.mem_cons, List.mem_singleton, List.not_mem_nil,
    or_false] at hp hq
  rcases hp with rfl | rfl | rfl <;> rcases hq with rfl | rfl | rfl <;>
    first
      | rfl
      | (exfalso; revert h; decide)

/-- A name that one decoder reads as a name of job `J` is read by every decoder that
accepts it as a name of `J`. -/
theorem bookmarkNameOf_of_parse (check validTag : String → Option Error) (J : JobID)
    (a n pre : String) (g : Nat) (hpre : pre ∈ bookmarkNamePrefixes)
    (h : parseJobAndGuidBookmarkName check (a ++ "#" ++ n) pre = (g, J, none)) :
    bookmarkNameOf (codecDeps check validTag) J n := by
  intro q hq b g2 j hj
  have hj2 : parseJobAndGuidBookmarkName check (b ++ "#" ++ n) q = (g2, j, none) := hj
  have e := bookmark_heads_exclusive pre q hpre hq _
    (parseJobAndGuidBookmarkName_head check a n pre g J h)
    (parseJobAndGuidBookmarkName_head check b n q g2 j hj2)
  subst e
  rw [parseJobAndGuidBookmarkName_fs check b a n pre, h] at hj2
  simp only [Prod.mk.injEq, and_true] at hj2
  exact hj2.2.symm

theorem bookmarkNameOf_make (check validTag : String → Option Error)
    (hclass : ∀ s, check s = none → Char.ofNat 35 ∉ s.data)
    (s : String) (J : JobID) (hJ : MakeJobID (codecDeps check validTag) s = .ok J)
    (pre : String) (hpre : pre ∈ bookmarkNamePrefixes) (fs : String) (g : Nat) (n : String)
    (hn : makeJobAndGuidBookmarkName pre fs g J.String = .ok n) :
    bookmarkNameOf (codecDeps check validTag) J n := by
  obtain ⟨hchk, rfl⟩ := MakeJobID_ok _ s J hJ
  simp only [makeJobAndGuidBookmarkName, JobID.String, Except.ok.injEq] at hn
  subst hn
  have hnh : Char.ofNat 35 ∉ pre.data := by
    simp only [bookmarkNamePrefixes, List.mem_cons, List.mem_singleton, List.not_mem_nil,
      or_false] at hpre
    rcases hpre with rfl | rfl | rfl <;> decide
  exact bookmarkNameOf_of_parse check validTag ⟨s⟩ fs _ pre (g % 2 ^ 64) hpre
    (parseJobAndGuidBookmarkName_make check hclass pre fs hnh g s hchk)

theorem ParseLastReceivedHoldTag_inv (d : Deps) (t : String) (j : JobID)
    (h : ParseLastReceivedHoldTag d t = (j, none)) :
    lastReceivedHoldTagLit.data <+: t.data := by
  unfold ParseLastReceivedHoldTag at h
  by_cases hp : lastReceivedHoldTagLit.data.isPrefixOf t.data = true
  · exact List.isPrefixOf_iff_prefix.mp hp
  · rw [if_neg hp] at h
    simp at h

theorem hold_lits_exclusive (t : List Char) (h1 : stepHoldTagLit.data <+: t)
    (h2 : lastReceivedHoldTagLit.data <+: t) : False := by
  have h := List.prefix_or_prefix_of_prefix h1 h2
  revert h
  decide

theorem holdTagOf_of_step (d : Deps) (J : JobID) (t : String)
    (h : ParseStepHoldTag d t = (J, none)) : holdTagOf d J t := by
  constructor
  · intro j hj
    rw [h] at hj
    simp only [Prod.mk.injEq, and_true] at hj
    exact hj.symm
  · intro j hj
    obtain ⟨rest, hr, _⟩ := ParseStepHoldTag_ok_inv d t J h
    exact absurd (ParseLastReceivedHoldTag_inv d t j hj) (fun h2 =>
      hold_lits_exclusive t.data ⟨rest, hr.symm⟩ h2)

theorem holdTagOf_of_lastReceived (d : Deps) (J : JobID) (t : String)
    (h : ParseLastReceivedHoldTag d t = (J, none)) : holdTagOf d J t := by
  constructor
  · intro j hj
    obtain ⟨rest, hr, _⟩ := ParseStepHoldTag_ok_inv d t j hj
    exact absurd (ParseLastReceivedHoldTag_inv d t J h) (fun h2 =>
      hold_lits_exclusive t.data ⟨rest, hr.symm⟩ h2)
  · intro j hj
    rw [h] at hj
    simp only [Prod.mk.injEq, and_true] at hj
    exact hj.symm

theorem ParseLastReceivedHoldTag_make (d : Deps) (s : String) (J : JobID)
    (hJ : MakeJobID d s = .ok J) (t : String) (ht : LastReceivedHoldTag d J = (t, none)) :
    ParseLastReceivedHoldTag d t = (J, none) := by
  obtain ⟨hchk, rfl⟩ := MakeJobID_ok d s J hJ
  have e : t = lastReceivedHoldTagLit ++ s := by
    unfold LastReceivedHoldTag at ht
    simp only [JobID.String] at ht
    split at ht
    · simp at ht
    · simp only [Prod.mk.injEq, and_true] at ht
      exact ht.symm
  subst e
  unfold ParseLastReceivedHoldTag
  have hp : lastReceivedHoldTagLit.data.isPrefixOf (lastReceivedHoldTagLit ++ s).data = true := by
    rw [List.isPrefixOf_iff_prefix, String.data_append]
    exact List.prefix_append _ _
  rw [if_pos hp]
  have hd : (lastReceivedHoldTagLit ++ s).data.drop lastReceivedHoldTagLit.data.length = s.data := by
    rw [String.data_append, List.drop_left]
  rw [hd]
  have : (⟨s.data⟩ : String) = s := rfl
  rw [this, hJ]
/-! ## What the extractors read from a tag or name of a job -/

theorem extractHold_named (d : Deps) (path : String → DatasetPath) (J : JobID)
    (h : String × FilesystemVersion × String) (ht : holdTagOf d J h.2.2)
    (a : Abstraction) (ha : extractHold d path h = some a) : a.GetJobID = J := by
  unfold extractHold at ha
  split at ha
  · cases hx : StepHoldExtractor d (path h.1) h.2.1 h.2.2 with
    | panic msg =>
      rw [hx] at ha
      cases ha
    | ret r =>
      rw [hx] at ha
      simp only at ha
      subst ha
      obtain ⟨j, hp, rfl⟩ := StepHoldExtractor_some d _ _ _ a hx
      exact ht.1 j hp
  · cases ha

theorem LastReceivedHoldExtractor_some (d : Deps) (fs : DatasetPath) (v : FilesystemVersion)
    (t : String) (a : Abstraction) (h : LastReceivedHoldExtractor d fs v t = some a) :
    ∃ j, ParseLastReceivedHoldTag d t = (j, none)
      ∧ a = lastReceivedHoldAbs fs.ToString v t j := by
  unfold LastReceivedHoldExtractor at h
  split at h
  · cases h
  · rcases hp : ParseLastReceivedHoldTag d t with ⟨j, e⟩
    rw [hp] at h
    cases e with
    | none =>
      simp only [Option.some.injEq] at h
      exact ⟨j, rfl, h.symm⟩
    | some e => cases h

theorem extractLastReceivedHold_named (d : Deps) (path : String → DatasetPath) (J : JobID)
    (h : String × FilesystemVersion × String) (ht : holdTagOf d J h.2.2)
    (a : Abstraction) (ha : extractLastReceivedHold d path h = some a) : a.GetJobID = J := by
  obtain ⟨j, hp, rfl⟩ := LastReceivedHoldExtractor_some d _ _ _ a ha
  exact ht.2 j hp

theorem cursorExtractor_some (check validTag : String → Option Error) (pre : String)
    (ty : AbstractionType) (fs : DatasetPath) (v : FilesystemVersion) (a : Abstraction)
    (h : cursorExtractor pre ty (codecDeps check validTag) fs v = some a) :
    ∃ j, parseJobAndGuidBookmarkName check (fs.ToString ++ "#" ++ v.Name) pre
        = (v.Guid, j, none)
      ∧ a = .bookmark { Type_ := ty, FS := fs.ToString, FilesystemVersion := v, JobID := j } := by
  unfold cursorExtractor at h
  split at h
  · cases h
  · rename_i hbm
    have hbm2 : v.Type_ = VersionType.Bookmark := by
      by_contra hc
      exact hbm hc
    have hpath : (codecDeps check validTag).ToAbsPath v fs = fs.ToString ++ "#" ++ v.Name := by
      simp only [codecDeps, hbm2, if_true]
    rw [hpath] at h
    have hparse : (codecDeps check validTag).parseJobAndGuidBookmarkName
        = parseJobAndGuidBookmarkName check := rfl
    rw [hparse] at h
    rcases hp : parseJobAndGuidBookmarkName check (fs.ToString ++ "#" ++ v.Name) pre
      with ⟨g, j, e⟩
    rw [hp] at h
    simp only at h
    split at h
    · cases h
    · rename_i hg
      have hg2 : g = v.Guid := by
        by_contra hc
        exact hg hc
      split at h
      · rename_i he
        simp only [Option.some.injEq] at h
        subst hg2
        subst he
        exact ⟨j, rfl, h.symm⟩
      · cases h

theorem StepBookmarkExtractor_some (check validTag : String → Option Error)
    (fs : DatasetPath) (v : FilesystemVersion) (a : Abstraction)
    (h : StepBookmarkExtractor (codecDeps check validTag) fs v = .ret (some a)) :
    ∃ j, parseJobAndGuidBookmarkName check (fs.ToString ++ "#" ++ v.Name)
        stepBookmarkNamePrefix = (v.Guid, j, none)
      ∧ a = stepBookmarkAbs fs.ToString v j := by
  unfold StepBookmarkExtractor at h
  split at h
  · cases h
  · rename_i hbm
    have hbm2 : v.Type_ = VersionType.Bookmark := by
      by_contra hc
      exact hbm hc
    have hpath : (codecDeps check validTag).ToAbsPath v fs = fs.ToString ++ "#" ++ v.Name := by
      simp only [codecDeps, hbm2, if_true]
    rw [hpath] at h
    unfold ParseStepBookmarkName at h
    have hparse : (codecDeps check validTag).parseJobAndGuidBookmarkName
        = parseJobAndGuidBookmarkName check := rfl
    rw [hparse] at h
    rcases hp : parseJobAndGuidBookmarkName check (fs.ToString ++ "#" ++ v.Name)
      stepBookmarkNamePrefix with ⟨g, j, e⟩
    cases e with
    | some e =>
      simp only [hp] at h
      split at h
      · cases h
      · simp at h
    | none =>
      simp only [hp] at h
      split at h
      · cases h
      · rename_i hg
        have hg2 : g = v.Guid := by
          by_contra hc
          exact hg hc
        simp only [if_true, Go.ret.injEq, Option.some.injEq] at h
        subst hg2
        exact ⟨j, rfl, h.symm⟩

theorem extractBookmark_named (check validTag : String → Option Error)
    (path : String → DatasetPath) (J : JobID) (b : String × FilesystemVersion)
    (hn : bookmarkNameOf (codecDeps check validTag) J b.2.Name) (a : Abstraction)
    (ha : extractBookmark (codecDeps check validTag) path b = some a) : a.GetJobID = J := by
  unfold extractBookmark at ha
  split at ha
  · cases hx : StepBookmarkExtractor (codecDeps check validTag) (path b.1) b.2 with
    | panic msg =>
      rw [hx] at ha
      cases ha
    | ret r =>
      rw [hx] at ha
      simp only at ha
      subst ha
      obtain ⟨j, hp, rfl⟩ := StepBookmarkExtractor_some check validTag _ _ a hx
      exact hn stepBookmarkNamePrefix (by simp [bookmarkNamePrefixes]) _ _ j hp
  · cases ha

theorem extractCursor_named (check validTag : String → Option Error)
    (path : String → DatasetPath) (J : JobID) (b : String × FilesystemVersion)
    (hn : bookmarkNameOf (codecDeps check validTag) J b.2.Name) (a : Abstraction)
    (ha : extractCursor (codecDeps check validTag) path b = some a) : a.GetJobID = J := by
  obtain ⟨j, hp, rfl⟩ := cursorExtractor_some check validTag _ _ _ _ a ha
  exact hn replicationCursorBookmarkNamePrefix (by simp [bookmarkNamePrefixes]) _ _ j hp

theorem extractTentativeCursor_named (check validTag : String → Option Error)
    (path : String → DatasetPath) (J : JobID) (b : String × FilesystemVersion)
    (hn : bookmarkNameOf (codecDeps check validTag) J b.2.Name) (a : Abstraction)
    (ha : extractTentativeCursor (codecDeps check validTag) path b = some a) :
    a.GetJobID = J := by
  obtain ⟨j, hp, rfl⟩ := cursorExtractor_some check validTag _ _ _ _ a ha
  exact hn tentativeReplicationCursorBookmarkNamePrefix (by simp [bookmarkNamePrefixes]) _ _ j hp

/-- An abstraction that the listing returns is addressed by a tag or name of its job. -/
theorem ListAbstractions_namedFor (check validTag : String → Option Error)
    (path : String → DatasetPath) (fsf : String → Bool) (jobID : Option JobID)
    (what : AbstractionType → Bool) (z : ZFSModel) (a : Abstraction)
    (ha : a ∈ ListAbstractions (codecDeps check validTag) path fsf jobID what z) :
    a.namedFor (codecDeps check validTag) a.GetJobID := by
  unfold ListAbstractions at ha
  rw [List.mem_filter] at ha
  obtain ⟨hmem, _⟩ := ha
  simp only [List.mem_append, List.mem_filterMap] at hmem
  rcases hmem with (((⟨h, _, hx⟩ | ⟨h, _, hx⟩) | ⟨b, _, hx⟩) | ⟨b, _, hx⟩) | ⟨b, _, hx⟩
  · unfold extractHold at hx
    split at hx
    · cases hs : StepHoldExtractor (codecDeps check validTag) (path h.1) h.2.1 h.2.2 with
      | panic msg =>
        rw [hs] at hx
        cases hx
      | ret r =>
        rw [hs] at hx
        simp only at hx
        subst hx
        obtain ⟨j, hp, rfl⟩ := StepHoldExtractor_some _ _ _ _ a hs
        exact holdTagOf_of_step _ j h.2.2 hp
    · cases hx
  · obtain ⟨j, hp, rfl⟩ := LastReceivedHoldExtractor_some _ _ _ _ a hx
    exact holdTagOf_of_lastReceived _ j h.2.2 hp
  · unfold extractBookmark at hx
    split at hx
    · cases hs : StepBookmarkExtractor (codecDeps check validTag) (path b.1) b.2 with
      | panic msg =>
        rw [hs] at hx
        cases hx
      | ret r =>
        rw [hs] at hx
        simp only at hx
        subst hx
        obtain ⟨j, hp, rfl⟩ := StepBookmarkExtractor_some check validTag _ _ a hs
        exact bookmarkNameOf_of_parse check validTag j _ _ _ _ (by simp [bookmarkNamePrefixes]) hp
    · cases hx
  · obtain ⟨j, hp, rfl⟩ := cursorExtractor_some check validTag _ _ _ _ a hx
    exact bookmarkNameOf_of_parse check validTag j _ _ _ _ (by simp [bookmarkNamePrefixes]) hp
  · obtain ⟨j, hp, rfl⟩ := cursorExtractor_some check validTag _ _ _ _ a hx
    exact bookmarkNameOf_of_parse check validTag j _ _ _ _ (by simp [bookmarkNamePrefixes]) hp

/-! ## Changes in the name of one job leave the listing of another job as it was -/

theorem listing_frame_change {α β : Type} (f : α → Option β) (p : α → Bool) (q : β → Bool)
    (k : α → Bool) (l new : List α)
    (hk : ∀ x ∈ l, k x = false → ∀ a, f x = some a → q a = false)
    (hnew : ∀ x ∈ new, ∀ a, f x = some a → q a = false) :
    (((l.filter k ++ new).filter p).filterMap f).filter q
      = ((l.filter p).filterMap f).filter q := by
  rw [listing_frame_append f p q (l.filter k) new hnew]
  exact listing_frame_filter f p q k l hk

theorem ListAbstractions_changedFor (check validTag : String → Option Error)
    (path : String → DatasetPath) (fsf : String → Bool) (what : AbstractionType → Bool)
    (J J2 : JobID) (hne : J2 ≠ J) (z z' : ZFSModel)
    (hch : z.changedFor (codecDeps check validTag) J z') :
    ListAbstractions (codecDeps check validTag) path fsf (some J2) what z'
      = ListAbstractions (codecDeps check validTag) path fsf (some J2) what z := by
  obtain ⟨kh, kb, newH, newB, hh, hb, rh, nh, rb, nb⟩ := hch
  have hq : ∀ a : Abstraction, a.GetJobID = J →
      (what a.GetType && decide (a.GetJobID = J2)) = false := by
    intro a ha
    rw [ha]
    have : decide (J = J2) = false := decide_eq_false (fun h => hne h.symm)
    rw [this, Bool.and_false]
  unfold ListAbstractions
  simp only [List.filter_append]
  rw [hh, hb]
  congr 1
  congr 1
  congr 1
  congr 1
  · exact listing_frame_change _ _ _ kh _ newH
      (fun x hx hk a ha => hq a (extractHold_named _ path J x (rh x hx hk) a ha))
      (fun x hx a ha => hq a (extractHold_named _ path J x (nh x hx) a ha))
  · exact listing_frame_change _ _ _ kh _ newH
      (fun x hx hk a ha => hq a (extractLastReceivedHold_named _ path J x (rh x hx hk) a ha))
      (fun x hx a ha => hq a (extractLastReceivedHold_named _ path J x (nh x hx) a ha))
  · exact listing_frame_change _ _ _ kb _ newB
      (fun x hx hk a ha => hq a (extractBookmark_named check validTag path J x (rb x hx hk) a ha))
      (fun x hx a ha => hq a (extractBookmark_named check validTag path J x (nb x hx) a ha))
  · exact listing_frame_change _ _ _ kb _ newB
      (fun x hx hk a ha => hq a (extractCursor_named check validTag path J x (rb x hx hk) a ha))
      (fun x hx a ha => hq a (extractCursor_named check validTag path J x (nb x hx) a ha))
  · exact listing_frame_change _ _ _ kb _ newB
      (fun x hx hk a ha =>
        hq a (extractTentativeCursor_named check validTag path J x (rb x hx hk) a ha))
      (fun x hx a ha => hq a (extractTentativeCursor_named check validTag path J x (nb x hx) a ha))
/-! ## Every step of an attempt changes the ZFS in the name of its job only -/

theorem ZFSModel.changedFor_refl (d : Deps) (J : JobID) (s : ZFSModel) : s.changedFor d J s :=
  ⟨fun _ => true, fun _ => true, [], [], by simp, by simp, by simp, by simp, by simp, by simp⟩

theorem holdTagOf_StepHoldTag (d : Deps)
    (hclass : ∀ s, d.jobIDCheck s = none → s.data ≠ [] ∧ Char.ofNat 10 ∉ s.data)
    (s : String) (J : JobID) (hJ : MakeJobID d s = .ok J) (t : String)
    (ht : StepHoldTag d J = (t, none)) : holdTagOf d J t :=
  holdTagOf_of_step d J t (ParseStepHoldTag_of_StepHoldTag d hclass s J t hJ ht)

theorem holdTagOf_LastReceivedHoldTag (d : Deps) (s : String) (J : JobID)
    (hJ : MakeJobID d s = .ok J) (t : String) (ht : LastReceivedHoldTag d J = (t, none)) :
    holdTagOf d J t :=
  holdTagOf_of_lastReceived d J t (ParseLastReceivedHoldTag_make d s J hJ t ht)

theorem ZFSModel.changedFor_of_extendsFor (check validTag : String → Option Error)
    (hclass : ∀ s, check s = none →
      s.data ≠ [] ∧ Char.ofNat 10 ∉ s.data ∧ Char.ofNat 35 ∉ s.data)
    (s : String) (J : JobID) (hJ : MakeJobID (codecDeps check validTag) s = .ok J)
    (z z' : ZFSModel) (hext : z.extendsFor (codecDeps check validTag) J z') :
    z.changedFor (codecDeps check validTag) J z' := by
  obtain ⟨newH, newB, hh, hb, ph, pb⟩ := hext
  refine ⟨fun _ => true, fun _ => true, newH, newB, by simp [hh], by simp [hb], by simp, ?_,
    by simp, ?_⟩
  · intro h hm
    exact holdTagOf_StepHoldTag _ (fun t ht => ⟨(hclass t ht).1, (hclass t ht).2.1⟩) s J hJ _
      (ph h hm)
  · intro b hm
    obtain ⟨g, hg⟩ := pb b hm
    exact bookmarkNameOf_make check validTag (fun t ht => (hclass t ht).2.2) s J hJ
      stepBookmarkNamePrefix (by simp [bookmarkNamePrefixes]) b.1 g _ hg

theorem ZFSModel.ZFSHold_changedFor (d : Deps) (J : JobID) (s s' : ZFSModel) (fs : String)
    (v : FilesystemVersion) (tag : String) (r : Option Error) (ht : holdTagOf d J tag)
    (h : s.ZFSHold fs v tag = (r, s')) : s.changedFor d J s' := by
  unfold ZFSModel.ZFSHold at h
  split at h
  · cases h
    exact ZFSModel.changedFor_refl d J s
  · split at h
    · cases h
      exact ZFSModel.changedFor_refl d J s
    · cases h
      refine ⟨fun _ => true, fun _ => true, [(fs, v, tag)], [], by simp, by simp, by simp, ?_,
        by simp, by simp⟩
      intro x hx
      simp only [List.mem_singleton] at hx
      subst hx
      exact ht

theorem ZFSModel.ZFSBookmark_changedFor (d : Deps) (J : JobID) (s s' : ZFSModel) (fs : String)
    (v : FilesystemVersion) (n : String) (r : Except Error FilesystemVersion)
    (hn : bookmarkNameOf d J n) (h : s.ZFSBookmark fs v n = (r, s')) :
    s.changedFor d J s' := by
  unfold ZFSModel.ZFSBookmark at h
  split at h
  · cases h
    exact ZFSModel.changedFor_refl d J s
  · split at h
    · split at h
      · cases h
        exact ZFSModel.changedFor_refl d J s
      · cases h
        exact ZFSModel.changedFor_refl d J s
    · cases h
      refine ⟨fun _ => true, fun _ => true, [],
        [⟨fs, ⟨.Bookmark, n, v.Guid, v.CreateTXG, v.Creation⟩⟩], by simp, by simp, by simp,
        by simp, by simp, ?_⟩
      intro x hx
      simp only [List.mem_singleton] at hx
      subst hx
      exact hn

theorem Abstraction.Destroy_changedFor (d : Deps) (J : JobID) (a : Abstraction)
    (ha : a.namedFor d J) (s : ZFSModel) : s.changedFor d J (a.Destroy s).2 := by
  cases a with
  | hold h =>
    refine ⟨fun x => !(x.1 == h.FS && x.2.1.Name == h.FilesystemVersion.Name && x.2.2 == h.Tag),
      fun _ => true, [], [], by simp [Abstraction.Destroy, ZFSModel.release],
      by simp [Abstraction.Destroy, ZFSModel.release], ?_, by simp, by simp, by simp⟩
    intro x _ hk
    simp only [Bool.not_eq_false', Bool.and_eq_true, beq_iff_eq] at hk
    rw [hk.2]
    exact ha
  | bookmark b =>
    refine ⟨fun _ => true, fun x => !(x.1 == b.FS && x.2.Name == b.FilesystemVersion.Name),
      [], [], by simp [Abstraction.Destroy, ZFSModel.destroyBookmark],
      by simp [Abstraction.Destroy, ZFSModel.destroyBookmark], by simp, by simp, ?_, by simp⟩
    intro x _ hk
    simp only [Bool.not_eq_false', Bool.and_eq_true, beq_iff_eq] at hk
    rw [hk.2]
    exact ha

theorem destroyAll_other_jobs (check validTag : String → Option Error)
    (path : String → DatasetPath) (fsf : String → Bool) (what : AbstractionType → Bool)
    (J J2 : JobID) (hne : J2 ≠ J) (as : List Abstraction)
    (has : ∀ a ∈ as, a.namedFor (codecDeps check validTag) J) (s : ZFSModel) :
    ListAbstractions (codecDeps check validTag) path fsf (some J2) what (destroyAll as s).2
      = ListAbstractions (codecDeps check validTag) path fsf (some J2) what s := by
  induction as generalizing s with
  | nil => rfl
  | cons a as ih =>
    have h1 := ListAbstractions_changedFor check validTag path fsf what J J2 hne s _
      (Abstraction.Destroy_changedFor _ J a (has a (List.mem_cons_self _ _)) s)
    have ih' := ih (fun b hb => has b (List.mem_cons_of_mem _ hb)) (a.Destroy s).2
    rcases hd : a.Destroy s with ⟨e, s1⟩
    rw [hd] at h1 ih'
    cases e with
    | none =>
      simp only [destroyAll, hd]
      rw [ih', h1]
    | some e =>
      simp only [destroyAll, hd]
      rw [ih', h1]

theorem cached_namedFor (check validTag : String → Option Error)
    (path : String → DatasetPath) (fsf : String → Bool) (jobID : Option JobID)
    (what : AbstractionType → Bool) (z : ZFSModel) (J : JobID) (p : Abstraction → Bool)
    (hp : ∀ a, p a = true → a.GetJobID = J) :
    ∀ a ∈ (ListAbstractions (codecDeps check validTag) path fsf jobID what z).filter p,
      a.namedFor (codecDeps check validTag) J := by
  intro a ha
  rw [List.mem_filter] at ha
  have h := ListAbstractions_namedFor check validTag path fsf jobID what z a ha.1
  rw [hp a ha.2] at h
  exact h

theorem MoveReplicationCursor_other_jobs (check validTag : String → Option Error)
    (hclass : ∀ s, check s = none →
      s.data ≠ [] ∧ Char.ofNat 10 ∉ s.data ∧ Char.ofNat 35 ∉ s.data)
    (path : String → DatasetPath) (fsf : String → Bool) (what : AbstractionType → Bool)
    (s : String) (J J2 : JobID) (hJ : MakeJobID (codecDeps check validTag) s = .ok J)
    (hne : J2 ≠ J) (fs : String) (v : FilesystemVersion) (cfs : String) (filled z : ZFSModel) :
    ListAbstractions (codecDeps check validTag) path fsf (some J2) what
        (MoveReplicationCursor (codecDeps check validTag) fs v J
          (cachedAbstractions (codecDeps check validTag) path cfs filled) z).2
      = ListAbstractions (codecDeps check validTag) path fsf (some J2) what z := by
  have hcreate : ListAbstractions (codecDeps check validTag) path fsf (some J2) what
        (CreateReplicationCursor (codecDeps check validTag) fs v J z).2
      = ListAbstractions (codecDeps check validTag) path fsf (some J2) what z := by
    unfold CreateReplicationCursor
    cases hn : ReplicationCursorBookmarkName (codecDeps check validTag) fs v.Guid J with
    | error e => rfl
    | ok name =>
      simp only
      have hname : bookmarkNameOf (codecDeps check validTag) J name :=
        bookmarkNameOf_make check validTag (fun t ht => (hclass t ht).2.2) s J hJ
          replicationCursorBookmarkNamePrefix (by simp [bookmarkNamePrefixes]) fs v.Guid name hn
      rcases hb : z.ZFSBookmark fs v name with ⟨r, z1⟩
      have hch := ZFSModel.ZFSBookmark_changedFor _ J z z1 fs v name r hname hb
      have := ListAbstractions_changedFor check validTag path fsf what J J2 hne z z1 hch
      cases r <;> exact this
  unfold MoveReplicationCursor
  rcases hc : CreateReplicationCursor (codecDeps check validTag) fs v J z with ⟨r, z1⟩
  rw [hc] at hcreate
  cases r with
  | error e => exact hcreate
  | ok cur =>
    simp only
    rw [destroyAll_other_jobs check validTag path fsf what J J2 hne _ _ z1]
    · exact hcreate
    · unfold cachedAbstractions
      apply cached_namedFor
      intro a ha
      simp only [Bool.and_eq_true, decide_eq_true_eq] at ha
      exact ha.1.2

theorem MoveLastReceivedHold_other_jobs (check validTag : String → Option Error)
    (path : String → DatasetPath) (fsf : String → Bool) (what : AbstractionType → Bool)
    (s : String) (J J2 : JobID) (hJ : MakeJobID (codecDeps check validTag) s = .ok J)
    (hne : J2 ≠ J) (fs : String) (v : FilesystemVersion) (z : ZFSModel) :
    ListAbstractions (codecDeps check validTag) path fsf (some J2) what
        (MoveLastReceivedHold (codecDeps check validTag) path fs v J z).2
      = ListAbstractions (codecDeps check validTag) path fsf (some J2) what z := by
  have hcreate : ListAbstractions (codecDeps check validTag) path fsf (some J2) what
        (CreateLastReceivedHold (codecDeps check validTag) fs v J z).2
      = ListAbstractions (codecDeps check validTag) path fsf (some J2) what z := by
    unfold CreateLastReceivedHold
    rcases ht : LastReceivedHoldTag (codecDeps check validTag) J with ⟨tag, e⟩
    cases e with
    | some e => rfl
    | none =>
      simp only
      have htag := holdTagOf_LastReceivedHoldTag _ s J hJ tag ht
      rcases hb : z.ZFSHold fs v tag with ⟨r, z1⟩
      have hch := ZFSModel.ZFSHold_changedFor _ J z z1 fs v tag r htag hb
      have := ListAbstractions_changedFor check validTag path fsf what J J2 hne z z1 hch
      cases r <;> exact this
  unfold MoveLastReceivedHold
  rcases hc : CreateLastReceivedHold (codecDeps check validTag) fs v J z with ⟨r, z1⟩
  rw [hc] at hcreate
  cases r with
  | error e => exact hcreate
  | ok cur =>
    simp only
    rw [destroyAll_other_jobs check validTag path fsf what J J2 hne _ _ z1]
    · exact hcreate
    · intro a ha
      rw [List.mem_filter] at ha
      have hmem := ha.1
      have h := ListAbstractions_namedFor check validTag path _ _ _ z1 a hmem
      have hj : a.GetJobID = J := by
        unfold ListAbstractions at hmem
        rw [List.mem_filter] at hmem
        have h2 := hmem.2
        simp only [Bool.and_eq_true, decide_eq_true_eq] at h2
        exact h2.2
      rw [hj] at h
      exact h

theorem collectStale_other_jobs (check validTag : String → Option Error)
    (path : String → DatasetPath) (fsf : String → Bool) (what : AbstractionType → Bool)
    (J J2 : JobID) (hne : J2 ≠ J) (live : List Abstraction) (cfs : String)
    (filled z : ZFSModel) :
    ListAbstractions (codecDeps check validTag) path fsf (some J2) what
        (collectStale J live (cachedAbstractions (codecDeps check validTag) path cfs filled) z).2
      = ListAbstractions (codecDeps check validTag) path fsf (some J2) what z := by
  unfold collectStale
  apply destroyAll_other_jobs check validTag path fsf what J J2 hne
  unfold cachedAbstractions
  apply cached_namedFor
  intro a ha
  simp only [Bool.and_eq_true, decide_eq_true_eq] at ha
  exact ha.1

theorem ZFSModel.findBookmark_name (s : ZFSModel) (fs n : String) (b : FilesystemVersion)
    (h : s.findBookmark fs n = some b) : b.Name = n := by
  unfold ZFSModel.findBookmark at h
  cases hf : s.bookmarks.find? (fun b => b.1 == fs && b.2.Name == n) with
  | none =>
    rw [hf] at h
    cases h
  | some x =>
    rw [hf] at h
    simp only [Option.map_some', Option.some.injEq] at h
    have hx := List.find?_some hf
    simp only [Bool.and_eq_true, beq_iff_eq] at hx
    rw [← h]
    exact hx.2

theorem ZFSModel.ZFSBookmark_ok_name (s s1 : ZFSModel) (fs : String) (v : FilesystemVersion)
    (n : String) (bm : FilesystemVersion) (h : s.ZFSBookmark fs v n = (.ok bm, s1)) :
    bm.Name = n := by
  unfold ZFSModel.ZFSBookmark at h
  split at h
  · cases h
  · cases hf : s.findBookmark fs n with
    | some existing =>
      rw [hf] at h
      simp only at h
      split at h
      · cases h
        exact ZFSModel.findBookmark_name s fs n _ hf
      · cases h
    | none =>
      rw [hf] at h
      cases h
      rfl

theorem CreateTentativeReplicationCursor_other_jobs (check validTag : String → Option Error)
    (hclass : ∀ s, check s = none →
      s.data ≠ [] ∧ Char.ofNat 10 ∉ s.data ∧ Char.ofNat 35 ∉ s.data)
    (path : String → DatasetPath) (fsf : String → Bool) (what : AbstractionType → Bool)
    (s : String) (J J2 : JobID) (hJ : MakeJobID (codecDeps check validTag) s = .ok J)
    (hne : J2 ≠ J) (fs : String) (v : FilesystemVersion) (z : ZFSModel) :
    ListAbstractions (codecDeps check validTag) path fsf (some J2) what
        (CreateTentativeReplicationCursor (codecDeps check validTag) fs v J z).2
      = ListAbstractions (codecDeps check validTag) path fsf (some J2) what z
    ∧ ∀ a, (CreateTentativeReplicationCursor (codecDeps check validTag) fs v J z).1 = .ok a →
        a.namedFor (codecDeps check validTag) J := by
  unfold CreateTentativeReplicationCursor
  cases hn : TentativeReplicationCursorBookmarkName (codecDeps check validTag) fs v.Guid J with
  | error e =>
    refine ⟨rfl, ?_⟩
    intro a ha
    cases ha
  | ok name =>
    simp only
    have hname : bookmarkNameOf (codecDeps check validTag) J name :=
      bookmarkNameOf_make check validTag (fun t ht => (hclass t ht).2.2) s J hJ
        tentativeReplicationCursorBookmarkNamePrefix (by simp [bookmarkNamePrefixes]) fs v.Guid
        name hn
    rcases hb : z.ZFSBookmark fs v name with ⟨r, z1⟩
    have hch := ZFSModel.ZFSBookmark_changedFor _ J z z1 fs v name r hname hb
    have hl := ListAbstractions_changedFor check validTag path fsf what J J2 hne z z1 hch
    cases r with
    | error e =>
      refine ⟨hl, ?_⟩
      intro a ha
      cases ha
    | ok bm =>
      refine ⟨hl, ?_⟩
      intro a ha
      simp only [Except.ok.injEq] at ha
      subst ha
      show bookmarkNameOf (codecDeps check validTag) J bm.Name
      rw [ZFSModel.ZFSBookmark_ok_name z z1 fs v name bm hb]
      exact hname

/-- C15. Over the modelled replication attempt, listing and name codec, with a
`MakeJobID` whose admitted names are non-empty and contain neither a line feed nor `#`: an
attempt run for a job, with identity `sjid` on the sending and `rjid` on the receiving
side, never touches the abstractions of another job. For every job `J2` other than those
two, every filesystem filter (the sending and the receiving filesystem for one) and every
set of kinds, the abstractions owned by `J2` that are listed after the attempt are those
listed before it, whatever the strategy, the step, the outcome of the send and the age of
the cache. -/
theorem C15_replicationAttempt_other_jobs (check validTag : String → Option Error)
    (hclass : ∀ s, check s = none →
      s.data ≠ [] ∧ Char.ofNat 10 ∉ s.data ∧ Char.ofNat 35 ∉ s.data)
    (path : String → DatasetPath) (fsf : String → Bool) (what : AbstractionType → Bool)
    (t : Attempt) (ss rs : String) (J2 : JobID) (w : Sys ZFSModel)
    (hs : MakeJobID (codecDeps check validTag) ss = .ok t.sjid)
    (hr : MakeJobID (codecDeps check validTag) rs = .ok t.rjid)
    (hne1 : J2 ≠ t.sjid) (hne2 : J2 ≠ t.rjid) :
    ListAbstractions (codecDeps check validTag) path fsf (some J2) what
        (replicationAttempt (codecDeps check validTag) path t w)
      = ListAbstractions (codecDeps check validTag) path fsf (some J2) what w.zfs := by
  have hpre : ListAbstractions (codecDeps check validTag) path fsf (some J2) what
        (t.strategy.PreSend (codecDeps check validTag) modelZFS w t.sjid t.sendArgs).world.zfs
      = ListAbstractions (codecDeps check validTag) path fsf (some J2) what w.zfs :=
    ListAbstractions_changedFor check validTag path fsf what t.sjid J2 hne1 _ _
      (ZFSModel.changedFor_of_extendsFor check validTag hclass ss t.sjid hs _ _
        (PreSend_extendsFor _ t.strategy w t.sjid t.sendArgs))
  unfold replicationAttempt
  simp only
  cases keptMarkers
      (t.strategy.PreSend (codecDeps check validTag) modelZFS w t.sjid t.sendArgs).result with
  | none => exact hpre
  | some markers =>
    simp only
    rw [collectStale_other_jobs check validTag path fsf what t.sjid J2 hne1]
    obtain ⟨htent, hnamed⟩ := CreateTentativeReplicationCursor_other_jobs check validTag hclass
      path fsf what ss t.sjid J2 hs hne1 t.sendArgs.FS t.sendArgs.ToVersion
      (t.strategy.PreSend (codecDeps check validTag) modelZFS w t.sjid t.sendArgs).world.zfs
    rcases hte : CreateTentativeReplicationCursor (codecDeps check validTag) t.sendArgs.FS
      t.sendArgs.ToVersion t.sjid
      (t.strategy.PreSend (codecDeps check validTag) modelZFS w t.sjid t.sendArgs).world.zfs
      with ⟨tr, tz⟩
    rw [hte] at htent hnamed
    simp only at htent hnamed ⊢
    have hcur : ∀ c : Except Error Abstraction × ZFSModel,
        c = (if t.completed then
            MoveReplicationCursor (codecDeps check validTag) t.sendArgs.FS t.sendArgs.ToVersion
              t.sjid (cachedAbstractions (codecDeps check validTag) path t.sendArgs.FS
                t.cacheAtMove) tz
          else (.error (.errorf "send interrupted"), tz)) →
        ListAbstractions (codecDeps check validTag) path fsf (some J2) what c.2
          = ListAbstractions (codecDeps check validTag) path fsf (some J2) what w.zfs := by
      intro c hc
      rw [hc]
      split
      · rw [MoveReplicationCursor_other_jobs check validTag hclass path fsf what ss t.sjid J2
          hs hne1]
        rw [htent, hpre]
      · rw [htent, hpre]
    generalize hcd : (if t.completed then
            MoveReplicationCursor (codecDeps check validTag) t.sendArgs.FS t.sendArgs.ToVersion
              t.sjid (cachedAbstractions (codecDeps check validTag) path t.sendArgs.FS
                t.cacheAtMove) tz
          else (.error (.errorf "send interrupted"), tz)) = c
    have hc2 := hcur c hcd.symm
    obtain ⟨cr, cz⟩ := c
    simp only at hc2 ⊢
    have hcommitted : ListAbstractions (codecDeps check validTag) path fsf (some J2) what
        (commitCursor tr cr cz)
        = ListAbstractions (codecDeps check validTag) path fsf (some J2) what w.zfs := by
      cases tr with
      | error e => cases cr <;> exact hc2
      | ok ta =>
        cases cr with
        | error e => exact hc2
        | ok c0 =>
          show ListAbstractions (codecDeps check validTag) path fsf (some J2) what
            (ta.Destroy cz).2 = _
          rw [ListAbstractions_changedFor check validTag path fsf what t.sjid J2 hne1 cz _
            (Abstraction.Destroy_changedFor _ t.sjid ta (hnamed ta rfl) cz)]
          exact hc2
    split
    · rw [MoveLastReceivedHold_other_jobs check validTag path fsf what rs t.rjid J2 hr hne2]
      exact hcommitted
    · exact hcommitted

/-- An instance of C15: the second replication of the platform test, with the cache
filled right after the first replication, leaves the four abstractions of `other-job`
on the sending and the receiving filesystem listed. -/
theorem C15_replicationAttempt_other_jobs_witness :
    ListAbstractions (codecDeps sampleJobIDCheck sampleDeps.ValidHoldTag) samplePath
        (fun f => f == "pool/sender" || f == "pool/receiver") (some otherJob) AbstractionTypesAll
        (replicationAttempt (codecDeps sampleJobIDCheck sampleDeps.ValidHoldTag) samplePath
          (secondReplication zfsAfterFirst) (Sys.start zfsBeforeSecond))
      = ListAbstractions (codecDeps sampleJobIDCheck sampleDeps.ValidHoldTag) samplePath
          (fun f => f == "pool/sender" || f == "pool/receiver") (some otherJob) AbstractionTypesAll
          (Sys.start zfsBeforeSecond).zfs :=
  C15_replicationAttempt_other_jobs sampleJobIDCheck sampleDeps.ValidHoldTag
    sampleJobIDCheck_class samplePath (fun f => f == "pool/sender" || f == "pool/receiver")
    AbstractionTypesAll (secondReplication zfsAfterFirst) "sender-job" "receiver-job" otherJob
    (Sys.start zfsBeforeSecond) rfl rfl (by decide) (by decide)

/-- The second replication of the platform test with the cache invalidated before it:
the sender is left with the foreign bookmark `#2`, the cursor of `other-job` on `@2` and
the cursor of `sender-job` on `@5`, and the receiver with the last-received hold of
`other-job` on `@3` and that of `receiver-job` on `@5`. -/
theorem secondReplication_cache_invalidated :
    (replicationAttempt modelDeps samplePath (secondReplication zfsBeforeSecond)
        (Sys.start zfsBeforeSecond)).bookmarks.map (fun b => (b.1, b.2.Name))
      = [("pool/sender", "2"),
         ("pool/sender", "zrepl_CURSOR_G_0000000000000066_J_other-job"),
         ("pool/sender", "zrepl_CURSOR_G_0000000000000069_J_sender-job")]
    ∧ ((replicationAttempt modelDeps samplePath (secondReplication zfsBeforeSecond)
        (Sys.start zfsBeforeSecond)).holds.filter (fun h => h.1 == "pool/receiver")).map
          (fun h => (h.2.1.Name, h.2.2))
      = [("3", "zrepl_last_received_J_other-job"), ("5", "zrepl_last_received_J_receiver-job")] := by
  constructor <;> rfl

/-- The second replication of the platform test with the cache as it was filled after
the first replication: the stale cursor of `sender-job` on `@2`, which the cache does not
know, stays next to the three other bookmarks. -/
theorem secondReplication_cache_kept :
    (replicationAttempt modelDeps samplePath (secondReplication zfsAfterFirst)
        (Sys.start zfsBeforeSecond)).bookmarks.map (fun b => (b.1, b.2.Name))
      = [("pool/sender", "2"),
         ("pool/sender", "zrepl_CURSOR_G_0000000000000066_J_sender-job"),
         ("pool/sender", "zrepl_CURSOR_G_0000000000000066_J_other-job"),
         ("pool/sender", "zrepl_CURSOR_G_0000000000000069_J_sender-job")] := by
  rfl

end Zrepl
